import Mathlib

/-!
# BPPrint: format-string decomposer and type-directed substituter

A shallow embedding of `bpprint/Format.cpp`, `bpprint/Format.hpp` and
`bpprint/Printf_wrap.cpp`.

* `std::string` is a `List Char` (a byte sequence; it may hold NUL bytes).
* A `const char *` / `char[]` buffer is a `List Char` read through `c_str`
  (the bytes before the first NUL).
* A position `idx` in `str` is represented by the remainder `str.substr(idx)`.
* `throw std::runtime_error(msg)` is `Except.error e`, with one constructor of
  `Error` for each message.
* An `int` is an `Int` between `INT_MIN` and `INT_MAX` (32 bits); an `int`
  expression that can leave that range is reduced by `int_wrap`.
* The host C library's `snprintf` is a parameter of the substituter;
  `conforming_snprintf conv` is the C-conforming one over a host rendering `conv`
  of single conversions, with `c_printf` the directive semantics of the C standard;
  it fails with `-1` when the output is longer than `INT_MAX`.
-/

namespace bpprint

/-! ## C library helpers -/

/-- The terminating byte of a C string. -/
def NUL : Char := Char.ofNat 0

/-- C-string reading of a buffer: the bytes before the first NUL. -/
def c_str (buf : List Char) : List Char :=
  buf.takeWhile (fun c => c != NUL)

/-- Truth of `strchr(s, c) != nullptr`: the terminating NUL counts as part of `s`. -/
def strchr (s : List Char) (c : Char) : Bool :=
  (c_str s).elem c || c == NUL

/-- C `strcmp`: difference of the first pair of differing bytes, `0` when the
C strings are equal. -/
def strcmp : List Char → List Char → Int
  | [], [] => 0
  | [], b :: _ => if b = NUL then 0 else - (b.toNat : Int)
  | a :: _, [] => if a = NUL then 0 else (a.toNat : Int)
  | a :: as, b :: bs =>
    if a = b then (if a = NUL then 0 else strcmp as bs)
    else (a.toNat : Int) - (b.toNat : Int)

/-- C `isdigit` in the "C" locale. -/
def isdigit (c : Char) : Bool := c.isDigit

/-- C `memcpy(dst, src, n)` on buffers held as lists. -/
def memcpy (dst src : List Char) (n : Nat) : List Char :=
  src.take n ++ dst.drop n

/-- The largest `int` (32 bits, two's complement). -/
def INT_MAX : Int := 2147483647

/-- The value of an `int` expression whose mathematical result is `x`: `x`
reduced modulo `2^32` into the range of `int` (signed overflow wraps around). -/
def int_wrap (x : Int) : Int :=
  (x + 2147483648) % 4294967296 - 2147483648

/-! ## Types of the compatibility table -/

/-- The types for which `PFTypeMap` is specialised (Printf_wrap.cpp 22-45). -/
inductive CType
  | bool | char
  | signed_char | signed_short | signed_int | signed_long | signed_long_long
  | unsigned_char | unsigned_short | unsigned_int | unsigned_long | unsigned_long_long
  | float | double | long_double
  | const_char_ptr | char_ptr | string
  | const_void_ptr | void_ptr
deriving DecidableEq, Repr

/-- The exceptions thrown by the library; every one is a `std::runtime_error`
and the constructor comment gives its message. -/
inductive Error
  /-- "Zero characters for type specifier" -/
  | zero_type_spec
  /-- "Format length specification must be 0, 1, or 2 characters" -/
  | length_too_long
  /-- "Invalid length specifier" -/
  | invalid_length
  /-- "Not enough arguments given to format string" -/
  | not_enough_args
  /-- "Too many arguments to format string" -/
  | too_many_args
  /-- "Bad length specifier " + length + " for type " + typeid(T).name() -/
  | bad_length (length : List Char) (T : CType)
  /-- "Bad type specifier " + spec + " for type " + typeid(T).name() -/
  | bad_type (spec : Char) (T : CType)
  /-- "Error here: " + std::to_string(n2) -/
  | render_error (n2 : Int)
  /-- The exception `std::bad_alloc` of `new char[...]` (not a `std::runtime_error`) -/
  | bad_alloc
deriving DecidableEq, Repr

/-! ## Format.hpp / Format.cpp -/

/-- Information about a single format specification (`struct FormatInfo`).
The field `pre` is the member `prefix`; `length` is the `char[3]` buffer. -/
structure FormatInfo where
  pre : List Char
  suffix : List Char
  format : List Char
  length : List Char
  spec : Char
deriving DecidableEq, Repr

def validflags : List Char := ['+', '-', ' ', '#', '0']

def validlengthchars : List Char := ['h', 'l', 'j', 'z', 't', 'L']

def validspec : List Char :=
  ['d', 'i', 'u', 'o', 'x', 'X', 'f', 'F', 'e', 'E', 'g', 'G', 'a', 'A', 'c', 's', 'p', '?']

def validlengths : List (List Char) :=
  [['h', 'h'], ['h'], ['l'], ['l', 'l'], ['j'], ['z'], ['t'], ['L']]

/-- The `for(idx = 0; idx < len; ++idx)` loop of `get_next_format_`
(Format.cpp 42-57). Returns the text appended to `fi.prefix` and
`str.substr(idx)` for the final `idx` (empty iff `idx >= len`). -/
def scan_literal : List Char → List Char × List Char
  | [] => ([], [])
  | c :: rest =>
    if c = '%' then
      match rest with
      | c2 :: rest2 =>
        if c2 = '%' then
          let r := scan_literal rest2
          ('%' :: r.1, r.2)
        else ([], c :: rest)
      | [] => ([], c :: rest)
    else
      let r := scan_literal rest
      (c :: r.1, r.2)

/-- The precision part (Format.cpp 82-89): from `str.substr(prec_begin)` to the
text of the precision and `str.substr(length_begin)`. -/
def scan_precision (at_prec : List Char) : List Char × List Char :=
  match at_prec with
  | c :: rest =>
    if c = '.' then ('.' :: rest.takeWhile isdigit, rest.dropWhile isdigit)
    else ([], at_prec)
  | [] => ([], at_prec)

/-- The function `get_next_format_` (Format.cpp 10-139). The result is the
returned boolean with the workspace after the call, or the thrown message. -/
def get_next_format_ (fi : FormatInfo) (str : List Char) :
    Except Error (Bool × FormatInfo) :=
  let len := str.length
  let fi := { fi with pre := [], format := [] }
  if len = 0 then .ok (false, fi)
  else
    let scanned := scan_literal str
    let fi := { fi with pre := fi.pre ++ scanned.1 }
    -- `str.substr(idx)`; `idx >= len` iff it is empty
    match scanned.2 with
    | [] => .ok (false, fi)
    | pct :: at_flag_begin =>
      let at_width_begin := at_flag_begin.dropWhile (strchr validflags)
      let at_prec_begin := at_width_begin.dropWhile isdigit
      let at_length_begin := (scan_precision at_prec_begin).2
      let at_spec_begin := at_length_begin.dropWhile (strchr validlengthchars)
      -- `end - spec_begin`
      let spec_len : Nat :=
        match at_spec_begin with
        | c :: _ => if strchr validspec c then 1 else 0
        | [] => 0
      if spec_len ≠ 1 then
        .error .zero_type_spec
      else
        let length_len := at_length_begin.length - at_spec_begin.length
        if length_len > 2 then
          .error .length_too_long
        else
          -- `str.substr(fmt_begin, length_begin - fmt_begin)`
          let fi := { fi with format :=
            (pct :: at_flag_begin).take ((pct :: at_flag_begin).length - at_length_begin.length) }
          let fi := { fi with length := memcpy [NUL, NUL, NUL] at_length_begin length_len }
          let found := validlengths.any (fun v => strcmp v fi.length != 0)
          if !found then
            .error .invalid_length
          else
            let fi := { fi with spec := at_spec_begin.headD NUL }
            let fi := { fi with suffix := at_spec_begin.tail }
            .ok (true, fi)

/-! ## Printf_wrap.cpp -/

/-- A floating-point value, by the number it denotes; the conversion
`float → double` keeps it. -/
inductive FloatVal
  | finite (negative : Bool) (mantissa : Nat) (exponent : Int)
  | infinite (negative : Bool)
  | nan
deriving DecidableEq, Repr

/-- An argument of `format_string`: a value of one of the types for which
`ValidPrintfArg` is true (Printf_wrap.hpp 83-109). A character pointer comes
with the C string it points to; `pointer` is any other `T *`. -/
inductive Arg
  | bool (b : Bool)
  | char (c : Char)
  | signed_char (v : Int)
  | signed_short (v : Int)
  | signed_int (v : Int)
  | signed_long (v : Int)
  | signed_long_long (v : Int)
  | unsigned_char (v : Nat)
  | unsigned_short (v : Nat)
  | unsigned_int (v : Nat)
  | unsigned_long (v : Nat)
  | unsigned_long_long (v : Nat)
  | float (v : FloatVal)
  | double (v : FloatVal)
  | long_double (v : FloatVal)
  | const_char_ptr (addr : Nat) (target : List Char)
  | char_ptr (addr : Nat) (target : List Char)
  | string (addr : Nat) (data : List Char)
  | pointer (addr : Nat)
deriving DecidableEq, Repr

/-- A value of a `cast_type`, as handed to `snprintf`. The pointer casts
`char * → const char * → const void *` keep the address and what is stored
there, so all pointers share one constructor. -/
inductive CValue
  | int (v : Int)
  | char (c : Char)
  | signed_char (v : Int)
  | signed_short (v : Int)
  | signed_long (v : Int)
  | signed_long_long (v : Int)
  | unsigned_char (v : Nat)
  | unsigned_short (v : Nat)
  | unsigned_int (v : Nat)
  | unsigned_long (v : Nat)
  | unsigned_long_long (v : Nat)
  | double (v : FloatVal)
  | long_double (v : FloatVal)
  | pointer (addr : Nat) (target : List Char)
deriving DecidableEq, Repr

/-- The host C library's `snprintf(buf, size, fmt, args...)`: from the buffer
size, the format (a C string) and the arguments to the returned `int` and the
content of the buffer after the call. -/
abbrev Snprintf := Nat → List Char → List CValue → Int × List Char

/-- One specialisation of `PFTypeMap`: `pflength` and `pftype`. -/
structure PFEntry where
  pflength : List Char
  pftype : List Char
deriving DecidableEq, Repr

/-- The table built by `DECLARE_PFTYPE` (Printf_wrap.cpp 22-45). -/
def PFTypeMap : CType → PFEntry
  | .bool => ⟨[], ['d']⟩
  | .char => ⟨[], ['c']⟩
  | .signed_char => ⟨['h', 'h'], ['d']⟩
  | .signed_short => ⟨['h'], ['d']⟩
  | .signed_int => ⟨[], ['d']⟩
  | .signed_long => ⟨['l'], ['d']⟩
  | .signed_long_long => ⟨['l', 'l'], ['d']⟩
  | .unsigned_char => ⟨['h', 'h'], ['u', 'o', 'x', 'X']⟩
  | .unsigned_short => ⟨['h'], ['u', 'o', 'x', 'X']⟩
  | .unsigned_int => ⟨[], ['u', 'o', 'x', 'X']⟩
  | .unsigned_long => ⟨['l'], ['u', 'o', 'x', 'X']⟩
  | .unsigned_long_long => ⟨['l', 'l'], ['u', 'o', 'x', 'X']⟩
  | .float => ⟨[], ['f', 'F', 'e', 'E', 'a', 'A', 'g', 'G']⟩
  | .double => ⟨[], ['f', 'F', 'e', 'E', 'a', 'A', 'g', 'G']⟩
  | .long_double => ⟨['L'], ['f', 'F', 'e', 'E', 'a', 'A', 'g', 'G']⟩
  | .const_char_ptr => ⟨[], ['s']⟩
  | .char_ptr => ⟨[], ['s']⟩
  | .string => ⟨[], ['s']⟩
  | .const_void_ptr => ⟨[], ['p']⟩
  | .void_ptr => ⟨[], ['p']⟩

/-- The template `handle_fmt_single_` (Printf_wrap.cpp 65-99): the new value of
`fmt`, or the exception. `n`, `neededsize` and `n2` are `int`s: `n + 1` is an
`int` addition and wraps around when `n` is `INT_MAX`; the negative `neededsize`
is then cast to a `size_t` larger than any object, so `new char[...]` throws
`std::bad_alloc` and `snprintf` is not called a second time. An allocation of a
positive `neededsize` is taken to succeed. -/
def handle_fmt_single_ (snprintf : Snprintf) (fmt : List Char) (subst : CValue) :
    Except Error (List Char) :=
  let bufsize : Int := 256
  let r := snprintf 256 (c_str fmt) [subst]
  let n := r.1
  if n ≥ bufsize then
    let neededsize := int_wrap (n + 1)
    if neededsize < 0 then .error .bad_alloc
    else
      let r2 := snprintf neededsize.toNat (c_str fmt) [subst]
      let n2 := r2.1
      if n2 < 0 ∨ n2 ≥ neededsize then .error (.render_error n2)
      else .ok (c_str r2.2)
  else .ok (c_str r.2)

/-- The generic template `handle_fmt_<T>` (Printf_wrap.cpp 103-152) instantiated
at `T`; `subst` is the argument after `static_cast<cast_type>`. -/
def handle_fmt_T (snprintf : Snprintf) (T : CType) (fmt length : List Char) (spec : Char)
    (subst : CValue) : Except Error (List Char) :=
  let pftype := (PFTypeMap T).pftype
  let pflength := (PFTypeMap T).pflength
  if (c_str length).length = 0 ∧ spec = '?' then
    handle_fmt_single_ snprintf (fmt ++ c_str pflength ++ [pftype.headD NUL]) subst
  else if strcmp length pflength ≠ 0 then
    .error (.bad_length (c_str length) T)
  else if strchr pftype spec = false then
    .error (.bad_type spec T)
  else
    handle_fmt_single_ snprintf (fmt ++ c_str length ++ [spec]) subst

/-- The overload `handle_fmt_(std::string &, const char *, char, const char *)`
(Printf_wrap.cpp 157-164). -/
def handle_fmt_const_char_ptr (snprintf : Snprintf) (fmt length : List Char) (spec : Char)
    (addr : Nat) (target : List Char) : Except Error (List Char) :=
  if spec = 's' ∨ spec = '?' then
    handle_fmt_T snprintf .const_char_ptr fmt length spec (.pointer addr target)
  else
    handle_fmt_T snprintf .const_void_ptr fmt length spec (.pointer addr target)

/-- The call `handle_fmt_(fi.format, fi.length, fi.spec, arg)` of `format_`, after
overload resolution on the type of `arg`. -/
def handle_fmt_ (snprintf : Snprintf) (fmt length : List Char) (spec : Char) (arg : Arg) :
    Except Error (List Char) :=
  match arg with
  | .bool b => handle_fmt_T snprintf .bool fmt length spec (.int (if b then 1 else 0))
  | .char c => handle_fmt_T snprintf .char fmt length spec (.char c)
  | .signed_char v => handle_fmt_T snprintf .signed_char fmt length spec (.signed_char v)
  | .signed_short v => handle_fmt_T snprintf .signed_short fmt length spec (.signed_short v)
  | .signed_int v => handle_fmt_T snprintf .signed_int fmt length spec (.int v)
  | .signed_long v => handle_fmt_T snprintf .signed_long fmt length spec (.signed_long v)
  | .signed_long_long v =>
    handle_fmt_T snprintf .signed_long_long fmt length spec (.signed_long_long v)
  | .unsigned_char v => handle_fmt_T snprintf .unsigned_char fmt length spec (.unsigned_char v)
  | .unsigned_short v => handle_fmt_T snprintf .unsigned_short fmt length spec (.unsigned_short v)
  | .unsigned_int v => handle_fmt_T snprintf .unsigned_int fmt length spec (.unsigned_int v)
  | .unsigned_long v => handle_fmt_T snprintf .unsigned_long fmt length spec (.unsigned_long v)
  | .unsigned_long_long v =>
    handle_fmt_T snprintf .unsigned_long_long fmt length spec (.unsigned_long_long v)
  | .float v => handle_fmt_T snprintf .float fmt length spec (.double v)
  | .double v => handle_fmt_T snprintf .double fmt length spec (.double v)
  | .long_double v => handle_fmt_T snprintf .long_double fmt length spec (.long_double v)
  -- Printf_wrap.cpp 157-164
  | .const_char_ptr addr target => handle_fmt_const_char_ptr snprintf fmt length spec addr target
  -- Printf_wrap.cpp 169-173
  | .char_ptr addr target => handle_fmt_const_char_ptr snprintf fmt length spec addr target
  -- Printf_wrap.cpp 177-181: `subst.c_str()`
  | .string addr data => handle_fmt_const_char_ptr snprintf fmt length spec addr (c_str data)
  -- Printf_wrap.hpp 35-40
  | .pointer addr => handle_fmt_T snprintf .const_void_ptr fmt length spec (.pointer addr [])

/-! ## Orchestration (Format.hpp 82-150, Format.cpp 144-155) -/

/-- Both overloads of `detail::format_`: the recursion over the arguments. The
stream `os` is the text written so far; the result is the text in the stream
when the call returns or throws, and the exception if one was thrown. -/
def format_ (snprintf : Snprintf) (os : List Char) (fi : FormatInfo) (str : List Char) :
    List Arg → List Char × Except Error Unit
  | [] =>
    match get_next_format_ fi str with
    | .error e => (os, .error e)
    | .ok (true, _) => (os, .error .not_enough_args)
    | .ok (false, fi) => (os ++ fi.pre, .ok ())
  | arg :: args =>
    match get_next_format_ fi str with
    | .error e => (os, .error e)
    | .ok (true, fi) =>
      match handle_fmt_ snprintf fi.format fi.length fi.spec arg with
      | .error e => (os, .error e)
      | .ok fmt =>
        let fi := { fi with format := fmt }
        format_ snprintf (os ++ fi.pre ++ fi.format) fi fi.suffix args
    | .ok (false, _) => (os, .error .too_many_args)

/-- The workspace `detail::FormatInfo fi;` of `format_stream`: empty strings; the
indeterminate `length` and `spec` are taken as NUL bytes. -/
def FormatInfo.fresh : FormatInfo := ⟨[], [], [], [NUL, NUL, NUL], NUL⟩

/-- The function `format_stream` (Format.hpp 123-135). -/
def format_stream (snprintf : Snprintf) (os : List Char) (fmt : List Char) (args : List Arg) :
    List Char × Except Error Unit :=
  format_ snprintf os FormatInfo.fresh fmt args

/-- The function `format_string` (Format.hpp 144-150): `ss.str()`, or the exception. -/
def format_string (snprintf : Snprintf) (str : List Char) (args : List Arg) :
    Except Error (List Char) :=
  let r := format_stream snprintf [] str args
  match r.2 with
  | .error e => .error e
  | .ok _ => .ok r.1

/-! ## Vocabulary of the specification -/

/-- The `PFTypeMap` entry of an argument's type (the TypeDescriptor of the
specification); any pointer other than a character pointer is passed as
`const void *`. -/
def arg_type : Arg → CType
  | .bool _ => .bool
  | .char _ => .char
  | .signed_char _ => .signed_char
  | .signed_short _ => .signed_short
  | .signed_int _ => .signed_int
  | .signed_long _ => .signed_long
  | .signed_long_long _ => .signed_long_long
  | .unsigned_char _ => .unsigned_char
  | .unsigned_short _ => .unsigned_short
  | .unsigned_int _ => .unsigned_int
  | .unsigned_long _ => .unsigned_long
  | .unsigned_long_long _ => .unsigned_long_long
  | .float _ => .float
  | .double _ => .double
  | .long_double _ => .long_double
  | .const_char_ptr _ _ => .const_char_ptr
  | .char_ptr _ _ => .char_ptr
  | .string _ _ => .string
  | .pointer _ => .const_void_ptr

/-- The argument converted to the promoted type of its table entry. -/
def cast_value : Arg → CValue
  | .bool b => .int (if b then 1 else 0)
  | .char c => .char c
  | .signed_char v => .signed_char v
  | .signed_short v => .signed_short v
  | .signed_int v => .int v
  | .signed_long v => .signed_long v
  | .signed_long_long v => .signed_long_long v
  | .unsigned_char v => .unsigned_char v
  | .unsigned_short v => .unsigned_short v
  | .unsigned_int v => .unsigned_int v
  | .unsigned_long v => .unsigned_long v
  | .unsigned_long_long v => .unsigned_long_long v
  | .float v => .double v
  | .double v => .double v
  | .long_double v => .long_double v
  | .const_char_ptr addr target => .pointer addr target
  | .char_ptr addr target => .pointer addr target
  | .string addr data => .pointer addr (c_str data)
  | .pointer addr => .pointer addr []

/-- The default length modifier of an argument's type. -/
def default_length (arg : Arg) : List Char := (PFTypeMap (arg_type arg)).pflength

/-- The first accepted type character of an argument's type (`pftype[0]`). -/
def default_spec (arg : Arg) : Char := (PFTypeMap (arg_type arg)).pftype.headD NUL

/-- No unescaped `%`: scanning left to right, every `%` is immediately followed
by another `%` that pairs with it. -/
def no_unescaped : List Char → Bool
  | [] => true
  | c :: rest =>
    if c = '%' then
      match rest with
      | c2 :: rest2 => if c2 = '%' then no_unescaped rest2 else false
      | [] => false
    else no_unescaped rest

/-- The text with every `%%` pair, taken left to right, replaced by one `%`. -/
def collapse : List Char → List Char
  | [] => []
  | c :: rest =>
    if c = '%' then
      match rest with
      | c2 :: rest2 => if c2 = '%' then '%' :: collapse rest2 else c :: c2 :: collapse rest2
      | [] => [c]
    else c :: collapse rest

/-- The grammar of the `format` field: `%`, then characters from "+- #0", then
decimal digits, then optionally a `.` followed by decimal digits. -/
def FormatGrammar (F : List Char) : Prop :=
  ∃ flags width prec, F = '%' :: (flags ++ width ++ prec)
    ∧ (∀ x ∈ flags, x ∈ validflags) ∧ (∀ x ∈ width, isdigit x = true)
    ∧ (prec = [] ∨ ∃ ds, prec = '.' :: ds ∧ ∀ x ∈ ds, isdigit x = true)

/-- Writing a literal text as a template: every `%` is doubled. -/
def escape (text : List Char) : List Char :=
  text.flatMap (fun c => if c = '%' then ['%', '%'] else [c])

/-- `AutoDeduced args T T'`: the template `T'` is `T` with some of its
auto-deducing conversions (`?` with no length modifier) rewritten to the default
length and first specifier of the type of the argument they are paired with. -/
inductive AutoDeduced : List Arg → List Char → List Char → Prop
  | same (args : List Arg) (T : List Char) : AutoDeduced args T T
  | deduce (arg : Arg) (args : List Arg) (raw flags width prec R R' : List Char)
      (hraw : no_unescaped raw = true)
      (hf : ∀ x ∈ flags, x ∈ validflags) (hw : ∀ x ∈ width, isdigit x = true)
      (hp : prec = [] ∨ ∃ ds, prec = '.' :: ds ∧ ∀ x ∈ ds, isdigit x = true)
      (h : AutoDeduced args R R') :
      AutoDeduced (arg :: args)
        (raw ++ ('%' :: (flags ++ width ++ prec)) ++ '?' :: R)
        (raw ++ ('%' :: (flags ++ width ++ prec)) ++ default_length arg
          ++ default_spec arg :: R')
  | keep (arg : Arg) (args : List Arg) (raw flags width prec len R R' : List Char) (c : Char)
      (hraw : no_unescaped raw = true)
      (hf : ∀ x ∈ flags, x ∈ validflags) (hw : ∀ x ∈ width, isdigit x = true)
      (hp : prec = [] ∨ ∃ ds, prec = '.' :: ds ∧ ∀ x ∈ ds, isdigit x = true)
      (hlen : len = [] ∨ len ∈ validlengths) (hc : c ∈ validspec)
      (h : AutoDeduced args R R') :
      AutoDeduced (arg :: args)
        (raw ++ ('%' :: (flags ++ width ++ prec)) ++ len ++ c :: R)
        (raw ++ ('%' :: (flags ++ width ++ prec)) ++ len ++ c :: R')

/-! ## Reference: the C standard's formatted output -/

/-- The flag characters of a conversion specification (C11 7.21.6.1 p6). -/
def c_flags : List Char := ['-', '+', ' ', '#', '0']

/-- The conversion specifiers that convert one argument (C11 7.21.6.1 p8), `n`
left out. -/
def c_conversions : List Char :=
  ['d', 'i', 'o', 'u', 'x', 'X', 'f', 'F', 'e', 'E', 'g', 'G', 'a', 'A', 'c', 's', 'p']

/-- An optional precision: a period followed by an optional decimal integer. -/
def c_precision (text : List Char) : List Char × List Char :=
  match text with
  | c :: rest =>
    if c = '.' then ('.' :: rest.takeWhile Char.isDigit, rest.dropWhile Char.isDigit)
    else ([], text)
  | [] => ([], text)

/-- An optional length modifier, one of hh, h, l, ll, j, z, t, L (C11 7.21.6.1 p7). -/
def c_length_modifier (text : List Char) : List Char × List Char :=
  match text with
  | c :: rest =>
    if c = 'h' then
      match rest with
      | c2 :: rest2 => if c2 = 'h' then (['h', 'h'], rest2) else (['h'], rest)
      | [] => (['h'], rest)
    else if c = 'l' then
      match rest with
      | c2 :: rest2 => if c2 = 'l' then (['l', 'l'], rest2) else (['l'], rest)
      | [] => (['l'], rest)
    else if c = 'j' ∨ c = 'z' ∨ c = 't' ∨ c = 'L' then ([c], rest)
    else ([], text)
  | [] => ([], text)

/-- The output of the C `printf` family for a format and its arguments, given the
host's rendering `conv` of one conversion specification applied to one argument:
ordinary characters are copied, `%%` writes a `%`, and every other conversion
specification (flags, width, precision, length modifier, specifier) renders the
next argument. `none` is undefined behaviour (an incomplete or unknown
specification, `*`, `n`, or too few arguments). `fuel` bounds the number of
directives. -/
def c_printf_fuel (conv : List Char → CValue → List Char) :
    Nat → List Char → List CValue → Option (List Char)
  | 0, fmt, _ => if fmt = [] then some [] else none
  | fuel + 1, fmt, args =>
    match fmt with
    | [] => some []
    | c :: rest =>
      if c = '%' then
        let flags := rest.takeWhile (fun x => c_flags.elem x)
        let after_flags := rest.dropWhile (fun x => c_flags.elem x)
        let width := after_flags.takeWhile Char.isDigit
        let prec := c_precision (after_flags.dropWhile Char.isDigit)
        let len := c_length_modifier prec.2
        match len.2 with
        | [] => none
        | s :: after =>
          if s = '%' then
            if flags ++ width ++ prec.1 ++ len.1 = [] then
              (c_printf_fuel conv fuel after args).map (fun out => '%' :: out)
            else none
          else if c_conversions.elem s then
            match args with
            | a :: args2 =>
              (c_printf_fuel conv fuel after args2).map
                (fun out => conv ('%' :: (flags ++ width ++ prec.1 ++ len.1 ++ [s])) a ++ out)
            | [] => none
          else none
      else (c_printf_fuel conv fuel rest args).map (fun out => c :: out)

/-- The formatted output of the C `printf` family; a format has at most as many
directives as characters. -/
def c_printf (conv : List Char → CValue → List Char) (fmt : List Char) (args : List CValue) :
    Option (List Char) :=
  c_printf_fuel conv fmt.length fmt args

/-- The value of the decimal integer that gives a field width. -/
def c_decimal (digits : List Char) : Nat :=
  digits.foldl (fun n d => 10 * n + (d.toNat - 48)) 0

/-- Padding to the field width (C11 7.21.6.1 p4): a converted value with fewer
characters than the field width is padded with spaces on the left, or on the
right when the `-` flag is given. -/
def c_pad (flags : List Char) (width : Nat) (converted : List Char) : List Char :=
  if flags.elem '-' then converted ++ List.replicate (width - converted.length) ' '
  else List.replicate (width - converted.length) ' ' ++ converted

/-- The least length the precision allows (C11 7.21.6.1 p4): the precision is the
minimum number of digits of the `d`, `i`, `o`, `u`, `x` and `X` conversions and
the number of digits after the decimal point of the `a`, `A`, `e`, `E`, `f` and
`F` conversions. A converted value with fewer characters is expanded with
zeros: after the sign for the first group, at the end for the second. -/
def c_expand (s : Char) (precision : Nat) (converted : List Char) : List Char :=
  if ['d', 'i', 'o', 'u', 'x', 'X'].elem s then
    match converted with
    | c :: rest =>
      if c = '-' ∨ c = '+' ∨ c = ' ' then
        c :: (List.replicate (precision - rest.length) '0' ++ rest)
      else List.replicate (precision - converted.length) '0' ++ converted
    | [] => List.replicate precision '0'
  else if ['a', 'A', 'e', 'E', 'f', 'F'].elem s then
    converted ++ List.replicate (precision - converted.length) '0'
  else converted

/-- The rendering of one conversion specification on a host whose converted
values are given by `conv` (zero padding of the `0` flag included): the
converted value, never shorter than the precision written in the specification
allows, padded to the field width written there; so no rendering is shorter
than the C standard requires. -/
def c_padded (conv : List Char → CValue → List Char) (spec_text : List Char) (v : CValue) :
    List Char :=
  let body := spec_text.drop 1
  let flags := body.takeWhile (fun x => c_flags.elem x)
  let after_flags := body.dropWhile (fun x => c_flags.elem x)
  let width := after_flags.takeWhile Char.isDigit
  let prec := (c_precision (after_flags.dropWhile Char.isDigit)).1
  c_pad flags (c_decimal width)
    (c_expand (spec_text.getLastD NUL) (c_decimal (prec.drop 1)) (conv spec_text v))

/-- A C-conforming `snprintf` on a host whose converted values are given by
`conv`: for the output `out` it returns `out.length` and, unless `size` is zero,
stores the first `size - 1` bytes of `out` and a terminating NUL (C11 7.21.6.5).
The call fails with `-1` when `out.length` is not representable in the returned
`int` (more than `INT_MAX` characters, as for a field width above `INT_MAX`);
undefined behaviour is reported as `-1` too. -/
def conforming_snprintf (conv : List Char → CValue → List Char) : Snprintf :=
  fun size fmt args =>
    match c_printf (c_padded conv) (c_str fmt) args with
    | some out =>
      if (out.length : Int) ≤ INT_MAX then
        (out.length, if size = 0 then [] else out.take (size - 1) ++ [NUL])
      else (-1, [])
    | none => (-1, [])

/-- A compatible explicit specifier for an argument (section 4.2 of the
specification): the default length of the argument's type with one of its accepted
type characters; a character pointer or an owned string may also be printed
with `p`. -/
def compatible (arg : Arg) (len : List Char) (c : Char) : Bool :=
  match arg with
  | .const_char_ptr _ _ => len = [] && (c = 's' || c = 'p')
  | .char_ptr _ _ => len = [] && (c = 's' || c = 'p')
  | .string _ _ => len = [] && (c = 's' || c = 'p')
  | _ => len = default_length arg && (PFTypeMap (arg_type arg)).pftype.elem c

/-- The arguments the generic template `handle_fmt_<T>` is called with directly:
every supported type but the character pointers and `std::string`, which have
overloads of their own (Printf_wrap.cpp 157-181). -/
def generic (arg : Arg) : Bool :=
  match arg with
  | .const_char_ptr _ _ => false
  | .char_ptr _ _ => false
  | .string _ _ => false
  | _ => true

/-- A type-mismatch error: `Bad length specifier` or `Bad type specifier`. -/
def type_mismatch : Error → Bool
  | .bad_length _ _ => true
  | .bad_type _ _ => true
  | _ => false

/-- The accepted type characters of an argument's type (`pftype`). -/
def accepted_specs (arg : Arg) : List Char := (PFTypeMap (arg_type arg)).pftype

/-- The table of section 4.2 of the specification, written from its words:
default length and accepted type characters of every type the generic
substituter handles. -/
def table_4_2 : Arg → Option (List Char × List Char)
  | .bool _ => some ([], ['d'])
  | .char _ => some ([], ['c'])
  | .signed_char _ => some (['h', 'h'], ['d'])
  | .signed_short _ => some (['h'], ['d'])
  | .signed_int _ => some ([], ['d'])
  | .signed_long _ => some (['l'], ['d'])
  | .signed_long_long _ => some (['l', 'l'], ['d'])
  | .unsigned_char _ => some (['h', 'h'], ['u', 'o', 'x', 'X'])
  | .unsigned_short _ => some (['h'], ['u', 'o', 'x', 'X'])
  | .unsigned_int _ => some ([], ['u', 'o', 'x', 'X'])
  | .unsigned_long _ => some (['l'], ['u', 'o', 'x', 'X'])
  | .unsigned_long_long _ => some (['l', 'l'], ['u', 'o', 'x', 'X'])
  | .float _ => some ([], ['f', 'F', 'e', 'E', 'a', 'A', 'g', 'G'])
  | .double _ => some ([], ['f', 'F', 'e', 'E', 'a', 'A', 'g', 'G'])
  | .long_double _ => some (['L'], ['f', 'F', 'e', 'E', 'a', 'A', 'g', 'G'])
  | .pointer _ => some ([], ['p'])
  | _ => none

/-- The conversion specifications of a template: `Specs T specs` splits `T` into
literal text with no unescaped `%` and, in order, one specification of the
grammar for each entry `(F, len, c)` of `specs`, with `F` the text from `%` up
to the length modifier. -/
inductive Specs : List Char → List (List Char × List Char × Char) → Prop
  | literal (raw : List Char) (hraw : no_unescaped raw = true) : Specs raw []
  | conversion (raw flags width prec len R : List Char) (c : Char)
      (specs : List (List Char × List Char × Char))
      (hraw : no_unescaped raw = true)
      (hf : ∀ x ∈ flags, x ∈ validflags) (hw : ∀ x ∈ width, isdigit x = true)
      (hp : prec = [] ∨ ∃ ds, prec = '.' :: ds ∧ ∀ x ∈ ds, isdigit x = true)
      (hlen : len = [] ∨ len ∈ validlengths) (hc : c ∈ validspec) (h : Specs R specs) :
      Specs (raw ++ ('%' :: (flags ++ width ++ prec)) ++ len ++ c :: R)
        (('%' :: (flags ++ width ++ prec), len, c) :: specs)

/-- The text written for the specifications processed so far: each prefix
followed by its rendered field. -/
def written (steps : List (List Char × List Char)) : List Char :=
  (steps.map (fun s => s.1 ++ s.2)).flatten

/-- `Processed snprintf T args steps T' args'`: starting on the template `T` with
the arguments `args`, the orchestrator finds a specification and renders its
argument once for every entry `(prefix, field)` of `steps`, in order, and is
left with the template `T'` and the arguments `args'`. -/
inductive Processed (snprintf : Snprintf) :
    List Char → List Arg → List (List Char × List Char) → List Char → List Arg → Prop
  | done (T : List Char) (args : List Arg) : Processed snprintf T args [] T args
  | step (T : List Char) (arg : Arg) (args : List Arg) (fi : FormatInfo) (field : List Char)
      (steps : List (List Char × List Char)) (T' : List Char) (args' : List Arg)
      (hspec : get_next_format_ FormatInfo.fresh T = .ok (true, fi))
      (hfield : handle_fmt_ snprintf fi.format fi.length fi.spec arg = .ok field)
      (h : Processed snprintf fi.suffix args steps T' args') :
      Processed snprintf T (arg :: args) ((fi.pre, field) :: steps) T' args'

/-- The step at which the orchestrator raises `e` on the template `T` with the
arguments `args`: the decomposer raises `e` (a grammar error); or no argument is
left while a specification is found (`Not enough arguments`); or an argument is
left while no specification is found (`Too many arguments`); or the substituter
raises `e` for the specification found and the next argument. -/
def Fails (snprintf : Snprintf) (T : List Char) (args : List Arg) (e : Error) : Prop :=
  get_next_format_ FormatInfo.fresh T = .error e
    ∨ (args = [] ∧ e = .not_enough_args
        ∧ ∃ fi, get_next_format_ FormatInfo.fresh T = .ok (true, fi))
    ∨ (args ≠ [] ∧ e = .too_many_args
        ∧ ∃ fi, get_next_format_ FormatInfo.fresh T = .ok (false, fi))
    ∨ (∃ arg rest fi, args = arg :: rest
        ∧ get_next_format_ FormatInfo.fresh T = .ok (true, fi)
        ∧ handle_fmt_ snprintf fi.format fi.length fi.spec arg = .error e)

/-- A deterministic C-conforming renderer: for the rendering `r` of the format
and the arguments, of length `n`, `snprintf` stores the first `min(n, size - 1)`
bytes of `r` and a terminator (nothing when `size` is zero) and returns `n`; a
length above `INT_MAX` cannot be returned in an `int`, and the call then fails
with `-1`. -/
def rendering_snprintf (render : List Char → List CValue → List Char) : Snprintf :=
  fun size fmt args =>
    let r := render fmt args
    if (r.length : Int) ≤ INT_MAX then
      ((r.length : Int), if size = 0 then [] else r.take (min r.length (size - 1)) ++ [NUL])
    else (-1, [])

/-! ## A host for examples -/

/-- Decimal digits of an `int`, as `%d` prints them. -/
def decimal (v : Int) : List Char :=
  if v < 0 then '-' :: Nat.toDigits 10 v.natAbs else Nat.toDigits 10 v.toNat

/-- Rendering for examples: the conversions `c` of a `char`, `s` of a C string and
`d` of an `int` as the C standard defines them in the absence of flags, width
and precision, and `p` of a pointer as `0x` and the address in hexadecimal (the
C standard leaves its form to the implementation); any other conversion gives no
output here. -/
def host_conversion (spec : Char) (v : CValue) : List Char :=
  if spec = 'c' then
    match v with
    | .char c => [c]
    | _ => []
  else if spec = 's' then
    match v with
    | .pointer _ target => c_str target
    | _ => []
  else if spec = 'd' then
    match v with
    | .int v => decimal v
    | _ => []
  else if spec = 'p' then
    match v with
    | .pointer addr _ => '0' :: 'x' :: Nat.toDigits 16 addr
    | _ => []
  else []

/-- A host rendering for examples: `host_conversion` of the specifier that ends
the conversion specification. -/
def host_conv (spec_text : List Char) (v : CValue) : List Char :=
  host_conversion (spec_text.getLastD NUL) v

/-- The C-conforming `snprintf` of that host. -/
def host_snprintf : Snprintf := conforming_snprintf host_conv

/-! ## Lemmas on the C helpers -/

theorem c_str_nil : c_str [] = [] := rfl

/-- An `int` addition does not wrap when its result is in the range of `int`. -/
theorem int_wrap_eq {x : Int} (h0 : -2147483648 ≤ x) (h1 : x ≤ 2147483647) : int_wrap x = x := by
  unfold int_wrap
  omega

/-- The `int` addition `INT_MAX + 1` wraps to `INT_MIN`. -/
theorem int_wrap_overflow : int_wrap (INT_MAX + 1) = -2147483648 := by
  decide

theorem strcmp_eq_zero_iff (a b : List Char) : strcmp a b = 0 ↔ c_str a = c_str b := by
  induction a generalizing b with
  | nil =>
    cases b with
    | nil => simp [strcmp]
    | cons y ys =>
      by_cases hy : y = NUL
      · simp [strcmp, c_str, hy]
      · have : (y.toNat : Int) ≠ 0 := by
          intro h0
          apply hy
          have h1 : y.toNat = 0 := by exact_mod_cast h0
          have h2 := Char.ofNat_toNat y
          rw [h1] at h2
          exact h2.symm
        simp [strcmp, c_str, hy, this]
  | cons x xs ih =>
    cases b with
    | nil =>
      by_cases hx : x = NUL
      · simp [strcmp, c_str, hx]
      · have : (x.toNat : Int) ≠ 0 := by
          intro h0
          apply hx
          have h1 : x.toNat = 0 := by exact_mod_cast h0
          have h2 := Char.ofNat_toNat x
          rw [h1] at h2
          exact h2.symm
        simp [strcmp, c_str, hx, this]
    | cons y ys =>
      by_cases hxy : x = y
      · subst hxy
        by_cases hx : x = NUL
        · simp [strcmp, c_str, hx]
        · have := ih ys
          simp only [c_str] at this
          simp [strcmp, c_str, hx, this]
      · have hne : (x.toNat : Int) - (y.toNat : Int) ≠ 0 := by
          intro h0
          apply hxy
          have h1 : x.toNat = y.toNat := by omega
          have h2 := Char.ofNat_toNat x
          rw [h1, Char.ofNat_toNat] at h2
          exact h2.symm
        have hl : strcmp (x :: xs) (y :: ys) ≠ 0 := by
          simp only [strcmp, if_neg hxy]
          exact hne
        have hr : c_str (x :: xs) ≠ c_str (y :: ys) := by
          by_cases hx : x = NUL
          · have hy : y ≠ NUL := fun e => hxy (hx.trans e.symm)
            simp [c_str, List.takeWhile_cons, hx, hy]
          · by_cases hy : y = NUL
            · simp [c_str, List.takeWhile_cons, hx, hy]
            · simp [c_str, List.takeWhile_cons, hx, hy, hxy]
        simp [hl, hr]

/-- The check of Format.cpp 122-130 never fails: `found` is set as soon as one of
the eight strings differs from `fi.length`, and no buffer equals both "h" and "l". -/
theorem found_always (buf : List Char) :
    validlengths.any (fun v => strcmp v buf != 0) = true := by
  by_cases h : strcmp ['h'] buf = 0
  · have hl : strcmp ['l'] buf ≠ 0 := by
      intro hl
      rw [strcmp_eq_zero_iff] at h hl
      have := h.trans hl.symm
      revert this
      decide
    simp [validlengths, hl]
  · simp [validlengths, h]

/-! ## The literal scan -/

theorem scan_literal_cons_ne {c : Char} (rest : List Char) (hc : c ≠ '%') :
    scan_literal (c :: rest) = (c :: (scan_literal rest).1, (scan_literal rest).2) := by
  rw [scan_literal.eq_def]; simp [hc]

theorem scan_literal_pair (rest : List Char) :
    scan_literal ('%' :: '%' :: rest) = ('%' :: (scan_literal rest).1, (scan_literal rest).2) := by
  rw [scan_literal]; simp

theorem scan_literal_lone {c2 : Char} (rest : List Char) (hc2 : c2 ≠ '%') :
    scan_literal ('%' :: c2 :: rest) = ([], '%' :: c2 :: rest) := by
  rw [scan_literal]; simp [hc2]

theorem scan_literal_last : scan_literal ['%'] = ([], ['%']) := rfl

theorem no_unescaped_cons_ne {c : Char} (rest : List Char) (hc : c ≠ '%') :
    no_unescaped (c :: rest) = no_unescaped rest := by
  rw [no_unescaped.eq_def]; simp [hc]

theorem no_unescaped_pair (rest : List Char) :
    no_unescaped ('%' :: '%' :: rest) = no_unescaped rest := by
  rw [no_unescaped]; simp

theorem no_unescaped_lone {c2 : Char} (rest : List Char) (hc2 : c2 ≠ '%') :
    no_unescaped ('%' :: c2 :: rest) = false := by
  rw [no_unescaped]; simp [hc2]

theorem collapse_cons_ne {c : Char} (rest : List Char) (hc : c ≠ '%') :
    collapse (c :: rest) = c :: collapse rest := by
  rw [collapse.eq_def]; simp [hc]

theorem collapse_pair (rest : List Char) :
    collapse ('%' :: '%' :: rest) = '%' :: collapse rest := by
  rw [collapse]; simp

theorem scan_literal_append (raw rest : List Char) (hraw : no_unescaped raw = true)
    (hrest : rest = [] ∨ ∃ r, rest = '%' :: r ∧ r.head? ≠ some '%') :
    scan_literal (raw ++ rest) = (collapse raw, rest) := by
  induction raw using no_unescaped.induct with
  | case1 =>
    rcases hrest with rfl | ⟨r, rfl, hr⟩
    · rfl
    · cases r with
      | nil => rfl
      | cons a r =>
        have : a ≠ '%' := by simpa using hr
        simpa [collapse] using scan_literal_lone r this
  | case2 rest2 ih =>
    rw [no_unescaped_pair] at hraw
    simp [scan_literal_pair, collapse_pair, ih hraw]
  | case3 c2 rest2 hc2 =>
    rw [no_unescaped_lone _ hc2] at hraw
    cases hraw
  | case4 =>
    exact absurd hraw (by decide)
  | case5 c rest1 hc ih =>
    rw [no_unescaped_cons_ne _ hc] at hraw
    simp [scan_literal_cons_ne _ hc, collapse_cons_ne _ hc, ih hraw]

theorem scan_literal_split (S : List Char) :
    ∃ raw, S = raw ++ (scan_literal S).2 ∧ no_unescaped raw = true ∧
      (scan_literal S).1 = collapse raw ∧
      ((scan_literal S).2 = [] ∨ ∃ r, (scan_literal S).2 = '%' :: r ∧ r.head? ≠ some '%') := by
  induction S using scan_literal.induct with
  | case1 => exact ⟨[], rfl, rfl, rfl, Or.inl rfl⟩
  | case2 rest2 ih =>
    obtain ⟨raw, h1, h2, h3, h4⟩ := ih
    refine ⟨'%' :: '%' :: raw, ?_, ?_, ?_, ?_⟩
    · rw [scan_literal_pair]
      simpa using h1
    · rw [no_unescaped_pair]; exact h2
    · rw [scan_literal_pair, collapse_pair, ← h3]
    · rw [scan_literal_pair]; exact h4
  | case3 c2 rest2 hc2 =>
    rw [scan_literal_lone _ hc2]
    exact ⟨[], rfl, rfl, rfl, Or.inr ⟨c2 :: rest2, rfl, by simpa using hc2⟩⟩
  | case4 =>
    exact ⟨[], rfl, rfl, rfl, Or.inr ⟨[], rfl, by simp⟩⟩
  | case5 c rest1 hc ih =>
    obtain ⟨raw, h1, h2, h3, h4⟩ := ih
    refine ⟨c :: raw, ?_, ?_, ?_, ?_⟩
    · rw [scan_literal_cons_ne _ hc]
      simpa using h1
    · rw [no_unescaped_cons_ne _ hc]; exact h2
    · rw [scan_literal_cons_ne _ hc, collapse_cons_ne _ hc, ← h3]
    · rw [scan_literal_cons_ne _ hc]; exact h4

/-! ## The conversion scan -/

theorem length_dropWhile_add {α : Type} (p : α → Bool) (l : List α) :
    (l.dropWhile p).length + (l.takeWhile p).length = l.length := by
  have h := congrArg List.length (List.takeWhile_append_dropWhile p l)
  simp only [List.length_append] at h
  omega

theorem scan_precision_append (l : List Char) :
    (scan_precision l).1 ++ (scan_precision l).2 = l := by
  unfold scan_precision
  split
  · rename_i c rest
    by_cases hc : c = '.'
    · simp [hc]
    · simp [hc]
  · simp

/-- The five pieces into which the scanning loops of Format.cpp 70-95 cut the
text after the `%`. -/
theorem conversion_pieces (afb : List Char) :
    afb = afb.takeWhile (strchr validflags)
      ++ (afb.dropWhile (strchr validflags)).takeWhile isdigit
      ++ (scan_precision ((afb.dropWhile (strchr validflags)).dropWhile isdigit)).1
      ++ ((scan_precision ((afb.dropWhile (strchr validflags)).dropWhile isdigit)).2).takeWhile
          (strchr validlengthchars)
      ++ ((scan_precision ((afb.dropWhile (strchr validflags)).dropWhile isdigit)).2).dropWhile
          (strchr validlengthchars) := by
  simp only [List.append_assoc, List.takeWhile_append_dropWhile, scan_precision_append]

theorem take_length_sub {α : Type} (a b : List α) :
    (a ++ b).take ((a ++ b).length - b.length) = a := by
  simp

theorem memcpy_run (run rest : List Char) (h : run.length ≤ 2) :
    memcpy [NUL, NUL, NUL] (run ++ rest) run.length = run ++ List.replicate (3 - run.length) NUL := by
  unfold memcpy
  rw [List.take_left]
  match run, h with
  | [], _ => rfl
  | [_], _ => rfl
  | [_, _], _ => rfl

/-- Closed form of `get_next_format_`: the outcome in terms of the literal scan
and of the pieces of the conversion. -/
theorem get_next_format__eq (fi : FormatInfo) (str : List Char) :
    get_next_format_ fi str =
      match (scan_literal str).2 with
      | [] => .ok (false, { fi with pre := (scan_literal str).1, format := [] })
      | pct :: afb =>
        let flags := afb.takeWhile (strchr validflags)
        let width := (afb.dropWhile (strchr validflags)).takeWhile isdigit
        let sp := scan_precision ((afb.dropWhile (strchr validflags)).dropWhile isdigit)
        let run := sp.2.takeWhile (strchr validlengthchars)
        match sp.2.dropWhile (strchr validlengthchars) with
        | [] => .error .zero_type_spec
        | c :: suffix =>
          if strchr validspec c = false then .error .zero_type_spec
          else if run.length > 2 then .error .length_too_long
          else .ok (true, ⟨(scan_literal str).1, suffix, pct :: (flags ++ width ++ sp.1),
                           run ++ List.replicate (3 - run.length) NUL, c⟩) := by
  unfold get_next_format_
  by_cases hlen : str.length = 0
  · have : str = [] := List.length_eq_zero.mp hlen
    subst this
    rfl
  · simp only [hlen, if_false, List.nil_append]
    cases hs : (scan_literal str).2 with
    | nil => simp
    | cons pct afb =>
      simp only []
      have hp := conversion_pieces afb
      generalize hflags : afb.takeWhile (strchr validflags) = flags at hp
      generalize hawb : afb.dropWhile (strchr validflags) = awb at hp
      generalize hwidth : awb.takeWhile isdigit = width at hp
      generalize hsp : scan_precision (awb.dropWhile isdigit) = sp at hp
      generalize hrun : sp.2.takeWhile (strchr validlengthchars) = run at hp
      have hsp2 : sp.2 = run ++ sp.2.dropWhile (strchr validlengthchars) := by
        rw [← hrun, List.takeWhile_append_dropWhile]
      generalize hasb : sp.2.dropWhile (strchr validlengthchars) = asb at hp hsp2
      have hll : sp.2.length - asb.length = run.length := by
        rw [hsp2]; simp
      have hfmt : (pct :: afb).take ((pct :: afb).length - sp.2.length)
          = pct :: (flags ++ width ++ sp.1) := by
        have h2 : pct :: afb = (pct :: (flags ++ width ++ sp.1)) ++ sp.2 := by
          rw [hp, hsp2]
          simp [List.append_assoc]
        rw [h2]
        exact take_length_sub _ _
      have hmem : run.length ≤ 2 →
          memcpy [NUL, NUL, NUL] sp.2 run.length = run ++ List.replicate (3 - run.length) NUL := by
        intro hr2
        rw [hsp2]
        exact memcpy_run run asb hr2
      rw [hll, hfmt]
      cases asb with
      | nil => simp
      | cons c suffix =>
        by_cases hc : strchr validspec c = true
        · simp only [hc, if_true, ne_eq, not_true_eq_false, if_false]
          by_cases hr : run.length > 2
          · simp [hr]
          · have hr2 : run.length ≤ 2 := by omega
            simp only [hr, if_false, found_always, Bool.not_true, Bool.false_eq_true,
              List.headD_cons, List.tail_cons, hmem hr2]
            simp
        · simp [hc]

/-! ## Scanning a conversion that follows the grammar -/

theorem dropWhile_eq_self_of_head {α : Type} {p : α → Bool} {l : List α}
    (h : ∀ x ∈ l.head?, p x = false) : l.dropWhile p = l := by
  cases l with
  | nil => rfl
  | cons a l =>
    have : p a = false := h a (by simp)
    simp [List.dropWhile_cons, this]

theorem takeWhile_eq_nil_of_head {α : Type} {p : α → Bool} {l : List α}
    (h : ∀ x ∈ l.head?, p x = false) : l.takeWhile p = [] := by
  cases l with
  | nil => rfl
  | cons a l =>
    have : p a = false := h a (by simp)
    simp [List.takeWhile_cons, this]

theorem dropWhile_flags_width (p : Char → Bool) (width rest : List Char)
    (hw : ∀ x ∈ width, isdigit x = true)
    (h1 : ∀ x ∈ rest.head?, p x = false)
    (h2 : ∀ x ∈ rest.head?, isdigit x = false) :
    ((width ++ rest).dropWhile p).dropWhile isdigit = rest := by
  induction width with
  | nil =>
    rw [List.nil_append, dropWhile_eq_self_of_head h1, dropWhile_eq_self_of_head h2]
  | cons d w ih =>
    have hw' : ∀ x ∈ w, isdigit x = true := fun x hx => hw x (List.mem_cons_of_mem _ hx)
    by_cases hd : p d = true
    · rw [List.cons_append, List.dropWhile_cons_of_pos hd]
      exact ih hw'
    · rw [List.cons_append, List.dropWhile_cons_of_neg hd, ← List.cons_append,
        List.dropWhile_append_of_pos hw, dropWhile_eq_self_of_head h2]

theorem validspec_not_lengthchar {c : Char} (hc : c ∈ validspec) :
    strchr validlengthchars c = false := by
  simp only [validspec, List.mem_cons, List.mem_singleton, List.not_mem_nil, or_false] at hc
  rcases hc with h | h | h | h | h | h | h | h | h | h | h | h | h | h | h | h | h | h <;>
    subst h <;> rfl

theorem validspec_strchr {c : Char} (hc : c ∈ validspec) : strchr validspec c = true := by
  simp only [validspec, List.mem_cons, List.mem_singleton, List.not_mem_nil, or_false] at hc
  rcases hc with h | h | h | h | h | h | h | h | h | h | h | h | h | h | h | h | h | h <;>
    subst h <;> rfl

theorem validspec_not_flag_digit_dot {c : Char} (hc : c ∈ validspec) :
    strchr validflags c = false ∧ isdigit c = false ∧ c ≠ '.' ∧ c ≠ '%' := by
  simp only [validspec, List.mem_cons, List.mem_singleton, List.not_mem_nil, or_false] at hc
  rcases hc with h | h | h | h | h | h | h | h | h | h | h | h | h | h | h | h | h | h <;>
    subst h <;> decide

theorem lengthchar_not_flag_digit_dot {c : Char} (hc : c ∈ validlengthchars) :
    strchr validflags c = false ∧ isdigit c = false ∧ c ≠ '.' ∧ c ≠ '%'
      ∧ strchr validlengthchars c = true := by
  simp only [validlengthchars, List.mem_cons, List.mem_singleton, List.not_mem_nil, or_false] at hc
  rcases hc with h | h | h | h | h | h <;> subst h <;> decide

/-- Scanning flags (by any test `p` that holds on the flags and fails on a period),
width and precision of the grammar stops where the text `Y` begins. -/
theorem scan_to_length_of (p : Char → Bool) (flags width prec Y : List Char)
    (hf : ∀ x ∈ flags, p x = true) (hdot : p '.' = false)
    (hw : ∀ x ∈ width, isdigit x = true)
    (hp : prec = [] ∨ ∃ ds, prec = '.' :: ds ∧ ∀ x ∈ ds, isdigit x = true)
    (h1 : ∀ x ∈ Y.head?, p x = false)
    (h2 : ∀ x ∈ Y.head?, isdigit x = false)
    (h3 : ∀ x ∈ Y.head?, x ≠ '.') :
    (scan_precision (((flags ++ width ++ prec ++ Y).dropWhile p).dropWhile isdigit)).2 = Y := by
  rw [List.append_assoc, List.append_assoc, List.dropWhile_append_of_pos hf]
  rcases hp with rfl | ⟨ds, rfl, hds⟩
  · rw [List.nil_append, dropWhile_flags_width p width Y hw h1 h2]
    unfold scan_precision
    cases Y with
    | nil => rfl
    | cons y Y' =>
      have : y ≠ '.' := h3 y (by simp)
      simp [this]
  · rw [dropWhile_flags_width p width _ hw (by simpa using hdot) (by simp; decide)]
    unfold scan_precision
    simp only [List.cons_append, if_true]
    rw [List.dropWhile_append_of_pos hds, dropWhile_eq_self_of_head h2]

theorem scan_format_of (p : Char → Bool) (flags width prec Y : List Char)
    (hf : ∀ x ∈ flags, p x = true) (hdot : p '.' = false)
    (hw : ∀ x ∈ width, isdigit x = true)
    (hp : prec = [] ∨ ∃ ds, prec = '.' :: ds ∧ ∀ x ∈ ds, isdigit x = true)
    (h1 : ∀ x ∈ Y.head?, p x = false)
    (h2 : ∀ x ∈ Y.head?, isdigit x = false)
    (h3 : ∀ x ∈ Y.head?, x ≠ '.') :
    (flags ++ width ++ prec ++ Y).takeWhile p
      ++ ((flags ++ width ++ prec ++ Y).dropWhile p).takeWhile isdigit
      ++ (scan_precision (((flags ++ width ++ prec ++ Y).dropWhile p).dropWhile isdigit)).1
      = flags ++ width ++ prec := by
  have hY := scan_to_length_of p flags width prec Y hf hdot hw hp h1 h2 h3
  generalize hafb : flags ++ width ++ prec ++ Y = afb at hY ⊢
  have h := List.takeWhile_append_dropWhile p afb
  have h' := List.takeWhile_append_dropWhile isdigit (afb.dropWhile p)
  have h'' := scan_precision_append ((afb.dropWhile p).dropWhile isdigit)
  rw [hY] at h''
  have hcancel : (afb.takeWhile p ++ (afb.dropWhile p).takeWhile isdigit
      ++ (scan_precision ((afb.dropWhile p).dropWhile isdigit)).1) ++ Y
      = (flags ++ width ++ prec) ++ Y := by
    rw [hafb, List.append_assoc, List.append_assoc, h'', h', h]
  exact List.append_cancel_right hcancel

theorem validflags_strchr {flags : List Char} (hf : ∀ x ∈ flags, x ∈ validflags) :
    ∀ x ∈ flags, strchr validflags x = true := by
  intro x hx
  have := hf x hx
  simp only [validflags, List.mem_cons, List.mem_singleton, List.not_mem_nil, or_false] at this
  rcases this with h | h | h | h | h <;> subst h <;> rfl

theorem scan_to_length (flags width prec Y : List Char)
    (hf : ∀ x ∈ flags, x ∈ validflags) (hw : ∀ x ∈ width, isdigit x = true)
    (hp : prec = [] ∨ ∃ ds, prec = '.' :: ds ∧ ∀ x ∈ ds, isdigit x = true)
    (h1 : ∀ x ∈ Y.head?, strchr validflags x = false)
    (h2 : ∀ x ∈ Y.head?, isdigit x = false)
    (h3 : ∀ x ∈ Y.head?, x ≠ '.') :
    (scan_precision (((flags ++ width ++ prec ++ Y).dropWhile (strchr validflags)).dropWhile
      isdigit)).2 = Y :=
  scan_to_length_of _ flags width prec Y (validflags_strchr hf) (by decide) hw hp h1 h2 h3

theorem scan_format (flags width prec Y : List Char)
    (hf : ∀ x ∈ flags, x ∈ validflags) (hw : ∀ x ∈ width, isdigit x = true)
    (hp : prec = [] ∨ ∃ ds, prec = '.' :: ds ∧ ∀ x ∈ ds, isdigit x = true)
    (h1 : ∀ x ∈ Y.head?, strchr validflags x = false)
    (h2 : ∀ x ∈ Y.head?, isdigit x = false)
    (h3 : ∀ x ∈ Y.head?, x ≠ '.') :
    (flags ++ width ++ prec ++ Y).takeWhile (strchr validflags)
      ++ ((flags ++ width ++ prec ++ Y).dropWhile (strchr validflags)).takeWhile isdigit
      ++ (scan_precision (((flags ++ width ++ prec ++ Y).dropWhile (strchr validflags)).dropWhile
          isdigit)).1 = flags ++ width ++ prec :=
  scan_format_of _ flags width prec Y (validflags_strchr hf) (by decide) hw hp h1 h2 h3

theorem no_percent_literal {P : List Char} (hP : '%' ∉ P) :
    no_unescaped P = true ∧ collapse P = P := by
  induction P with
  | nil => exact ⟨rfl, rfl⟩
  | cons a P ih =>
    have ha : a ≠ '%' := fun e => hP (e ▸ List.mem_cons_self _ _)
    have hP' : '%' ∉ P := fun h => hP (List.mem_cons_of_mem _ h)
    rw [no_unescaped_cons_ne _ ha, collapse_cons_ne _ ha, (ih hP').2]
    exact ⟨(ih hP').1, rfl⟩

/-- The outcome of `get_next_format_` on a template whose first conversion
starts with flags, width and precision of the grammar, in terms of the text `Y`
that follows them. -/
theorem get_next_format__grammar (fi : FormatInfo) (raw flags width prec Y : List Char)
    (hraw : no_unescaped raw = true)
    (hf : ∀ x ∈ flags, x ∈ validflags) (hw : ∀ x ∈ width, isdigit x = true)
    (hp : prec = [] ∨ ∃ ds, prec = '.' :: ds ∧ ∀ x ∈ ds, isdigit x = true)
    (h1 : ∀ x ∈ Y.head?, strchr validflags x = false)
    (h2 : ∀ x ∈ Y.head?, isdigit x = false)
    (h3 : ∀ x ∈ Y.head?, x ≠ '.')
    (h4 : ∀ x ∈ Y.head?, x ≠ '%') :
    get_next_format_ fi (raw ++ '%' :: (flags ++ width ++ prec ++ Y)) =
      match Y.dropWhile (strchr validlengthchars) with
      | [] => .error .zero_type_spec
      | c :: suffix =>
        if strchr validspec c = false then .error .zero_type_spec
        else if (Y.takeWhile (strchr validlengthchars)).length > 2 then .error .length_too_long
        else .ok (true, ⟨collapse raw, suffix, '%' :: (flags ++ width ++ prec),
                         Y.takeWhile (strchr validlengthchars)
                           ++ List.replicate (3 - (Y.takeWhile (strchr validlengthchars)).length) NUL,
                         c⟩) := by
  have hhead : (flags ++ width ++ prec ++ Y).head? ≠ some '%' := by
    cases flags with
    | cons a _ =>
      have := hf a (List.mem_cons_self _ _)
      simp only [validflags, List.mem_cons, List.mem_singleton, List.not_mem_nil, or_false] at this
      rcases this with h | h | h | h | h <;> subst h <;> simp
    | nil =>
      cases width with
      | cons a _ =>
        have := hw a (List.mem_cons_self _ _)
        intro h
        simp only [List.nil_append, List.cons_append, List.head?_cons, Option.some.injEq] at h
        subst h
        exact absurd this (by decide)
      | nil =>
        rcases hp with rfl | ⟨ds, rfl, _⟩
        · intro h
          exact h4 '%' (by simpa using h) rfl
        · simp
  have hscan := scan_literal_append raw ('%' :: (flags ++ width ++ prec ++ Y)) hraw
    (Or.inr ⟨_, rfl, hhead⟩)
  rw [get_next_format__eq, hscan]
  simp only []
  rw [scan_format flags width prec Y hf hw hp h1 h2 h3,
    scan_to_length flags width prec Y hf hw hp h1 h2 h3]

theorem get_next_format__literal (fi : FormatInfo) (T : List Char)
    (h : no_unescaped T = true) :
    get_next_format_ fi T = .ok (false, { fi with pre := collapse T, format := [] }) := by
  have hscan := scan_literal_append T [] h (Or.inl rfl)
  rw [List.append_nil] at hscan
  rw [get_next_format__eq, hscan]

theorem takeWhile_length_run (run T : List Char) (hrun : ∀ x ∈ run, x ∈ validlengthchars)
    (hT : ∀ x ∈ T.head?, strchr validlengthchars x = false) :
    (run ++ T).takeWhile (strchr validlengthchars) = run
      ∧ (run ++ T).dropWhile (strchr validlengthchars) = T := by
  have h : ∀ x ∈ run, strchr validlengthchars x = true :=
    fun x hx => (lengthchar_not_flag_digit_dot (hrun x hx)).2.2.2.2
  rw [List.takeWhile_append_of_pos h, List.dropWhile_append_of_pos h,
    takeWhile_eq_nil_of_head hT, dropWhile_eq_self_of_head hT, List.append_nil]
  exact ⟨rfl, rfl⟩

theorem validlengths_chars {len : List Char} (hlen : len = [] ∨ len ∈ validlengths) :
    (∀ x ∈ len, x ∈ validlengthchars) ∧ len.length ≤ 2 ∧ NUL ∉ len := by
  rcases hlen with rfl | h
  · simp
  · simp only [validlengths, List.mem_cons, List.mem_singleton, List.not_mem_nil, or_false] at h
    rcases h with h | h | h | h | h | h | h | h <;> subst h <;> decide

theorem c_str_padded (len : List Char) (n : Nat) (h : NUL ∉ len) :
    c_str (len ++ List.replicate n NUL) = len := by
  unfold c_str
  induction len with
  | nil => cases n <;> simp [List.replicate, List.takeWhile]
  | cons a l ih =>
    have ha : a ≠ NUL := fun e => h (e ▸ List.mem_cons_self _ _)
    have hl : NUL ∉ l := fun hx => h (List.mem_cons_of_mem _ hx)
    simp [List.takeWhile_cons, ha, ih hl]

/-- What a spec-found return of `get_next_format_` says about the template. -/
theorem get_next_format__true_inv (fi fi' : FormatInfo) (S : List Char)
    (h : get_next_format_ fi S = .ok (true, fi')) :
    ∃ raw afb c suffix, S = raw ++ '%' :: afb ∧ no_unescaped raw = true
      ∧ (scan_precision ((afb.dropWhile (strchr validflags)).dropWhile isdigit)).2.dropWhile
          (strchr validlengthchars) = c :: suffix
      ∧ strchr validspec c = true
      ∧ ((scan_precision ((afb.dropWhile (strchr validflags)).dropWhile isdigit)).2.takeWhile
          (strchr validlengthchars)).length ≤ 2
      ∧ fi' = ⟨collapse raw, suffix,
          '%' :: (afb.takeWhile (strchr validflags)
            ++ (afb.dropWhile (strchr validflags)).takeWhile isdigit
            ++ (scan_precision ((afb.dropWhile (strchr validflags)).dropWhile isdigit)).1),
          (scan_precision ((afb.dropWhile (strchr validflags)).dropWhile isdigit)).2.takeWhile
              (strchr validlengthchars)
            ++ List.replicate (3 - ((scan_precision ((afb.dropWhile (strchr validflags)).dropWhile
                isdigit)).2.takeWhile (strchr validlengthchars)).length) NUL,
          c⟩ := by
  obtain ⟨raw, h1, h2, h3, h4⟩ := scan_literal_split S
  rw [get_next_format__eq] at h
  rcases h4 with h4 | ⟨r, h4, -⟩
  · rw [h4] at h
    simp at h
  · rw [h4] at h h1
    simp only [] at h
    split at h
    · simp at h
    · rename_i c suffix hasb
      split at h
      · simp at h
      · rename_i hc
        split at h
        · simp at h
        · rename_i hr
          refine ⟨raw, r, c, suffix, h1, h2, hasb, by simpa using hc, by omega, ?_⟩
          simp only [Except.ok.injEq, Prod.mk.injEq, true_and] at h
          rw [← h, h3]

theorem strchr_mem {s : List Char} {x : Char} (h : strchr s x = true) (hx : x ≠ NUL) :
    x ∈ c_str s := by
  unfold strchr at h
  simp only [Bool.or_eq_true, List.elem_eq_mem, decide_eq_true_eq, beq_iff_eq] at h
  rcases h with h | h
  · exact h
  · exact absurd h hx

theorem scan_precision_fst (l : List Char) :
    (scan_precision l).1 = [] ∨ ∃ ds, (scan_precision l).1 = '.' :: ds ∧ ∀ x ∈ ds, isdigit x = true := by
  unfold scan_precision
  split
  · rename_i c rest
    by_cases hc : c = '.'
    · right
      exact ⟨rest.takeWhile isdigit, by simp [hc], fun x hx => List.mem_takeWhile_imp hx⟩
    · left; simp [hc]
  · left; rfl

theorem not_FormatGrammar_nul : ¬ FormatGrammar ['%', NUL] := by
  rintro ⟨flags, width, prec, h, hf, hw, hp⟩
  have hmem : NUL ∈ flags ++ width ++ prec := by
    simp only [List.cons.injEq, true_and] at h
    rw [← h]
    simp
  simp only [List.mem_append] at hmem
  rcases hmem with (hm | hm) | hm
  · exact absurd (hf _ hm) (by decide)
  · exact absurd (hw _ hm) (by decide)
  · rcases hp with rfl | ⟨ds, rfl, hds⟩
    · simp at hm
    · simp only [List.mem_cons] at hm
      rcases hm with hm | hm
      · exact absurd hm (by decide)
      · exact absurd (hds _ hm) (by decide)

/-- A conversion of the grammar with a permitted length modifier and a type
character is accepted after any literal text, with the fields as written. -/
theorem get_next_format__accept (fi : FormatInfo) (raw flags width prec len R : List Char)
    (c : Char) (hraw : no_unescaped raw = true)
    (hf : ∀ x ∈ flags, x ∈ validflags) (hw : ∀ x ∈ width, isdigit x = true)
    (hp : prec = [] ∨ ∃ ds, prec = '.' :: ds ∧ ∀ x ∈ ds, isdigit x = true)
    (hlen : len = [] ∨ len ∈ validlengths) (hc : c ∈ validspec) :
    get_next_format_ fi (raw ++ ('%' :: (flags ++ width ++ prec)) ++ len ++ c :: R)
      = .ok (true, ⟨collapse raw, R, '%' :: (flags ++ width ++ prec),
          len ++ List.replicate (3 - len.length) NUL, c⟩) := by
  obtain ⟨hlc, hl2, hnul⟩ := validlengths_chars hlen
  obtain ⟨c1, c2, c3, c4⟩ := validspec_not_flag_digit_dot hc
  have hY : ∀ (q : Char → Prop), q c → (∀ x ∈ validlengthchars, q x) →
      ∀ x ∈ (len ++ c :: R).head?, q x := by
    intro q qc ql x hx
    cases len with
    | nil =>
      simp only [List.nil_append, List.head?_cons, Option.mem_def, Option.some.injEq] at hx
      exact hx ▸ qc
    | cons a l =>
      simp only [List.cons_append, List.head?_cons, Option.mem_def, Option.some.injEq] at hx
      exact hx ▸ ql a (hlc a (List.mem_cons_self _ _))
  have key := get_next_format__grammar fi raw flags width prec (len ++ c :: R) hraw hf hw hp
    (hY _ c1 (fun x hx => (lengthchar_not_flag_digit_dot hx).1))
    (hY _ c2 (fun x hx => (lengthchar_not_flag_digit_dot hx).2.1))
    (hY _ c3 (fun x hx => (lengthchar_not_flag_digit_dot hx).2.2.1))
    (hY _ c4 (fun x hx => (lengthchar_not_flag_digit_dot hx).2.2.2.1))
  obtain ⟨ht, hd⟩ := takeWhile_length_run len (c :: R) hlc
    (by intro x hx; simp at hx; exact hx ▸ validspec_not_lengthchar hc)
  rw [ht, hd] at key
  simp only [validspec_strchr hc, Bool.true_eq_false, if_false,
    show ¬ len.length > 2 from by omega] at key
  rw [← key]
  simp [List.append_assoc]

theorem default_length_valid (arg : Arg) :
    (default_length arg = [] ∨ default_length arg ∈ validlengths)
      ∧ c_str (default_length arg) = default_length arg := by
  have h : ∀ T : CType, ((PFTypeMap T).pflength = [] ∨ (PFTypeMap T).pflength ∈ validlengths)
      ∧ c_str (PFTypeMap T).pflength = (PFTypeMap T).pflength := by
    intro T
    cases T <;> exact ⟨by decide, rfl⟩
  exact h (arg_type arg)

theorem default_spec_valid (arg : Arg) :
    default_spec arg ∈ validspec ∧ default_spec arg ≠ '?' ∧ default_spec arg ≠ NUL
      ∧ strchr (PFTypeMap (arg_type arg)).pftype (default_spec arg) = true := by
  have h : ∀ T : CType, (PFTypeMap T).pftype.headD NUL ∈ validspec
      ∧ (PFTypeMap T).pftype.headD NUL ≠ '?' ∧ (PFTypeMap T).pftype.headD NUL ≠ NUL
      ∧ strchr (PFTypeMap T).pftype ((PFTypeMap T).pftype.headD NUL) = true := by
    intro T
    cases T <;> decide
  exact h (arg_type arg)

theorem handle_fmt_T_default (snprintf : Snprintf) (T : CType) (F len0 : List Char) (v : CValue)
    (hlen0 : c_str len0 = (PFTypeMap T).pflength) :
    handle_fmt_T snprintf T F len0 ((PFTypeMap T).pftype.headD NUL) v
      = handle_fmt_single_ snprintf
          (F ++ (PFTypeMap T).pflength ++ [(PFTypeMap T).pftype.headD NUL]) v := by
  have h : (PFTypeMap T).pftype.headD NUL ≠ '?'
      ∧ strchr (PFTypeMap T).pftype ((PFTypeMap T).pftype.headD NUL) = true
      ∧ c_str (PFTypeMap T).pflength = (PFTypeMap T).pflength := by
    cases T <;> decide
  have hcmp : strcmp len0 (PFTypeMap T).pflength = 0 := by
    rw [strcmp_eq_zero_iff, hlen0, h.2.2]
  unfold handle_fmt_T
  simp only [h.1, and_false, if_false, hcmp, ne_eq, not_true_eq_false, h.2.1,
    Bool.true_eq_false, hlen0]

theorem handle_fmt_T_auto (snprintf : Snprintf) (T : CType) (F empty : List Char) (v : CValue)
    (hempty : c_str empty = []) :
    handle_fmt_T snprintf T F empty '?' v
      = handle_fmt_single_ snprintf
          (F ++ (PFTypeMap T).pflength ++ [(PFTypeMap T).pftype.headD NUL]) v := by
  have h : c_str (PFTypeMap T).pflength = (PFTypeMap T).pflength := by
    cases T <;> rfl
  unfold handle_fmt_T
  simp only [hempty, List.length_nil, and_self, if_true, h]

/-- Both ways of writing the default conversion reach the renderer with the same
format and value. -/
theorem handle_fmt__default (snprintf : Snprintf) (arg : Arg) (F empty len0 : List Char)
    (hempty : c_str empty = []) (hlen0 : c_str len0 = default_length arg) :
    handle_fmt_ snprintf F empty '?' arg
        = handle_fmt_single_ snprintf (F ++ default_length arg ++ [default_spec arg])
            (cast_value arg)
      ∧ handle_fmt_ snprintf F len0 (default_spec arg) arg
        = handle_fmt_single_ snprintf (F ++ default_length arg ++ [default_spec arg])
            (cast_value arg) := by
  constructor
  · cases arg <;> exact handle_fmt_T_auto snprintf _ F empty _ hempty
  · cases arg <;>
      first
      | exact handle_fmt_T_default snprintf _ F len0 _ hlen0
      | exact handle_fmt_T_default snprintf .const_char_ptr F len0 _ hlen0

/-- The outcome of `get_next_format_` depends on the prior workspace only through
the fields a literal-only return leaves untouched. -/
theorem get_next_format__workspace (fi fi' : FormatInfo) (str : List Char) :
    get_next_format_ fi' str =
      match get_next_format_ fi str with
      | .error e => .error e
      | .ok (true, r) => .ok (true, r)
      | .ok (false, r) => .ok (false, { fi' with pre := r.pre, format := [] }) := by
  rw [get_next_format__eq fi, get_next_format__eq fi']
  split
  · rfl
  · simp only []
    split
    · rfl
    · split
      · rfl
      · split <;> rfl

/-- The orchestrator does not read the workspace it is given. -/
theorem format__workspace (snprintf : Snprintf) (os : List Char) (fi fi' : FormatInfo)
    (str : List Char) (args : List Arg) :
    format_ snprintf os fi' str args = format_ snprintf os fi str args := by
  cases args with
  | nil =>
    unfold format_
    rw [get_next_format__workspace fi fi' str]
    rcases get_next_format_ fi str with e | ⟨b, r⟩
    · rfl
    · cases b <;> rfl
  | cons arg args =>
    unfold format_
    rw [get_next_format__workspace fi fi' str]
    rcases get_next_format_ fi str with e | ⟨b, r⟩
    · rfl
    · cases b <;> rfl

/-- Rewriting auto-deducing conversions to the default conversion of their
argument does not change what the orchestrator does. -/
theorem format__auto_deduced (snprintf : Snprintf) {args : List Arg} {T T' : List Char}
    (h : AutoDeduced args T T') (os : List Char) (fi : FormatInfo) :
    format_ snprintf os fi T args = format_ snprintf os fi T' args := by
  induction h generalizing os fi with
  | same => rfl
  | deduce arg args raw flags width prec R R' hraw hf hw hp _ ih =>
    have hl := default_length_valid arg
    have hs := default_spec_valid arg
    have e1 := get_next_format__accept fi raw flags width prec [] R '?' hraw hf hw hp
      (Or.inl rfl) (by decide)
    have e2 := get_next_format__accept fi raw flags width prec (default_length arg) R'
      (default_spec arg) hraw hf hw hp hl.1 hs.1
    have hnul : NUL ∉ default_length arg := (validlengths_chars hl.1).2.2
    have h1 := (handle_fmt__default snprintf arg ('%' :: (flags ++ width ++ prec))
      ([] ++ List.replicate (3 - ([] : List Char).length) NUL)
      (default_length arg ++ List.replicate (3 - (default_length arg).length) NUL)
      (c_str_padded [] _ (List.not_mem_nil _)) (c_str_padded _ _ hnul))
    rw [List.append_nil] at e1
    unfold format_
    rw [e1, e2]
    simp only []
    rw [h1.1, h1.2]
    rcases handle_fmt_single_ snprintf
      ('%' :: (flags ++ width ++ prec) ++ default_length arg ++ [default_spec arg])
      (cast_value arg) with e | fmt
    · rfl
    · simp only []
      rw [ih]
      exact format__workspace snprintf _ _ _ R' args
  | keep arg args raw flags width prec len R R' c hraw hf hw hp hlen hc _ ih =>
    have e1 := get_next_format__accept fi raw flags width prec len R c hraw hf hw hp hlen hc
    have e2 := get_next_format__accept fi raw flags width prec len R' c hraw hf hw hp hlen hc
    unfold format_
    rw [e1, e2]
    simp only []
    rcases handle_fmt_ snprintf ('%' :: (flags ++ width ++ prec))
      (len ++ List.replicate (3 - len.length) NUL) c arg with e | fmt
    · rfl
    · simp only []
      rw [ih]
      exact format__workspace snprintf _ _ _ R' args

/-! ## The reference output -/

theorem c_precision_eq (text : List Char) : c_precision text = scan_precision text := rfl

theorem c_length_modifier_length (text : List Char) :
    (c_length_modifier text).2.length ≤ text.length := by
  cases text with
  | nil => simp [c_length_modifier]
  | cons c rest =>
    cases rest with
    | nil =>
      simp only [c_length_modifier]
      split_ifs <;> simp
    | cons c2 rest2 =>
      simp only [c_length_modifier]
      split_ifs <;> simp <;> omega

theorem scan_precision_length (text : List Char) :
    (scan_precision text).2.length ≤ text.length := by
  have h := congrArg List.length (scan_precision_append text)
  rw [List.length_append] at h
  omega

theorem c_parse_length (p : Char → Bool) (rest : List Char) :
    (c_length_modifier (c_precision ((rest.dropWhile p).dropWhile Char.isDigit)).2).2.length
      ≤ rest.length := by
  have h1 := c_length_modifier_length (c_precision ((rest.dropWhile p).dropWhile Char.isDigit)).2
  have h2 := scan_precision_length ((rest.dropWhile p).dropWhile Char.isDigit)
  rw [← c_precision_eq] at h2
  have h3 := length_dropWhile_add Char.isDigit (rest.dropWhile p)
  have h4 := length_dropWhile_add p rest
  omega

/-- Enough fuel: the reference output does not depend on the fuel once it
reaches the length of the format. -/
theorem c_printf_fuel_enough (conv : List Char → CValue → List Char) (n m : Nat)
    (fmt : List Char) (args : List CValue) (hn : fmt.length ≤ n) (hm : fmt.length ≤ m) :
    c_printf_fuel conv n fmt args = c_printf_fuel conv m fmt args := by
  induction n generalizing m fmt args with
  | zero =>
    have : fmt = [] := List.length_eq_zero.mp (Nat.le_zero.mp hn)
    subst this
    cases m <;> rfl
  | succ n ih =>
    cases m with
    | zero =>
      have : fmt = [] := List.length_eq_zero.mp (Nat.le_zero.mp hm)
      subst this
      rfl
    | succ m =>
      cases fmt with
      | nil => rfl
      | cons c rest =>
        simp only [List.length_cons, Nat.add_le_add_iff_right] at hn hm
        unfold c_printf_fuel
        simp only []
        by_cases hc : c = '%'
        · simp only [hc, if_true]
          have hlen := c_parse_length (fun x => c_flags.elem x) rest
          generalize (c_length_modifier (c_precision ((rest.dropWhile
            (fun x => c_flags.elem x)).dropWhile Char.isDigit)).2).2 = tail at hlen
          cases tail with
          | nil => rfl
          | cons s after =>
            simp only [List.length_cons] at hlen
            have e1 : ∀ a, c_printf_fuel conv n after a = c_printf_fuel conv m after a :=
              fun a => ih m after a (by omega) (by omega)
            simp only [e1]
        · simp only [hc, if_false]
          rw [ih m rest args hn hm]

theorem c_printf_nil (conv : List Char → CValue → List Char) (args : List CValue) :
    c_printf conv [] args = some [] := rfl

/-- The parse of a conversion specification of the grammar by the reference. -/
theorem c_parse_conversion (flags width prec len R : List Char) (s : Char)
    (hf : ∀ x ∈ flags, x ∈ validflags) (hw : ∀ x ∈ width, isdigit x = true)
    (hp : prec = [] ∨ ∃ ds, prec = '.' :: ds ∧ ∀ x ∈ ds, isdigit x = true)
    (hlen : len = [] ∨ len ∈ validlengths) (hs : s ∈ validspec ∨ s = '%') :
    c_length_modifier (c_precision (((flags ++ width ++ prec ++ (len ++ s :: R)).dropWhile
        (fun x => c_flags.elem x)).dropWhile Char.isDigit)).2 = (len, s :: R)
      ∧ (flags ++ width ++ prec ++ (len ++ s :: R)).takeWhile (fun x => c_flags.elem x)
          ++ ((flags ++ width ++ prec ++ (len ++ s :: R)).dropWhile
              (fun x => c_flags.elem x)).takeWhile Char.isDigit
          ++ (c_precision (((flags ++ width ++ prec ++ (len ++ s :: R)).dropWhile
              (fun x => c_flags.elem x)).dropWhile Char.isDigit)).1
        = flags ++ width ++ prec := by
  have hsq : (fun x => c_flags.elem x) s = false ∧ isdigit s = false ∧ s ≠ '.'
      ∧ s ≠ 'h' ∧ s ≠ 'l' ∧ s ≠ 'j' ∧ s ≠ 'z' ∧ s ≠ 't' ∧ s ≠ 'L' := by
    rcases hs with hs | rfl
    · simp only [validspec, List.mem_cons, List.mem_singleton, List.not_mem_nil, or_false] at hs
      rcases hs with h | h | h | h | h | h | h | h | h | h | h | h | h | h | h | h | h | h <;>
        subst h <;> decide
    · decide
  have hlq : ∀ x ∈ validlengthchars,
      (fun x => c_flags.elem x) x = false ∧ isdigit x = false ∧ x ≠ '.' := by decide
  obtain ⟨hlc, -, -⟩ := validlengths_chars hlen
  have hY : ∀ (q : Char → Prop), q s → (∀ x ∈ validlengthchars, q x) →
      ∀ x ∈ (len ++ s :: R).head?, q x := by
    intro q qc ql x hx
    cases len with
    | nil =>
      simp only [List.nil_append, List.head?_cons, Option.mem_def, Option.some.injEq] at hx
      exact hx ▸ qc
    | cons a l =>
      simp only [List.cons_append, List.head?_cons, Option.mem_def, Option.some.injEq] at hx
      exact hx ▸ ql a (hlc a (List.mem_cons_self _ _))
  have hfp : ∀ x ∈ flags, (fun x => c_flags.elem x) x = true := by
    intro x hx
    have := hf x hx
    simp only [validflags, List.mem_cons, List.mem_singleton, List.not_mem_nil, or_false] at this
    rcases this with h | h | h | h | h <;> subst h <;> rfl
  have e1 := scan_to_length_of (fun x => c_flags.elem x) flags width prec (len ++ s :: R) hfp
    (by decide) hw hp (hY _ hsq.1 (fun x hx => (hlq x hx).1))
    (hY _ hsq.2.1 (fun x hx => (hlq x hx).2.1)) (hY _ hsq.2.2.1 (fun x hx => (hlq x hx).2.2))
  have e2 := scan_format_of (fun x => c_flags.elem x) flags width prec (len ++ s :: R) hfp
    (by decide) hw hp (hY _ hsq.1 (fun x hx => (hlq x hx).1))
    (hY _ hsq.2.1 (fun x hx => (hlq x hx).2.1)) (hY _ hsq.2.2.1 (fun x hx => (hlq x hx).2.2))
  refine ⟨?_, e2⟩
  rw [c_precision_eq]
  change c_length_modifier (scan_precision (((flags ++ width ++ prec ++ (len ++ s :: R)).dropWhile
        (fun x => c_flags.elem x)).dropWhile isdigit)).2 = (len, s :: R)
  rw [e1]
  obtain ⟨-, -, -, s1, s2, s3, s4, s5, s6⟩ := hsq
  rcases hlen with rfl | hlen
  · simp [c_length_modifier, s1, s2, s3, s4, s5, s6]
  · simp only [validlengths, List.mem_cons, List.mem_singleton, List.not_mem_nil, or_false] at hlen
    rcases hlen with h | h | h | h | h | h | h | h <;> subst h <;>
      simp [c_length_modifier, s1, s2]

theorem c_printf_conversion (conv : List Char → CValue → List Char)
    (flags width prec len R : List Char) (s : Char) (a : CValue) (args : List CValue)
    (hf : ∀ x ∈ flags, x ∈ validflags) (hw : ∀ x ∈ width, isdigit x = true)
    (hp : prec = [] ∨ ∃ ds, prec = '.' :: ds ∧ ∀ x ∈ ds, isdigit x = true)
    (hlen : len = [] ∨ len ∈ validlengths) (hs : s ∈ c_conversions) :
    c_printf conv ('%' :: (flags ++ width ++ prec ++ (len ++ s :: R))) (a :: args)
      = (c_printf conv R args).map
          (fun out => conv ('%' :: (flags ++ width ++ prec ++ len ++ [s])) a ++ out) := by
  have hs' : s ∈ validspec ∧ s ≠ '%' ∧ c_conversions.elem s = true := by
    simp only [c_conversions, List.mem_cons, List.mem_singleton, List.not_mem_nil, or_false] at hs
    rcases hs with h | h | h | h | h | h | h | h | h | h | h | h | h | h | h | h | h <;>
      subst h <;> decide
  obtain ⟨e1, e2⟩ := c_parse_conversion flags width prec len R s hf hw hp hlen (Or.inl hs'.1)
  unfold c_printf
  rw [List.length_cons, c_printf_fuel]
  simp only [if_true, e1, hs'.2.1, if_false, hs'.2.2]
  rw [e2, c_printf_fuel_enough conv _ R.length R args (by simp; omega) (Nat.le_refl _)]

/-- On a template without NUL bytes, a spec-found return of `get_next_format_`
splits the template as `raw ++ format ++ length ++ [spec] ++ suffix` with `prefix`
the collapsed `raw`; `format` follows the grammar, `length` is at most two of the
characters "hljztL" and `spec` is one of the eighteen type characters. -/
theorem decomposition_without_nul (fi fi' : FormatInfo) (S : List Char) (hS : NUL ∉ S)
    (h : get_next_format_ fi S = .ok (true, fi')) :
    (∃ raw, no_unescaped raw = true ∧ fi'.pre = collapse raw
        ∧ S = raw ++ fi'.format ++ c_str fi'.length ++ [fi'.spec] ++ fi'.suffix)
      ∧ FormatGrammar fi'.format ∧ fi'.spec ∈ validspec
      ∧ (∀ x ∈ c_str fi'.length, x ∈ validlengthchars) ∧ (c_str fi'.length).length ≤ 2 := by
  obtain ⟨raw, afb, c, suffix, hSeq, hraw, hasb, hc, hr, hfi⟩ := get_next_format__true_inv fi fi' S h
  have hp := conversion_pieces afb
  rw [hasb] at hp
  have hflags : ∀ x ∈ afb.takeWhile (strchr validflags), strchr validflags x = true :=
    fun x hx => List.mem_takeWhile_imp hx
  have hwidth : ∀ x ∈ (afb.dropWhile (strchr validflags)).takeWhile isdigit, isdigit x = true :=
    fun x hx => List.mem_takeWhile_imp hx
  have hprec := scan_precision_fst ((afb.dropWhile (strchr validflags)).dropWhile isdigit)
  have hrun : ∀ x ∈ (scan_precision ((afb.dropWhile (strchr validflags)).dropWhile
      isdigit)).2.takeWhile (strchr validlengthchars), strchr validlengthchars x = true :=
    fun x hx => List.mem_takeWhile_imp hx
  generalize afb.takeWhile (strchr validflags) = flags at hp hfi hflags
  generalize (afb.dropWhile (strchr validflags)).takeWhile isdigit = width at hp hfi hwidth
  generalize scan_precision ((afb.dropWhile (strchr validflags)).dropWhile isdigit) = sp
    at hp hfi hprec hrun hr
  generalize sp.2.takeWhile (strchr validlengthchars) = run at hp hfi hrun hr
  have hnul : ∀ x ∈ afb, x ≠ NUL := by
    intro x hx e
    apply hS
    rw [hSeq, ← e]
    exact List.mem_append_right _ (List.mem_cons_of_mem _ hx)
  have hrunN : NUL ∉ run := by
    intro hx
    refine hnul NUL ?_ rfl
    rw [hp]
    simp [hx]
  have hcs : c_str (run ++ List.replicate (3 - run.length) NUL) = run := c_str_padded run _ hrunN
  subst hfi
  simp only [hcs]
  refine ⟨⟨raw, hraw, rfl, ?_⟩, ⟨flags, width, sp.1, rfl, ?_, hwidth, hprec⟩, ?_, ?_, hr⟩
  · rw [hSeq, hp]
    simp [List.append_assoc]
  · intro x hx
    have hx' : x ≠ NUL := hnul x (by rw [hp]; simp [hx])
    exact strchr_mem (hflags x hx) hx'
  · have hc' : c ≠ NUL := hnul c (by rw [hp]; simp)
    exact strchr_mem hc hc'
  · intro x hx
    have hx' : x ≠ NUL := fun e => hrunN (e ▸ hx)
    exact strchr_mem (hrun x hx) hx'

/-- The `spec` field of a spec-found return is one of the eighteen type
characters, for every template. -/
theorem spec_is_type_char (fi fi' : FormatInfo) (S : List Char)
    (h : get_next_format_ fi S = .ok (true, fi')) : fi'.spec ∈ validspec := by
  obtain ⟨raw, afb, c, suffix, -, -, hasb, hc, -, hfi⟩ := get_next_format__true_inv fi fi' S h
  subst hfi
  have hn := List.head?_dropWhile_not (strchr validlengthchars)
    (scan_precision ((afb.dropWhile (strchr validflags)).dropWhile isdigit)).2
  rw [hasb] at hn
  simp only [List.head?_cons] at hn
  have hc' : c ≠ NUL := by
    rintro rfl
    exact absurd hn (by decide)
  exact strchr_mem hc hc'

/-- A literal-only return of `get_next_format_` happens exactly on the templates
with no unescaped `%`, and then `prefix` is the collapsed template. -/
theorem literal_only_iff (fi fi' : FormatInfo) (S : List Char) :
    get_next_format_ fi S = .ok (false, fi') ↔
      no_unescaped S = true ∧ fi' = { fi with pre := collapse S, format := [] } := by
  constructor
  · intro h
    obtain ⟨raw, h1, h2, h3, h4⟩ := scan_literal_split S
    rw [get_next_format__eq] at h
    rcases h4 with h4 | ⟨r, h4, -⟩
    · rw [h4] at h h1
      rw [List.append_nil] at h1
      subst h1
      simp only [Except.ok.injEq, Prod.mk.injEq, true_and] at h
      exact ⟨h2, by rw [← h, h3]⟩
    · rw [h4] at h
      simp only [] at h
      split at h
      · simp at h
      · split at h
        · simp at h
        · split at h <;> simp at h
  · rintro ⟨h, rfl⟩
    exact get_next_format__literal fi S h

/-- On a template without NUL bytes that has an unescaped `%` but is not of the form
literal text, `%`, flags, width, precision, length characters, type character,
tail, `get_next_format_` raises "Zero characters for type specifier". -/
theorem missing_type_spec_without_nul (fi : FormatInfo) (S : List Char) (hS : NUL ∉ S)
    (hun : no_unescaped S = false)
    (hno : ¬ ∃ raw F run c R, no_unescaped raw = true ∧ FormatGrammar F
      ∧ (∀ x ∈ run, x ∈ validlengthchars) ∧ c ∈ validspec ∧ S = raw ++ F ++ run ++ c :: R) :
    get_next_format_ fi S = .error .zero_type_spec := by
  obtain ⟨raw, h1, h2, h3, h4⟩ := scan_literal_split S
  rw [get_next_format__eq]
  rcases h4 with h4 | ⟨afb, h4, -⟩
  · rw [h4, List.append_nil] at h1
    rw [h1, h2] at hun
    cases hun
  · rw [h4] at h1 ⊢
    simp only []
    have hnul : ∀ x ∈ afb, x ≠ NUL := by
      intro x hx e
      apply hS
      rw [h1, ← e]
      exact List.mem_append_right _ (List.mem_cons_of_mem _ hx)
    have hp := conversion_pieces afb
    have hflags : ∀ x ∈ afb.takeWhile (strchr validflags), strchr validflags x = true :=
      fun x hx => List.mem_takeWhile_imp hx
    have hwidth : ∀ x ∈ (afb.dropWhile (strchr validflags)).takeWhile isdigit, isdigit x = true :=
      fun x hx => List.mem_takeWhile_imp hx
    have hprec := scan_precision_fst ((afb.dropWhile (strchr validflags)).dropWhile isdigit)
    have hrun : ∀ x ∈ (scan_precision ((afb.dropWhile (strchr validflags)).dropWhile
        isdigit)).2.takeWhile (strchr validlengthchars), strchr validlengthchars x = true :=
      fun x hx => List.mem_takeWhile_imp hx
    generalize afb.takeWhile (strchr validflags) = flags at hp hflags
    generalize (afb.dropWhile (strchr validflags)).takeWhile isdigit = width at hp hwidth
    generalize scan_precision ((afb.dropWhile (strchr validflags)).dropWhile isdigit) = sp
      at hp hprec hrun
    generalize sp.2.takeWhile (strchr validlengthchars) = run at hp hrun
    generalize sp.2.dropWhile (strchr validlengthchars) = asb at hp
    cases asb with
    | nil => rfl
    | cons c suffix =>
      simp only []
      by_cases hc : strchr validspec c = false
      · rw [if_pos hc]
      · exfalso
        apply hno
        have hc' : c ≠ NUL := hnul c (by rw [hp]; simp)
        refine ⟨raw, '%' :: (flags ++ width ++ sp.1), run, c, suffix, h2,
          ⟨flags, width, sp.1, rfl, ?_, hwidth, hprec⟩, ?_, strchr_mem (s := validspec) (by simpa using hc) hc', ?_⟩
        · intro x hx
          exact strchr_mem (hflags x hx) (hnul x (by rw [hp]; simp [hx]))
        · intro x hx
          exact strchr_mem (hrun x hx) (hnul x (by rw [hp]; simp [hx]))
        · rw [h1, hp]
          simp [List.append_assoc]

/-- The exception "Invalid length specifier" is never thrown. -/
theorem invalid_length_never_thrown (fi : FormatInfo) (str : List Char) :
    get_next_format_ fi str ≠ .error .invalid_length := by
  rw [get_next_format__eq]
  split
  · simp
  · simp only []
    split
    · simp
    · split
      · simp
      · split <;> simp

/-- A template of the form literal text, `%`, flags, width, precision, length
characters, type character, tail never raises "Zero characters for type
specifier". -/
theorem wellformed_not_zero_type_spec (fi : FormatInfo) (S : List Char)
    (h : ∃ raw F run c R, no_unescaped raw = true ∧ FormatGrammar F
      ∧ (∀ x ∈ run, x ∈ validlengthchars) ∧ c ∈ validspec ∧ S = raw ++ F ++ run ++ c :: R) :
    get_next_format_ fi S ≠ .error .zero_type_spec := by
  obtain ⟨raw, F, run, c, R, hraw, ⟨flags, width, prec, rfl, hf, hw, hp⟩, hrun, hc, rfl⟩ := h
  obtain ⟨c1, c2, c3, c4⟩ := validspec_not_flag_digit_dot hc
  have hY : ∀ (q : Char → Prop), q c → (∀ x ∈ validlengthchars, q x) →
      ∀ x ∈ (run ++ c :: R).head?, q x := by
    intro q qc ql x hx
    cases run with
    | nil =>
      simp only [List.nil_append, List.head?_cons, Option.mem_def, Option.some.injEq] at hx
      exact hx ▸ qc
    | cons a l =>
      simp only [List.cons_append, List.head?_cons, Option.mem_def, Option.some.injEq] at hx
      exact hx ▸ ql a (hrun a (List.mem_cons_self _ _))
  have key := get_next_format__grammar fi raw flags width prec (run ++ c :: R) hraw hf hw hp
    (hY _ c1 (fun x hx => (lengthchar_not_flag_digit_dot hx).1))
    (hY _ c2 (fun x hx => (lengthchar_not_flag_digit_dot hx).2.1))
    (hY _ c3 (fun x hx => (lengthchar_not_flag_digit_dot hx).2.2.1))
    (hY _ c4 (fun x hx => (lengthchar_not_flag_digit_dot hx).2.2.2.1))
  obtain ⟨-, hd⟩ := takeWhile_length_run run (c :: R) hrun
    (by intro x hx; simp at hx; exact hx ▸ validspec_not_lengthchar hc)
  rw [hd] at key
  simp only [validspec_strchr hc, Bool.true_eq_false, if_false] at key
  have hS : raw ++ '%' :: (flags ++ width ++ prec) ++ run ++ c :: R
      = raw ++ '%' :: (flags ++ width ++ prec ++ (run ++ c :: R)) := by
    simp [List.append_assoc]
  rw [hS, key]
  split <;> simp

/-- On a template without NUL bytes, `get_next_format_` raises "Zero characters for
type specifier" exactly when the template has an unescaped `%` and is not of the
form literal text, `%`, flags, width, precision, length characters, type
character, tail. -/
theorem zero_type_spec_iff (fi : FormatInfo) (S : List Char) (hS : NUL ∉ S) :
    get_next_format_ fi S = .error .zero_type_spec ↔
      no_unescaped S = false
        ∧ ¬ ∃ raw F run c R, no_unescaped raw = true ∧ FormatGrammar F
          ∧ (∀ x ∈ run, x ∈ validlengthchars) ∧ c ∈ validspec
          ∧ S = raw ++ F ++ run ++ c :: R := by
  constructor
  · intro h
    constructor
    · cases hu : no_unescaped S with
      | false => rfl
      | true =>
        rw [get_next_format__literal fi S hu] at h
        cases h
    · intro hex
      exact wellformed_not_zero_type_spec fi S hex h
  · rintro ⟨hun, hno⟩
    exact missing_type_spec_without_nul fi S hS hun hno

/-- The characterisation at "%n": the conversion `n` is not supported. -/
theorem zero_type_spec_iff_witness :
    no_unescaped ['%', 'n'] = false
      ∧ ¬ ∃ raw F run c R, no_unescaped raw = true ∧ FormatGrammar F
        ∧ (∀ x ∈ run, x ∈ validlengthchars) ∧ c ∈ validspec
        ∧ ['%', 'n'] = raw ++ F ++ run ++ c :: R :=
  (zero_type_spec_iff FormatInfo.fresh ['%', 'n'] (by decide)).mp rfl

/-- The decomposition at "%%%d": prefix "%", format "%", empty length, spec `d`,
empty suffix. -/
theorem decomposition_without_nul_witness :
    (∃ raw, no_unescaped raw = true ∧ ['%'] = collapse raw
        ∧ ['%', '%', '%', 'd'] = raw ++ ['%'] ++ c_str [NUL, NUL, NUL] ++ ['d'] ++ [])
      ∧ FormatGrammar ['%'] ∧ 'd' ∈ validspec
      ∧ (∀ x ∈ c_str [NUL, NUL, NUL], x ∈ validlengthchars)
      ∧ (c_str [NUL, NUL, NUL]).length ≤ 2 :=
  decomposition_without_nul FormatInfo.fresh ⟨['%'], [], ['%'], [NUL, NUL, NUL], 'd'⟩
    ['%', '%', '%', 'd'] (by decide) rfl

/-- The type character found in "%5\0d" (with a NUL byte in the conversion). -/
theorem spec_is_type_char_witness : 'd' ∈ validspec :=
  spec_is_type_char FormatInfo.fresh ⟨[], [], ['%', '5'], [NUL, NUL, NUL], 'd'⟩
    ['%', '5', NUL, 'd'] rfl

theorem escape_literal (L : List Char) :
    no_unescaped (escape L) = true ∧ collapse (escape L) = L := by
  induction L with
  | nil => exact ⟨rfl, rfl⟩
  | cons a L ih =>
    by_cases ha : a = '%'
    · subst ha
      have : escape ('%' :: L) = '%' :: '%' :: escape L := by
        simp [escape, List.flatMap_cons]
      rw [this, no_unescaped_pair, collapse_pair, ih.2]
      exact ⟨ih.1, rfl⟩
    · have : escape (a :: L) = a :: escape L := by
        simp [escape, List.flatMap_cons, ha]
      rw [this, no_unescaped_cons_ne _ ha, collapse_cons_ne _ ha, ih.2]
      exact ⟨ih.1, rfl⟩

/-- Round trip: a text written as a template by doubling every `%` is printed
back unchanged by `format_string` with no arguments. -/
theorem format_string_escape (snprintf : Snprintf) (L : List Char) :
    format_string snprintf (escape L) [] = .ok L := by
  unfold format_string format_stream format_
  rw [get_next_format__literal _ _ (escape_literal L).1, (escape_literal L).2]
  rfl

/-! ## The checks of the substituter -/

/-- Outside the auto-deduce pair and for a type character other than NUL, the
template `handle_fmt_<T>` compares the length with `pflength`, then looks the
character up in `pftype`, then renders. -/
theorem handle_fmt_T_validation (snprintf : Snprintf) (T : CType) (F buf : List Char) (c : Char)
    (v : CValue) (hc : c ≠ NUL) (hpair : ¬ (c_str buf = [] ∧ c = '?')) :
    handle_fmt_T snprintf T F buf c v =
      if c_str buf ≠ (PFTypeMap T).pflength then .error (.bad_length (c_str buf) T)
      else if c ∉ (PFTypeMap T).pftype then .error (.bad_type c T)
      else handle_fmt_single_ snprintf (F ++ c_str buf ++ [c]) v := by
  have h : c_str (PFTypeMap T).pflength = (PFTypeMap T).pflength
      ∧ c_str (PFTypeMap T).pftype = (PFTypeMap T).pftype := by
    cases T <;> exact ⟨rfl, rfl⟩
  have hauto : ¬ ((c_str buf).length = 0 ∧ c = '?') := by
    rw [List.length_eq_zero]
    exact hpair
  have hcmp : strcmp buf (PFTypeMap T).pflength ≠ 0 ↔ c_str buf ≠ (PFTypeMap T).pflength := by
    rw [ne_eq, strcmp_eq_zero_iff, h.1]
  have hchr : strchr (PFTypeMap T).pftype c = false ↔ c ∉ (PFTypeMap T).pftype := by
    unfold strchr
    rw [h.2]
    simp [hc]
  unfold handle_fmt_T
  simp only [hauto, if_false, hcmp, hchr]

/-- The renderer raises no type-mismatch error: its errors are `Error here` and
`std::bad_alloc`. -/
theorem handle_fmt_single__errors (snprintf : Snprintf) (fmt : List Char) (v : CValue)
    (e : Error) (h : handle_fmt_single_ snprintf fmt v = .error e) : type_mismatch e = false := by
  unfold handle_fmt_single_ at h
  dsimp only at h
  split at h
  · split at h
    · cases h
      rfl
    · split at h
      · cases h
        rfl
      · cases h
  · cases h

theorem handle_fmt__generic (snprintf : Snprintf) (arg : Arg) (F buf : List Char) (c : Char)
    (hgen : generic arg = true) (hc : c ≠ NUL) (hpair : ¬ (c_str buf = [] ∧ c = '?')) :
    handle_fmt_ snprintf F buf c arg =
      if c_str buf ≠ default_length arg then .error (.bad_length (c_str buf) (arg_type arg))
      else if c ∉ accepted_specs arg then .error (.bad_type c (arg_type arg))
      else handle_fmt_single_ snprintf (F ++ c_str buf ++ [c]) (cast_value arg) := by
  cases arg <;>
    first
    | exact Bool.noConfusion hgen
    | exact handle_fmt_T_validation snprintf _ F buf c _ hc hpair


theorem handle_fmt_const_char_ptr_policy (snprintf : Snprintf) (F buf : List Char) (c : Char)
    (addr : Nat) (target : List Char) (hc : c ≠ NUL) :
    handle_fmt_const_char_ptr snprintf F buf c addr target =
      if c_str buf = [] ∧ (c = 's' ∨ c = '?') then
        handle_fmt_single_ snprintf (F ++ ['s']) (.pointer addr target)
      else if c_str buf = [] ∧ c = 'p' then
        handle_fmt_single_ snprintf (F ++ ['p']) (.pointer addr target)
      else if c_str buf ≠ [] then
        .error (.bad_length (c_str buf) (if c = 's' ∨ c = '?' then .const_char_ptr
          else .const_void_ptr))
      else .error (.bad_type c .const_void_ptr) := by
  unfold handle_fmt_const_char_ptr
  by_cases hs : c = 's' ∨ c = '?'
  · rw [if_pos hs]
    by_cases hb : c_str buf = []
    · rw [if_pos ⟨hb, hs⟩]
      rcases hs with rfl | rfl
      · rw [handle_fmt_T_validation snprintf _ F buf 's' _ hc (fun h => absurd h.2 (by decide)),
          hb]
        simp [PFTypeMap]
      · rw [handle_fmt_T_auto snprintf _ F buf _ hb]
        simp [PFTypeMap]
    · have hpair : ¬ (c_str buf = [] ∧ c = '?') := fun h => hb h.1
      rw [handle_fmt_T_validation snprintf _ F buf c _ hc hpair]
      simp [hb, hs, PFTypeMap]
  · have hpair : ¬ (c_str buf = [] ∧ c = '?') := fun h => hs (Or.inr h.2)
    rw [if_neg hs, handle_fmt_T_validation snprintf _ F buf c _ hc hpair]
    by_cases hb : c_str buf = []
    · by_cases hp : c = 'p'
      · subst hp
        simp [hb, PFTypeMap]
      · simp [hb, hp, hs, PFTypeMap]
    · simp [hb, hs, PFTypeMap]

theorem handle_fmt_const_char_ptr_facts (snprintf : Snprintf) (F buf : List Char) (c : Char)
    (addr : Nat) (target : List Char) (hc : c ≠ NUL) :
    (c_str buf = [] → c = 's' ∨ c = '?' →
        handle_fmt_const_char_ptr snprintf F buf c addr target
          = handle_fmt_single_ snprintf (F ++ ['s']) (.pointer addr target))
      ∧ (c_str buf = [] → c = 'p' →
        handle_fmt_const_char_ptr snprintf F buf c addr target
          = handle_fmt_single_ snprintf (F ++ ['p']) (.pointer addr target))
      ∧ (¬ (c_str buf = [] ∧ (c = 's' ∨ c = 'p' ∨ c = '?')) →
        ∃ e, handle_fmt_const_char_ptr snprintf F buf c addr target = .error e
          ∧ type_mismatch e = true)
      ∧ ((¬ ∃ e, handle_fmt_const_char_ptr snprintf F buf c addr target = .error e
            ∧ type_mismatch e = true)
          ↔ (c_str buf = [] ∧ (c = 's' ∨ c = 'p' ∨ c = '?'))) := by
  have key := fun s => handle_fmt_const_char_ptr_policy s F buf c addr target hc
  have hrej : ¬ (c_str buf = [] ∧ (c = 's' ∨ c = 'p' ∨ c = '?')) →
      ∀ s, ∃ e, handle_fmt_const_char_ptr s F buf c addr target = .error e
        ∧ type_mismatch e = true := by
    intro h s
    rw [key]
    have h1 : ¬ (c_str buf = [] ∧ (c = 's' ∨ c = '?')) :=
      fun hx => h ⟨hx.1, hx.2.elim Or.inl (fun hq => Or.inr (Or.inr hq))⟩
    have h2 : ¬ (c_str buf = [] ∧ c = 'p') := fun hx => h ⟨hx.1, Or.inr (Or.inl hx.2)⟩
    rw [if_neg h1, if_neg h2]
    by_cases hb : c_str buf = []
    · rw [if_neg (fun hne => hne hb)]
      exact ⟨_, rfl, rfl⟩
    · rw [if_pos hb]
      exact ⟨_, rfl, rfl⟩
  refine ⟨?_, ?_, fun h => hrej h snprintf, ?_⟩
  · intro hb hs
    rw [key, if_pos ⟨hb, hs⟩]
  · intro hb hp
    subst hp
    have h1 : ¬ (c_str buf = [] ∧ ('p' = 's' ∨ 'p' = '?')) := fun hx => absurd hx.2 (by decide)
    rw [key, if_neg h1, if_pos ⟨hb, rfl⟩]
  · constructor
    · intro hno
      by_contra h
      exact hno (hrej h snprintf)
    · rintro ⟨hb, hs | hp | hq⟩ ⟨e, he, hm⟩
      · rw [key, if_pos ⟨hb, Or.inl hs⟩] at he
        rw [handle_fmt_single__errors snprintf _ _ e he] at hm
        cases hm
      · subst hp
        have h1 : ¬ (c_str buf = [] ∧ ('p' = 's' ∨ 'p' = '?')) :=
          fun hx => absurd hx.2 (by decide)
        rw [key, if_neg h1, if_pos ⟨hb, rfl⟩] at he
        rw [handle_fmt_single__errors snprintf _ _ e he] at hm
        cases hm
      · rw [key, if_pos ⟨hb, Or.inr hq⟩] at he
        rw [handle_fmt_single__errors snprintf _ _ e he] at hm
        cases hm

/-! ## The run of the orchestrator -/

/-- What `get_next_format_` raises or finds does not depend on the workspace. -/
theorem get_next_format__fresh (fi : FormatInfo) (T : List Char) :
    (∀ e, get_next_format_ fi T = .error e ↔ get_next_format_ FormatInfo.fresh T = .error e)
      ∧ (∀ r, get_next_format_ fi T = .ok (true, r)
          ↔ get_next_format_ FormatInfo.fresh T = .ok (true, r))
      ∧ ((∃ r, get_next_format_ fi T = .ok (false, r))
          ↔ ∃ r, get_next_format_ FormatInfo.fresh T = .ok (false, r)) := by
  have h1 := get_next_format__workspace fi FormatInfo.fresh T
  have h2 := get_next_format__workspace FormatInfo.fresh fi T
  refine ⟨fun e => ⟨fun h => ?_, fun h => ?_⟩, fun r => ⟨fun h => ?_, fun h => ?_⟩,
    ⟨fun h => ?_, fun h => ?_⟩⟩
  · rw [h1, h]
  · rw [h2, h]
  · rw [h1, h]
  · rw [h2, h]
  · obtain ⟨r, h⟩ := h
    rw [h] at h1
    exact ⟨_, h1⟩
  · obtain ⟨r, h⟩ := h
    rw [h] at h2
    exact ⟨_, h2⟩

theorem written_cons (p f : List Char) (steps : List (List Char × List Char)) :
    written ((p, f) :: steps) = p ++ f ++ written steps := by
  simp [written]

/-- The orchestrator on a template whose first specifications are processed:
their prefixes and fields are appended to the stream and the run continues on
what is left. -/
theorem format__processed (snprintf : Snprintf) {T T' : List Char} {args args' : List Arg}
    {steps : List (List Char × List Char)} (h : Processed snprintf T args steps T' args') :
    ∀ os fi, format_ snprintf os fi T args = format_ snprintf (os ++ written steps) fi T' args' := by
  induction h with
  | done T args =>
    intro os fi
    simp [written]
  | step T arg args fi1 field steps T' args' hspec hfield _ ih =>
    intro os fi
    have e1 : get_next_format_ fi T = .ok (true, fi1) :=
      ((get_next_format__fresh fi T).2.1 fi1).2 hspec
    rw [format_.eq_def]
    simp only [e1, hfield]
    rw [ih, written_cons, format__workspace snprintf _ fi]
    simp [List.append_assoc]

theorem processed_args (snprintf : Snprintf) {T T' : List Char} {args args' : List Arg}
    {steps : List (List Char × List Char)} (h : Processed snprintf T args steps T' args') :
    args' = args.drop steps.length := by
  induction h with
  | done T args => rfl
  | step T arg args fi1 field steps T' args' _ _ _ ih => simpa using ih

/-- The orchestrator at a failing step raises and writes nothing. -/
theorem format__fails (snprintf : Snprintf) {T : List Char} {args : List Arg} {e : Error}
    (h : Fails snprintf T args e) :
    ∀ os fi, format_ snprintf os fi T args = (os, .error e) := by
  intro os fi
  obtain ⟨g1, g2, g3⟩ := get_next_format__fresh fi T
  rcases h with h | ⟨rfl, rfl, r, h⟩ | ⟨hne, rfl, h⟩ | ⟨arg, rest, r, rfl, h, hh⟩
  · have e1 := (g1 e).2 h
    cases args <;> (rw [format_.eq_def]; simp only [e1])
  · have e1 := (g2 r).2 h
    rw [format_.eq_def]
    simp only [e1]
  · obtain ⟨r, e1⟩ := g3.2 h
    cases args with
    | nil => exact absurd rfl hne
    | cons arg rest =>
      rw [format_.eq_def]
      simp only [e1]
  · have e1 := (g2 r).2 h
    rw [format_.eq_def]
    simp only [e1, hh]

/-- Every raising run of the orchestrator is a run of processed specifications
followed by a failing step. -/
theorem format__error_inv (snprintf : Snprintf) (args : List Arg) :
    ∀ (T os : List Char) (fi : FormatInfo) (os' : List Char) (e : Error),
      format_ snprintf os fi T args = (os', .error e) →
      ∃ steps T' args', Processed snprintf T args steps T' args'
        ∧ os' = os ++ written steps ∧ Fails snprintf T' args' e := by
  induction args with
  | nil =>
    intro T os fi os' e h
    obtain ⟨g1, g2, g3⟩ := get_next_format__fresh fi T
    rw [format_.eq_def] at h
    simp only [] at h
    rcases hg : get_next_format_ fi T with e1 | ⟨b, r⟩
    · rw [hg] at h
      simp only [Prod.mk.injEq, Except.error.injEq] at h
      obtain ⟨rfl, rfl⟩ := h
      exact ⟨[], T, [], Processed.done T [], by simp [written], Or.inl ((g1 _).1 hg)⟩
    · cases b
      · rw [hg] at h
        simp at h
      · rw [hg] at h
        simp only [Prod.mk.injEq, Except.error.injEq] at h
        obtain ⟨rfl, rfl⟩ := h
        exact ⟨[], T, [], Processed.done T [], by simp [written],
          Or.inr (Or.inl ⟨rfl, rfl, r, (g2 r).1 hg⟩)⟩
  | cons arg rest ih =>
    intro T os fi os' e h
    obtain ⟨g1, g2, g3⟩ := get_next_format__fresh fi T
    rw [format_.eq_def] at h
    simp only [] at h
    rcases hg : get_next_format_ fi T with e1 | ⟨b, r⟩
    · rw [hg] at h
      simp only [Prod.mk.injEq, Except.error.injEq] at h
      obtain ⟨rfl, rfl⟩ := h
      exact ⟨[], T, arg :: rest, Processed.done T _, by simp [written], Or.inl ((g1 _).1 hg)⟩
    · cases b
      · rw [hg] at h
        simp only [Prod.mk.injEq, Except.error.injEq] at h
        obtain ⟨rfl, rfl⟩ := h
        exact ⟨[], T, arg :: rest, Processed.done T _, by simp [written],
          Or.inr (Or.inr (Or.inl ⟨by simp, rfl, g3.1 ⟨r, hg⟩⟩))⟩
      · rw [hg] at h
        simp only [] at h
        rcases hh : handle_fmt_ snprintf r.format r.length r.spec arg with e2 | field
        · rw [hh] at h
          simp only [Prod.mk.injEq, Except.error.injEq] at h
          obtain ⟨rfl, rfl⟩ := h
          exact ⟨[], T, arg :: rest, Processed.done T _, by simp [written],
            Or.inr (Or.inr (Or.inr ⟨arg, rest, r, rfl, (g2 r).1 hg, hh⟩))⟩
        · rw [hh] at h
          simp only [] at h
          obtain ⟨steps, T', args', hp, hos, hf⟩ := ih _ _ _ _ _ h
          refine ⟨(r.pre, field) :: steps, T', args',
            Processed.step T arg rest r field steps T' args' ((g2 r).1 hg) hh hp, ?_, hf⟩
          rw [hos, written_cons]
          simp [List.append_assoc]

/-- An incompatible explicit specifier is rejected by `handle_fmt_` with a
type-mismatch error. -/
theorem handle_fmt__incompatible (snprintf : Snprintf) (arg : Arg) (F buf : List Char)
    (c : Char) (hc : c ≠ NUL) (hpair : ¬ (c_str buf = [] ∧ c = '?'))
    (h : compatible arg (c_str buf) c = false) :
    ∃ e, handle_fmt_ snprintf F buf c arg = .error e ∧ type_mismatch e = true := by
  have hptr : ∀ addr target, ¬ ((c_str buf = [] : Prop) ∧ (c = 's' ∨ c = 'p')) →
      ∃ e, handle_fmt_const_char_ptr snprintf F buf c addr target = .error e
        ∧ type_mismatch e = true := by
    intro addr target hn
    refine (handle_fmt_const_char_ptr_facts snprintf F buf c addr target hc).2.2.1 ?_
    rintro ⟨hb, hs | hp | hq⟩
    · exact hn ⟨hb, Or.inl hs⟩
    · exact hn ⟨hb, Or.inr hp⟩
    · exact hpair ⟨hb, hq⟩
  by_cases hgen : generic arg = true
  · rw [handle_fmt__generic snprintf arg F buf c hgen hc hpair]
    have h2 : ¬ (c_str buf = default_length arg ∧ c ∈ accepted_specs arg) := by
      intro hx
      have : compatible arg (c_str buf) c = true := by
        cases arg <;>
          first
          | exact Bool.noConfusion hgen
          | simpa [compatible, default_length, accepted_specs] using hx
      rw [this] at h
      exact Bool.noConfusion h
    by_cases h1 : c_str buf = default_length arg
    · rw [if_neg (fun hne => hne h1), if_pos (fun hm => h2 ⟨h1, hm⟩)]
      exact ⟨_, rfl, rfl⟩
    · rw [if_pos h1]
      exact ⟨_, rfl, rfl⟩
  · cases arg <;>
      first
      | exact absurd rfl hgen
      | (apply hptr
         simpa [compatible] using h)

/-- The outcome of the orchestrator on a template of `m` well-formed
specifications and `n` arguments, when every argument that meets a specification
is rendered: it depends on the comparison of `m` and `n` only. -/
theorem format__arity (snprintf : Snprintf) {T : List Char}
    {specs : List (List Char × List Char × Char)} (h : Specs T specs) :
    ∀ (args : List Arg) (os : List Char) (fi : FormatInfo),
      (∀ p ∈ specs.zip args, ∃ field, handle_fmt_ snprintf p.1.1
          (p.1.2.1 ++ List.replicate (3 - p.1.2.1.length) NUL) p.1.2.2 p.2 = .ok field) →
      (format_ snprintf os fi T args).2 =
        if specs.length > args.length then .error .not_enough_args
        else if args.length > specs.length then .error .too_many_args
        else .ok () := by
  induction h with
  | literal raw hraw =>
    intro args os fi _
    cases args with
    | nil =>
      rw [format_.eq_def]
      simp only [get_next_format__literal fi raw hraw]
      rfl
    | cons arg rest =>
      rw [format_.eq_def]
      simp only [get_next_format__literal fi raw hraw]
      simp
  | conversion raw flags width prec len R c specs hraw hf hw hp hlen hc _ ih =>
    intro args os fi hok
    have e1 := get_next_format__accept fi raw flags width prec len R c hraw hf hw hp hlen hc
    cases args with
    | nil =>
      rw [format_.eq_def]
      simp only [e1]
      simp
    | cons arg rest =>
      obtain ⟨field, hfield⟩ := hok (('%' :: (flags ++ width ++ prec), len, c), arg)
        (by simp)
      rw [format_.eq_def]
      simp only [e1, hfield]
      rw [ih rest _ _ (fun p hp => hok p (by simp [hp]))]
      simp only [List.length_cons, Nat.add_lt_add_iff_right, gt_iff_lt]

/-! ## Literal text around a template -/

theorem scan_literal_left (L T : List Char) (hL : '%' ∉ L) :
    scan_literal (L ++ T) = (L ++ (scan_literal T).1, (scan_literal T).2) := by
  induction L with
  | nil => rfl
  | cons a L ih =>
    have ha : a ≠ '%' := fun e => hL (e ▸ List.mem_cons_self _ _)
    have hL' : '%' ∉ L := fun h => hL (List.mem_cons_of_mem _ h)
    rw [List.cons_append, scan_literal_cons_ne _ ha, ih hL']
    rfl

/-- Literal text without `%` in front of a template is added to the prefix; the
decomposition is otherwise the same. -/
theorem get_next_format__left (fi : FormatInfo) (L T : List Char) (hL : '%' ∉ L) :
    get_next_format_ fi (L ++ T) =
      match get_next_format_ fi T with
      | .error e => .error e
      | .ok (b, r) => .ok (b, { r with pre := L ++ r.pre }) := by
  rw [get_next_format__eq fi (L ++ T), get_next_format__eq fi T, scan_literal_left L T hL]
  simp only []
  split
  · rfl
  · split
    · rfl
    · split
      · rfl
      · split <;> rfl

theorem takeWhile_dropWhile_append {α : Type} (p : α → Bool) (l R : List α)
    (h : l.dropWhile p ≠ []) :
    (l ++ R).takeWhile p = l.takeWhile p ∧ (l ++ R).dropWhile p = l.dropWhile p ++ R := by
  induction l with
  | nil => exact absurd rfl h
  | cons a l ih =>
    by_cases ha : p a = true
    · have h2 : l.dropWhile p ≠ [] := by simpa [List.dropWhile_cons, ha] using h
      simp [List.takeWhile_cons, List.dropWhile_cons, ha, ih h2]
    · simp [List.takeWhile_cons, List.dropWhile_cons, ha]

theorem scan_precision_right (l R : List Char) (h : (scan_precision l).2 ≠ []) :
    scan_precision (l ++ R) = ((scan_precision l).1, (scan_precision l).2 ++ R) := by
  cases l with
  | nil => exact absurd rfl h
  | cons c rest =>
    unfold scan_precision at h ⊢
    by_cases hc : c = '.'
    · simp only [List.cons_append, hc, if_true] at h ⊢
      obtain ⟨h1, h2⟩ := takeWhile_dropWhile_append isdigit rest R h
      rw [h1, h2]
    · simp only [List.cons_append, hc, if_false]

theorem literal_right (T R : List Char) (hT : no_unescaped T = true) (hR : '%' ∉ R) :
    no_unescaped (T ++ R) = true ∧ collapse (T ++ R) = collapse T ++ R := by
  induction T using no_unescaped.induct with
  | case1 => simpa [collapse] using no_percent_literal hR
  | case2 rest2 ih =>
    rw [no_unescaped_pair] at hT
    simpa [no_unescaped_pair, collapse_pair] using ih hT
  | case3 c2 rest2 hc2 =>
    rw [no_unescaped_lone _ hc2] at hT
    cases hT
  | case4 => exact absurd hT (by decide)
  | case5 c rest1 hc ih =>
    rw [no_unescaped_cons_ne _ hc] at hT
    simpa [no_unescaped_cons_ne _ hc, collapse_cons_ne _ hc] using ih hT

/-- Text after a template of literal text only, itself without `%`, is added to
the prefix. -/
theorem get_next_format__right_literal (fi r : FormatInfo) (T R : List Char) (hR : '%' ∉ R)
    (h : get_next_format_ fi T = .ok (false, r)) :
    get_next_format_ fi (T ++ R) = .ok (false, { r with pre := r.pre ++ R }) := by
  obtain ⟨hT, hr⟩ := (literal_only_iff fi r T).1 h
  obtain ⟨h1, h2⟩ := literal_right T R hT hR
  rw [get_next_format__literal fi _ h1, h2, hr]

/-- Text after a template in which a specification is found is added to the
suffix. -/
theorem get_next_format__right_spec (fi r : FormatInfo) (T R : List Char)
    (h : get_next_format_ fi T = .ok (true, r)) :
    get_next_format_ fi (T ++ R) = .ok (true, { r with suffix := r.suffix ++ R }) := by
  obtain ⟨raw, afb, c, suffix, hT, hraw, hasb, hc, hrun, hfi⟩ :=
    get_next_format__true_inv fi r T h
  have hsp2 : (scan_precision ((afb.dropWhile (strchr validflags)).dropWhile isdigit)).2
      ≠ [] := by
    intro h0
    rw [h0] at hasb
    cases hasb
  have hd2 : (afb.dropWhile (strchr validflags)).dropWhile isdigit ≠ [] := by
    intro h0
    rw [h0] at hsp2
    exact hsp2 rfl
  have hd1 : afb.dropWhile (strchr validflags) ≠ [] := by
    intro h0
    rw [h0] at hd2
    exact hd2 rfl
  have hasb2 : (scan_precision ((afb.dropWhile (strchr validflags)).dropWhile isdigit)).2.dropWhile
      (strchr validlengthchars) ≠ [] := by
    rw [hasb]
    simp
  obtain ⟨t1, e1⟩ := takeWhile_dropWhile_append (strchr validflags) afb R hd1
  obtain ⟨t2, e2⟩ := takeWhile_dropWhile_append isdigit _ R hd2
  have e3 := scan_precision_right _ R hsp2
  obtain ⟨t4, e4⟩ := takeWhile_dropWhile_append (strchr validlengthchars) _ R hasb2
  have hhead : (afb ++ R).head? ≠ some '%' := by
    cases afb with
    | nil => exact absurd rfl hd1
    | cons a tl =>
      intro ha
      have ha2 : a = '%' := by simpa using ha
      subst ha2
      have hx : (scan_precision ((('%' :: tl).dropWhile (strchr validflags)).dropWhile
          isdigit)).2.dropWhile (strchr validlengthchars) = '%' :: tl := by
        have f1 : strchr validflags '%' = false := by decide
        have f2 : isdigit '%' = false := by decide
        have f3 : strchr validlengthchars '%' = false := by decide
        simp [List.dropWhile_cons, f1, f2, f3, scan_precision]
      rw [hx] at hasb
      have hc2 : c = '%' := by
        injection hasb with hh _
        exact hh.symm
      subst hc2
      exact absurd hc (by decide)
  have hscan : scan_literal (T ++ R) = (collapse raw, '%' :: (afb ++ R)) := by
    rw [hT, List.append_assoc, List.cons_append]
    exact scan_literal_append raw _ hraw (Or.inr ⟨afb ++ R, rfl, hhead⟩)
  rw [get_next_format__eq, hscan]
  simp only [t1, e1, t2, e2, e3, t4, e4, hasb, List.cons_append]
  have hc2 : ¬ strchr validspec c = false := by simp [hc]
  have hrun2 : ¬ ((scan_precision ((afb.dropWhile (strchr validflags)).dropWhile isdigit)).2.takeWhile
      (strchr validlengthchars)).length > 2 := by omega
  rw [if_neg hc2, if_neg hrun2, hfi]

/-- The orchestrator only appends to the stream. -/
theorem format__stream (snprintf : Snprintf) (args : List Arg) :
    ∀ (T os : List Char) (fi : FormatInfo),
      format_ snprintf os fi T args
        = (os ++ (format_ snprintf [] fi T args).1, (format_ snprintf [] fi T args).2) := by
  induction args with
  | nil =>
    intro T os fi
    rw [format_.eq_def, format_.eq_def snprintf []]
    simp only []
    rcases get_next_format_ fi T with e | ⟨b, r⟩
    · simp
    · cases b <;> simp
  | cons arg rest ih =>
    intro T os fi
    rw [format_.eq_def, format_.eq_def snprintf []]
    simp only []
    rcases get_next_format_ fi T with e | ⟨b, r⟩
    · simp
    · cases b
      · simp
      · simp only []
        rcases handle_fmt_ snprintf r.format r.length r.spec arg with e2 | field
        · simp
        · simp only []
          rw [ih, ih r.suffix ([] ++ r.pre ++ field)]
          simp [List.append_assoc]

/-- Literal text without `%` in front of the template comes first in the output
of a run that raises nothing. -/
theorem format__left (snprintf : Snprintf) (L : List Char) (hL : '%' ∉ L) (args : List Arg)
    (T os : List Char) (fi : FormatInfo) (out : List Char)
    (h : format_ snprintf (os ++ L) fi T args = (out, .ok ())) :
    format_ snprintf os fi (L ++ T) args = (out, .ok ()) := by
  have hg := get_next_format__left fi L T hL
  cases args with
  | nil =>
    rw [format_.eq_def] at h ⊢
    simp only [] at h ⊢
    rcases hgt : get_next_format_ fi T with e | ⟨b, r⟩
    · rw [hgt] at h
      simp at h
    · rw [hgt] at h hg
      rw [hg]
      cases b
      · simp only [Prod.mk.injEq, and_true] at h ⊢
        rw [← h]
        simp [List.append_assoc]
      · simp at h
  | cons arg rest =>
    rw [format_.eq_def] at h ⊢
    simp only [] at h ⊢
    rcases hgt : get_next_format_ fi T with e | ⟨b, r⟩
    · rw [hgt] at h
      simp at h
    · rw [hgt] at h hg
      rw [hg]
      cases b
      · simp at h
      · simp only [] at h ⊢
        rcases hh : handle_fmt_ snprintf r.format r.length r.spec arg with e2 | field
        · rw [hh] at h
          simp at h
        · rw [hh] at h
          simp only [] at h ⊢
          rw [format__workspace snprintf _ fi] at h ⊢
          rw [← h]
          simp [List.append_assoc]

/-- Literal text without `%` after the template comes last in the output of a
run that raises nothing. -/
theorem format__right (snprintf : Snprintf) (R : List Char) (hR : '%' ∉ R) (args : List Arg) :
    ∀ (T os : List Char) (fi : FormatInfo) (out : List Char),
      format_ snprintf os fi T args = (out, .ok ()) →
      format_ snprintf os fi (T ++ R) args = (out ++ R, .ok ()) := by
  induction args with
  | nil =>
    intro T os fi out h
    rw [format_.eq_def] at h ⊢
    simp only [] at h ⊢
    rcases hg : get_next_format_ fi T with e | ⟨b, r⟩
    · rw [hg] at h
      simp at h
    · cases b
      · rw [get_next_format__right_literal fi r T R hR hg]
        rw [hg] at h
        simp only [Prod.mk.injEq, and_true] at h ⊢
        rw [← h]
        simp [List.append_assoc]
      · rw [hg] at h
        simp at h
  | cons arg rest ih =>
    intro T os fi out h
    rw [format_.eq_def] at h ⊢
    simp only [] at h ⊢
    rcases hg : get_next_format_ fi T with e | ⟨b, r⟩
    · rw [hg] at h
      simp at h
    · cases b
      · rw [hg] at h
        simp at h
      · rw [get_next_format__right_spec fi r T R hg]
        rw [hg] at h
        simp only [] at h ⊢
        rcases hh : handle_fmt_ snprintf r.format r.length r.spec arg with e2 | field
        · rw [hh] at h
          simp at h
        · rw [hh] at h
          simp only [] at h ⊢
          rw [format__workspace snprintf _ fi] at h ⊢
          exact ih _ _ _ _ h

/-! ## Conversions no argument type supports -/

/-- A non-empty length string that differs from `pflength` is rejected before
the type character is looked at. -/
theorem handle_fmt_T_bad_length (snprintf : Snprintf) (T : CType) (F buf : List Char) (c : Char)
    (v : CValue) (hne : c_str buf ≠ []) (h : c_str buf ≠ (PFTypeMap T).pflength) :
    handle_fmt_T snprintf T F buf c v = .error (.bad_length (c_str buf) T) := by
  have hp : c_str (PFTypeMap T).pflength = (PFTypeMap T).pflength := by
    cases T <;> rfl
  have hauto : ¬ ((c_str buf).length = 0 ∧ c = '?') := by
    rw [List.length_eq_zero]
    exact fun hx => hne hx.1
  have hcmp : strcmp buf (PFTypeMap T).pflength ≠ 0 := by
    rw [ne_eq, strcmp_eq_zero_iff, hp]
    exact h
  unfold handle_fmt_T
  rw [if_neg hauto, if_pos hcmp]

/-- A length string that is the default length of no table entry is rejected
for every argument. -/
theorem handle_fmt__bad_length (snprintf : Snprintf) (arg : Arg) (F buf : List Char) (c : Char)
    (hne : c_str buf ≠ []) (h : ∀ T : CType, c_str buf ≠ (PFTypeMap T).pflength) :
    ∃ e, handle_fmt_ snprintf F buf c arg = .error e ∧ type_mismatch e = true := by
  have key : ∀ T v, ∃ e, handle_fmt_T snprintf T F buf c v = .error e
      ∧ type_mismatch e = true :=
    fun T v => ⟨_, handle_fmt_T_bad_length snprintf T F buf c v hne (h T), rfl⟩
  have hptr : ∀ addr target, ∃ e, handle_fmt_const_char_ptr snprintf F buf c addr target
      = .error e ∧ type_mismatch e = true := by
    intro addr target
    unfold handle_fmt_const_char_ptr
    split
    · exact key _ _
    · exact key _ _
  cases arg <;> first | exact key _ _ | exact hptr _ _

/-- The type character `i` is compatible with no argument. -/
theorem compatible_i (arg : Arg) (len : List Char) : compatible arg len 'i' = false := by
  have hT : ∀ T : CType, (PFTypeMap T).pftype.elem 'i' = false := by
    intro T
    cases T <;> decide
  cases arg <;> simp only [compatible] <;>
    first
    | (rw [hT]; exact Bool.and_false _)
    | (cases decide (len = []) <;> rfl)

/-- The substituter rejects the type character `i` and the length modifiers `j`,
`z` and `t` for every argument. -/
theorem handle_fmt__unsupported (snprintf : Snprintf) (arg : Arg) (F buf : List Char) (c : Char)
    (h : c = 'i' ∨ c_str buf = ['j'] ∨ c_str buf = ['z'] ∨ c_str buf = ['t']) :
    ∃ e, handle_fmt_ snprintf F buf c arg = .error e ∧ type_mismatch e = true := by
  have hj : ∀ T : CType, (['j'] : List Char) ≠ (PFTypeMap T).pflength
      ∧ (['z'] : List Char) ≠ (PFTypeMap T).pflength
      ∧ (['t'] : List Char) ≠ (PFTypeMap T).pflength := by
    intro T
    cases T <;> decide
  rcases h with rfl | h | h | h
  · exact handle_fmt__incompatible snprintf arg F buf 'i' (by decide)
      (fun hx => absurd hx.2 (by decide)) (compatible_i arg _)
  · refine handle_fmt__bad_length snprintf arg F buf c ?_ ?_
    · rw [h]; decide
    · intro T; rw [h]; exact (hj T).1
  · refine handle_fmt__bad_length snprintf arg F buf c ?_ ?_
    · rw [h]; decide
    · intro T; rw [h]; exact (hj T).2.1
  · refine handle_fmt__bad_length snprintf arg F buf c ?_ ?_
    · rw [h]; decide
    · intro T; rw [h]; exact (hj T).2.2

/-! ## The buffers of the renderer -/

/-- When the first `snprintf` call returns `INT_MAX`, the `int` addition `n + 1`
wraps to a negative `neededsize`, `new char[...]` throws `std::bad_alloc` and no
second call is made. -/
theorem handle_fmt_single__int_max (snprintf : Snprintf) (fmt : List Char) (v : CValue)
    (h : (snprintf 256 (c_str fmt) [v]).1 = INT_MAX) :
    handle_fmt_single_ snprintf fmt v = .error .bad_alloc := by
  unfold handle_fmt_single_
  dsimp only
  rw [h, if_pos (by decide), int_wrap_overflow, if_pos (by decide)]

/-- The retry of `handle_fmt_single_` for a first result `n` with
`256 <= n < INT_MAX`: a second call with a buffer of exactly `n + 1` bytes decides
the outcome; if it returns `n2` with `0 <= n2 <= n` the result is the C string in
that buffer, for every other `n2` the error `Error here: n2` is raised. -/
theorem retry_below_int_max (snprintf : Snprintf) (fmt : List Char) (v : CValue)
    (h : (snprintf 256 (c_str fmt) [v]).1 ≥ 256)
    (hmax : (snprintf 256 (c_str fmt) [v]).1 < INT_MAX) :
    ((0 ≤ (snprintf ((snprintf 256 (c_str fmt) [v]).1 + 1).toNat (c_str fmt) [v]).1
        ∧ (snprintf ((snprintf 256 (c_str fmt) [v]).1 + 1).toNat (c_str fmt) [v]).1
          ≤ (snprintf 256 (c_str fmt) [v]).1) →
      handle_fmt_single_ snprintf fmt v
        = .ok (c_str (snprintf ((snprintf 256 (c_str fmt) [v]).1 + 1).toNat (c_str fmt) [v]).2))
    ∧ (¬ (0 ≤ (snprintf ((snprintf 256 (c_str fmt) [v]).1 + 1).toNat (c_str fmt) [v]).1
        ∧ (snprintf ((snprintf 256 (c_str fmt) [v]).1 + 1).toNat (c_str fmt) [v]).1
          ≤ (snprintf 256 (c_str fmt) [v]).1) →
      handle_fmt_single_ snprintf fmt v
        = .error (.render_error
            (snprintf ((snprintf 256 (c_str fmt) [v]).1 + 1).toNat (c_str fmt) [v]).1))
    ∧ ((∃ out, handle_fmt_single_ snprintf fmt v = .ok out)
      ↔ (0 ≤ (snprintf ((snprintf 256 (c_str fmt) [v]).1 + 1).toNat (c_str fmt) [v]).1
        ∧ (snprintf ((snprintf 256 (c_str fmt) [v]).1 + 1).toNat (c_str fmt) [v]).1
          ≤ (snprintf 256 (c_str fmt) [v]).1)) := by
  generalize hn : (snprintf 256 (c_str fmt) [v]).1 = n at h hmax ⊢
  generalize hr2 : snprintf (n + 1).toNat (c_str fmt) [v] = r2
  unfold INT_MAX at hmax
  have hw : int_wrap (n + 1) = n + 1 := int_wrap_eq (by omega) (by omega)
  have h0 : ¬ (n + 1 < 0) := by omega
  have hgood : (0 ≤ r2.1 ∧ r2.1 ≤ n) → handle_fmt_single_ snprintf fmt v = .ok (c_str r2.2) := by
    intro hx
    unfold handle_fmt_single_
    dsimp only
    have h1 : ¬ (r2.1 < 0 ∨ r2.1 ≥ n + 1) := by omega
    rw [hn, if_pos h, hw, if_neg h0, hr2, if_neg h1]
  have hbad : ¬ (0 ≤ r2.1 ∧ r2.1 ≤ n) →
      handle_fmt_single_ snprintf fmt v = .error (.render_error r2.1) := by
    intro hx
    unfold handle_fmt_single_
    dsimp only
    have h1 : r2.1 < 0 ∨ r2.1 ≥ n + 1 := by omega
    rw [hn, if_pos h, hw, if_neg h0, hr2, if_pos h1]
  refine ⟨hgood, hbad, ?_, ?_⟩
  · rintro ⟨out, hout⟩
    by_contra hx
    rw [hbad hx] at hout
    cases hout
  · intro hx
    exact ⟨_, hgood hx⟩

/-- On two hosts whose first call returns 300: when the second call, on 301 bytes,
returns 300 the content of the buffer is the field; when it returns 301 the error
`Error here: 301` is raised. -/
theorem retry_below_int_max_witness :
    handle_fmt_single_
        (fun size _ _ => if size = 301 then (300, ['o', 'k', NUL]) else (300, []))
        ['%', 's'] (CValue.pointer 0 []) = .ok ['o', 'k']
      ∧ handle_fmt_single_
        (fun size _ _ => if size = 301 then (301, ['o', 'k', NUL]) else (300, []))
        ['%', 's'] (CValue.pointer 0 []) = .error (.render_error 301) :=
  ⟨(retry_below_int_max
      (fun size _ _ => if size = 301 then (300, ['o', 'k', NUL]) else (300, []))
      ['%', 's'] (CValue.pointer 0 []) (by decide) (by decide)).1 (by decide),
    (retry_below_int_max
      (fun size _ _ => if size = 301 then (301, ['o', 'k', NUL]) else (300, []))
      ['%', 's'] (CValue.pointer 0 []) (by decide) (by decide)).2.1 (by decide)⟩

/-- With `snprintf` a deterministic C-conforming renderer, for every rendering
shorter than `INT_MAX` that holds no NUL byte `handle_fmt_single_` returns exactly
the rendering and raises nothing, below and above the 256-byte buffer. -/
theorem rendering_below_int_max (render : List Char → List CValue → List Char)
    (fmt : List Char) (v : CValue)
    (hlen : ((render (c_str fmt) [v]).length : Int) < INT_MAX)
    (h : NUL ∉ render (c_str fmt) [v]) :
    handle_fmt_single_ (rendering_snprintf render) fmt v = .ok (render (c_str fmt) [v]) := by
  have hc := c_str_padded (render (c_str fmt) [v]) 1 h
  have hrep : List.replicate 1 NUL = [NUL] := rfl
  rw [hrep] at hc
  have hle : ((render (c_str fmt) [v]).length : Int) ≤ INT_MAX := Int.le_of_lt hlen
  have key : ∀ size, rendering_snprintf render size (c_str fmt) [v]
      = (((render (c_str fmt) [v]).length : Int),
          if size = 0 then []
          else (render (c_str fmt) [v]).take (min (render (c_str fmt) [v]).length (size - 1))
            ++ [NUL]) := by
    intro size
    unfold rendering_snprintf
    exact if_pos hle
  unfold INT_MAX at hlen
  unfold handle_fmt_single_
  dsimp only
  rw [key 256]
  by_cases hbig : ((render (c_str fmt) [v]).length : Int) ≥ 256
  · have hw : int_wrap (((render (c_str fmt) [v]).length : Int) + 1)
        = ((render (c_str fmt) [v]).length : Int) + 1 := int_wrap_eq (by omega) (by omega)
    have h0 : ¬ (((render (c_str fmt) [v]).length : Int) + 1 < 0) := by omega
    have h1 : ¬ (((render (c_str fmt) [v]).length : Int) < 0
        ∨ ((render (c_str fmt) [v]).length : Int) ≥ ((render (c_str fmt) [v]).length : Int) + 1) := by
      omega
    have h2 : min (render (c_str fmt) [v]).length
        ((((render (c_str fmt) [v]).length : Int) + 1).toNat - 1)
        = (render (c_str fmt) [v]).length := by omega
    have h3 : ¬ (((render (c_str fmt) [v]).length : Int) + 1).toNat = 0 := by omega
    rw [if_pos hbig, hw, if_neg h0, key, if_neg h1, if_neg h3, h2, List.take_length, hc]
  · have h2 : min (render (c_str fmt) [v]).length (256 - 1) = (render (c_str fmt) [v]).length := by
      omega
    have h3 : ¬ (256 : Nat) = 0 := by decide
    rw [if_neg hbig, if_neg h3, h2, List.take_length, hc]

/-- Rendered fields of 255, 256, 257, 258 and 259 bytes are returned complete. -/
theorem rendering_below_int_max_witness :
    handle_fmt_single_ (rendering_snprintf (fun _ _ => List.replicate 255 '@')) ['%', 's']
        (CValue.pointer 0 []) = .ok (List.replicate 255 '@')
      ∧ handle_fmt_single_ (rendering_snprintf (fun _ _ => List.replicate 256 '@')) ['%', 's']
        (CValue.pointer 0 []) = .ok (List.replicate 256 '@')
      ∧ handle_fmt_single_ (rendering_snprintf (fun _ _ => List.replicate 257 '@')) ['%', 's']
        (CValue.pointer 0 []) = .ok (List.replicate 257 '@')
      ∧ handle_fmt_single_ (rendering_snprintf (fun _ _ => List.replicate 258 '@')) ['%', 's']
        (CValue.pointer 0 []) = .ok (List.replicate 258 '@')
      ∧ handle_fmt_single_ (rendering_snprintf (fun _ _ => List.replicate 259 '@')) ['%', 's']
        (CValue.pointer 0 []) = .ok (List.replicate 259 '@') :=
  ⟨rendering_below_int_max (fun _ _ => List.replicate 255 '@') ['%', 's'] (CValue.pointer 0 [])
      (by
        show ((List.replicate 255 '@').length : Int) < INT_MAX
        rw [List.length_replicate]
        decide) (fun h => absurd (List.eq_of_mem_replicate h) (by decide)),
    rendering_below_int_max (fun _ _ => List.replicate 256 '@') ['%', 's'] (CValue.pointer 0 [])
      (by
        show ((List.replicate 256 '@').length : Int) < INT_MAX
        rw [List.length_replicate]
        decide) (fun h => absurd (List.eq_of_mem_replicate h) (by decide)),
    rendering_below_int_max (fun _ _ => List.replicate 257 '@') ['%', 's'] (CValue.pointer 0 [])
      (by
        show ((List.replicate 257 '@').length : Int) < INT_MAX
        rw [List.length_replicate]
        decide) (fun h => absurd (List.eq_of_mem_replicate h) (by decide)),
    rendering_below_int_max (fun _ _ => List.replicate 258 '@') ['%', 's'] (CValue.pointer 0 [])
      (by
        show ((List.replicate 258 '@').length : Int) < INT_MAX
        rw [List.length_replicate]
        decide) (fun h => absurd (List.eq_of_mem_replicate h) (by decide)),
    rendering_below_int_max (fun _ _ => List.replicate 259 '@') ['%', 's'] (CValue.pointer 0 [])
      (by
        show ((List.replicate 259 '@').length : Int) < INT_MAX
        rw [List.length_replicate]
        decide) (fun h => absurd (List.eq_of_mem_replicate h) (by decide))⟩

/-- No rendering is shorter than its field width. -/
theorem c_pad_length (flags : List Char) (width : Nat) (converted : List Char) :
    width ≤ (c_pad flags width converted).length
      ∧ converted.length ≤ (c_pad flags width converted).length := by
  unfold c_pad
  split <;> simp only [List.length_append, List.length_replicate] <;> omega

/-- A converted value of the digit conversions is not shorter than the
precision. -/
theorem c_expand_length (s : Char) (precision : Nat) (converted : List Char)
    (hs : s ∈ ['d', 'i', 'o', 'u', 'x', 'X', 'a', 'A', 'e', 'E', 'f', 'F']) :
    precision ≤ (c_expand s precision converted).length := by
  unfold c_expand
  by_cases h1 : ['d', 'i', 'o', 'u', 'x', 'X'].elem s = true
  · rw [if_pos h1]
    split
    · split <;> simp only [List.length_append, List.length_replicate, List.length_cons] <;> omega
    · simp
  · rw [if_neg h1]
    have h2 : ['a', 'A', 'e', 'E', 'f', 'F'].elem s = true := by
      simp only [List.elem_eq_mem, decide_eq_true_eq, List.mem_cons, List.mem_singleton,
        List.not_mem_nil, or_false, not_or] at h1 hs ⊢
      tauto
    rw [if_pos h2]
    simp only [List.length_append, List.length_replicate]
    omega

/-- A field width above `INT_MAX` makes `snprintf` fail on every C-conforming
host: on "%2147483648d" the call returns `-1`, and `handle_fmt_single_`, which
does not look at the sign of the first result, returns what is in the buffer and
raises nothing. -/
theorem wide_field_fails (conv : List Char → CValue → List Char) (size : Nat) (v : CValue) :
    conforming_snprintf conv size ['%', '2', '1', '4', '7', '4', '8', '3', '6', '4', '8', 'd'] [v]
        = (-1, [])
      ∧ handle_fmt_single_ (conforming_snprintf conv)
          ['%', '2', '1', '4', '7', '4', '8', '3', '6', '4', '8', 'd'] v = .ok [] := by
  have hp := c_printf_conversion (c_padded conv) []
    ['2', '1', '4', '7', '4', '8', '3', '6', '4', '8'] [] [] [] 'd' v []
    (by decide) (by decide) (Or.inl rfl) (Or.inl rfl) (by decide)
  rw [c_printf_nil] at hp
  have hlen := (c_pad_length [] 2147483648
    (c_expand 'd' 0 (conv ['%', '2', '1', '4', '7', '4', '8', '3', '6', '4', '8', 'd'] v))).1
  have hcall : ∀ size, conforming_snprintf conv size
      ['%', '2', '1', '4', '7', '4', '8', '3', '6', '4', '8', 'd'] [v] = (-1, []) := by
    intro size
    unfold conforming_snprintf
    have hc : c_str ['%', '2', '1', '4', '7', '4', '8', '3', '6', '4', '8', 'd']
        = '%' :: ([] ++ ['2', '1', '4', '7', '4', '8', '3', '6', '4', '8'] ++ []
            ++ ([] ++ 'd' :: [])) := by
      decide
    rw [hc, hp]
    have hbig : ¬ (((c_padded conv ('%' :: ([] ++ ['2', '1', '4', '7', '4', '8', '3', '6', '4', '8']
        ++ [] ++ [] ++ ['d'])) v ++ []).length : Int) ≤ INT_MAX) := by
      have e : c_padded conv ('%' :: ([] ++ ['2', '1', '4', '7', '4', '8', '3', '6', '4', '8']
          ++ [] ++ [] ++ ['d'])) v
          = c_pad [] 2147483648
              (c_expand 'd' 0
                (conv ['%', '2', '1', '4', '7', '4', '8', '3', '6', '4', '8', 'd'] v)) := rfl
      rw [e, List.append_nil]
      unfold INT_MAX
      omega
    exact if_neg hbig
  refine ⟨hcall size, ?_⟩
  unfold handle_fmt_single_
  dsimp only
  have hc2 : c_str ['%', '2', '1', '4', '7', '4', '8', '3', '6', '4', '8', 'd']
      = ['%', '2', '1', '4', '7', '4', '8', '3', '6', '4', '8', 'd'] := by decide
  rw [hc2, hcall 256]
  rfl

/-- A precision above `INT_MAX` makes `snprintf` fail on every C-conforming host:
on "%.2147483648d" the call returns `-1`. -/
theorem long_precision_fails (conv : List Char → CValue → List Char) (size : Nat) (v : CValue) :
    conforming_snprintf conv size
      ['%', '.', '2', '1', '4', '7', '4', '8', '3', '6', '4', '8', 'd'] [v] = (-1, []) := by
  have hp := c_printf_conversion (c_padded conv) [] []
    ['.', '2', '1', '4', '7', '4', '8', '3', '6', '4', '8'] [] [] 'd' v []
    (by decide) (by decide) (Or.inr ⟨_, rfl, by decide⟩) (Or.inl rfl) (by decide)
  rw [c_printf_nil] at hp
  have hlen1 := c_expand_length 'd' 2147483648
    (conv ['%', '.', '2', '1', '4', '7', '4', '8', '3', '6', '4', '8', 'd'] v) (by decide)
  have hlen2 := (c_pad_length [] 0 (c_expand 'd' 2147483648
    (conv ['%', '.', '2', '1', '4', '7', '4', '8', '3', '6', '4', '8', 'd'] v))).2
  unfold conforming_snprintf
  have hc : c_str ['%', '.', '2', '1', '4', '7', '4', '8', '3', '6', '4', '8', 'd']
      = '%' :: ([] ++ [] ++ ['.', '2', '1', '4', '7', '4', '8', '3', '6', '4', '8']
          ++ ([] ++ 'd' :: [])) := by
    decide
  rw [hc, hp]
  have hbig : ¬ (((c_padded conv ('%' :: ([] ++ []
      ++ ['.', '2', '1', '4', '7', '4', '8', '3', '6', '4', '8'] ++ [] ++ ['d'])) v
      ++ []).length : Int) ≤ INT_MAX) := by
    have e : c_padded conv ('%' :: ([] ++ []
        ++ ['.', '2', '1', '4', '7', '4', '8', '3', '6', '4', '8'] ++ [] ++ ['d'])) v
        = c_pad [] 0 (c_expand 'd' 2147483648
            (conv ['%', '.', '2', '1', '4', '7', '4', '8', '3', '6', '4', '8', 'd'] v)) := rfl
    rw [e, List.append_nil]
    unfold INT_MAX
    omega
  exact if_neg hbig

/-! ## The claims -/

/-- C2 (escape law). For every template `T` with no unescaped `%`, `format_string`
called with no arguments raises nothing and returns `T` with every `%%` pair
replaced by one `%`. -/
theorem escape_law (snprintf : Snprintf) (T : List Char) (h : no_unescaped T = true) :
    format_string snprintf T [] = .ok (collapse T) := by
  unfold format_string format_stream format_
  rw [get_next_format__literal _ T h]
  rfl

/-- C2 at the templates of the claim: the empty template gives the empty string,
"%%" gives "%" and "%%?" gives "%?". -/
theorem escape_law_witness :
    no_unescaped ['%', '%', '?'] = true
      ∧ format_string (fun _ _ _ => (0, [])) ['%', '%', '?'] [] = .ok ['%', '?']
      ∧ format_string (fun _ _ _ => (0, [])) ['%', '%'] [] = .ok ['%']
      ∧ format_string (fun _ _ _ => (0, [])) [] [] = .ok [] :=
  ⟨by decide, escape_law _ ['%', '%', '?'] (by decide), escape_law _ ['%', '%'] (by decide),
    escape_law _ [] (by decide)⟩

/-- C3 at the four bytes `%`, `5`, NUL, `d`: `get_next_format_` returns true with
prefix "", format "%5", an empty length, spec `d` and suffix "", and these fields
do not add up to the template: the NUL byte is lost. -/
theorem decomposition_loses_nul :
    get_next_format_ FormatInfo.fresh ['%', '5', NUL, 'd']
        = .ok (true, ⟨[], [], ['%', '5'], [NUL, NUL, NUL], 'd'⟩)
      ∧ c_str [NUL, NUL, NUL] = []
      ∧ ¬ ∃ raw, ['%', '5', NUL, 'd'] = raw ++ ['%', '5'] ++ c_str [NUL, NUL, NUL] ++ ['d'] ++ [] := by
  refine ⟨rfl, rfl, ?_⟩
  rintro ⟨raw, h⟩
  have hl := congrArg List.length h
  have hm : NUL ∈ raw ++ ['%', '5'] ++ c_str [NUL, NUL, NUL] ++ ['d'] ++ [] := by
    rw [← h]; simp
  have hc : c_str [NUL, NUL, NUL] = [] := rfl
  rw [hc] at hm hl
  simp only [List.append_nil, List.length_append, List.length_cons, List.length_nil] at hl
  have : raw.length = 1 := by omega
  match raw, this with
  | [a], _ =>
    simp only [List.append_nil, List.cons_append, List.nil_append, List.cons.injEq] at h
    exact absurd h.2.1 (by decide)

/-- C4 (grammar acceptance). For `F` = `%`, flag characters from "+- #0", decimal
digits and an optional `.` with decimal digits, every permitted length modifier
`len`, every type character `c`, every literal text `P` without `%` and every tail
`R`, `get_next_format_` applied to `P ++ F ++ len ++ c ++ R` returns true with
prefix `P`, format `F`, length `len`, spec `c` and suffix `R`. -/
theorem grammar_acceptance (fi : FormatInfo) (P flags width prec len R : List Char) (c : Char)
    (hP : '%' ∉ P)
    (hf : ∀ x ∈ flags, x ∈ validflags) (hw : ∀ x ∈ width, isdigit x = true)
    (hp : prec = [] ∨ ∃ ds, prec = '.' :: ds ∧ ∀ x ∈ ds, isdigit x = true)
    (hlen : len = [] ∨ len ∈ validlengths) (hc : c ∈ validspec) :
    ∃ fi', get_next_format_ fi (P ++ ('%' :: (flags ++ width ++ prec)) ++ len ++ c :: R)
        = .ok (true, fi')
      ∧ fi'.pre = P ∧ fi'.format = '%' :: (flags ++ width ++ prec)
      ∧ c_str fi'.length = len ∧ fi'.spec = c ∧ fi'.suffix = R := by
  refine ⟨⟨collapse P, R, '%' :: (flags ++ width ++ prec),
    len ++ List.replicate (3 - len.length) NUL, c⟩, ?_, ?_⟩
  · exact get_next_format__accept fi P flags width prec len R c (no_percent_literal hP).1
      hf hw hp hlen hc
  · exact ⟨(no_percent_literal hP).2, rfl, c_str_padded len _ (validlengths_chars hlen).2.2,
      rfl, rfl⟩

/-- C4 at "ab%-012.3lld x". -/
theorem grammar_acceptance_witness :
    ∃ fi', get_next_format_ FormatInfo.fresh
        (['a', 'b'] ++ ('%' :: (['-', '0'] ++ ['1', '2'] ++ ['.', '3'])) ++ ['l', 'l']
          ++ 'd' :: [' ', 'x']) = .ok (true, fi')
      ∧ fi'.pre = ['a', 'b'] ∧ fi'.format = '%' :: (['-', '0'] ++ ['1', '2'] ++ ['.', '3'])
      ∧ c_str fi'.length = ['l', 'l'] ∧ fi'.spec = 'd' ∧ fi'.suffix = [' ', 'x'] :=
  grammar_acceptance FormatInfo.fresh ['a', 'b'] ['-', '0'] ['1', '2'] ['.', '3'] ['l', 'l']
    [' ', 'x'] 'd' (by decide) (by decide) (by decide)
    (Or.inr ⟨['3'], rfl, by decide⟩) (Or.inr (by decide)) (by decide)

/-- C5 at the three bytes `%`, NUL, `d`: `get_next_format_` returns true and the
`format` field is `%` followed by a NUL byte, which is outside the grammar. -/
theorem format_field_outside_grammar :
    get_next_format_ FormatInfo.fresh ['%', NUL, 'd']
        = .ok (true, ⟨[], [], ['%', NUL], [NUL, NUL, NUL], 'd'⟩)
      ∧ ¬ FormatGrammar ['%', NUL] :=
  ⟨rfl, not_FormatGrammar_nul⟩

/-- C6 at "%hld", "%Lhd" and "%jzd": the two-character runs "hl", "Lh" and "jz"
are none of the eight permitted length modifiers, and `get_next_format_` returns
true with the run in `length` instead of raising "Invalid length specifier". -/
theorem invalid_length_accepted :
    get_next_format_ FormatInfo.fresh ['%', 'h', 'l', 'd']
        = .ok (true, ⟨[], [], ['%'], ['h', 'l', NUL], 'd'⟩)
      ∧ get_next_format_ FormatInfo.fresh ['%', 'L', 'h', 'd']
        = .ok (true, ⟨[], [], ['%'], ['L', 'h', NUL], 'd'⟩)
      ∧ get_next_format_ FormatInfo.fresh ['%', 'j', 'z', 'd']
        = .ok (true, ⟨[], [], ['%'], ['j', 'z', NUL], 'd'⟩)
      ∧ c_str ['h', 'l', NUL] ≠ [] ∧ c_str ['h', 'l', NUL] ∉ validlengths := by
  refine ⟨rfl, rfl, rfl, ?_, ?_⟩ <;> decide

/-- C7 at the bytes `x`, `%`, NUL, `s`, `y`: the unescaped `%` is followed by a NUL
byte, which is no flag, digit, period, length character or type character, and
`get_next_format_` returns true instead of raising. -/
theorem nul_after_percent_accepted :
    get_next_format_ FormatInfo.fresh ['x', '%', NUL, 's', 'y']
        = .ok (true, ⟨['x'], ['y'], ['%', NUL], [NUL, NUL, NUL], 's'⟩)
      ∧ NUL ∉ validflags ∧ isdigit NUL = false ∧ NUL ≠ '.' ∧ NUL ∉ validlengthchars
      ∧ NUL ∉ validspec := by
  refine ⟨rfl, ?_, ?_, ?_, ?_, ?_⟩ <;> decide

/-- C8 (over-long length run). When the first conversion has, after its flags,
width and precision, a run of three or more length-modifier characters,
`get_next_format_` raises an error; when a valid type character follows the run,
the error is "Format length specification must be 0, 1, or 2 characters". -/
theorem long_length_run_rejected (fi : FormatInfo) (raw flags width prec run tail : List Char)
    (hraw : no_unescaped raw = true)
    (hf : ∀ x ∈ flags, x ∈ validflags) (hw : ∀ x ∈ width, isdigit x = true)
    (hp : prec = [] ∨ ∃ ds, prec = '.' :: ds ∧ ∀ x ∈ ds, isdigit x = true)
    (hrun : ∀ x ∈ run, x ∈ validlengthchars) (h3 : 3 ≤ run.length) :
    (∃ e, get_next_format_ fi (raw ++ ('%' :: (flags ++ width ++ prec)) ++ run ++ tail)
        = .error e)
      ∧ ((∃ c R, tail = c :: R ∧ c ∈ validspec) →
          get_next_format_ fi (raw ++ ('%' :: (flags ++ width ++ prec)) ++ run ++ tail)
            = .error .length_too_long) := by
  have hS : raw ++ ('%' :: (flags ++ width ++ prec)) ++ run ++ tail
      = raw ++ '%' :: (flags ++ width ++ prec ++ (run ++ tail)) := by
    simp [List.append_assoc]
  obtain ⟨a, run', rfl⟩ : ∃ a run', run = a :: run' := by
    cases run with
    | nil => simp at h3
    | cons a r => exact ⟨a, r, rfl⟩
  have ha := lengthchar_not_flag_digit_dot (hrun a (List.mem_cons_self _ _))
  have hY : ∀ (q : Char → Prop), q a → ∀ x ∈ (a :: run' ++ tail).head?, q x := by
    intro q qa x hx
    simp only [List.cons_append, List.head?_cons, Option.mem_def, Option.some.injEq] at hx
    exact hx ▸ qa
  have key := get_next_format__grammar fi raw flags width prec (a :: run' ++ tail) hraw hf hw hp
    (hY _ ha.1) (hY _ ha.2.1) (hY _ ha.2.2.1) (hY _ ha.2.2.2.1)
  have hrun' : ∀ x ∈ a :: run', strchr validlengthchars x = true :=
    fun x hx => (lengthchar_not_flag_digit_dot (hrun x hx)).2.2.2.2
  have hlong : ((a :: run' ++ tail).takeWhile (strchr validlengthchars)).length > 2 := by
    rw [List.takeWhile_append_of_pos hrun', List.length_append]
    omega
  rw [hS]
  constructor
  · rw [key]
    split
    · exact ⟨_, rfl⟩
    · split
      · exact ⟨_, rfl⟩
      · exact ⟨_, rfl⟩
  · rintro ⟨c, R, htail, hc⟩
    subst htail
    obtain ⟨-, hd⟩ := takeWhile_length_run (a :: run') (c :: R) hrun
      (by intro x hx; simp at hx; exact hx ▸ validspec_not_lengthchar hc)
    rw [key, hd]
    simp only [validspec_strchr hc, Bool.true_eq_false, if_false, if_pos hlong]

/-- C8 at "%hhhd": three length characters before the type character `d`. -/
theorem long_length_run_rejected_witness :
    (∃ e, get_next_format_ FormatInfo.fresh ['%', 'h', 'h', 'h', 'd'] = .error e)
      ∧ get_next_format_ FormatInfo.fresh ['%', 'h', 'h', 'h', 'd'] = .error .length_too_long :=
  ⟨(long_length_run_rejected FormatInfo.fresh [] [] [] [] ['h', 'h', 'h'] ['d'] (by decide)
      (by decide) (by decide) (Or.inl rfl) (by decide) (by decide)).1,
    (long_length_run_rejected FormatInfo.fresh [] [] [] [] ['h', 'h', 'h'] ['d'] (by decide)
      (by decide) (by decide) (Or.inl rfl) (by decide) (by decide)).2 ⟨'d', [], rfl, by decide⟩⟩

/-- C9, as the code has it. For every prior state of the workspace and every
template `S` with no unescaped `%`, `get_next_format_` returns false; afterwards
`prefix` holds `S` with `%%` collapsed and `format` is empty, while `length`,
`spec` and `suffix` keep what they held before the call. -/
theorem literal_only_outcome (fi : FormatInfo) (S : List Char) (h : no_unescaped S = true) :
    ∃ fi', get_next_format_ fi S = .ok (false, fi')
      ∧ fi'.pre = collapse S ∧ fi'.format = []
      ∧ fi'.length = fi.length ∧ fi'.spec = fi.spec ∧ fi'.suffix = fi.suffix :=
  ⟨_, get_next_format__literal fi S h, rfl, rfl, rfl, rfl, rfl⟩

/-- C9 at the second decomposition of `format_string("%d%%", 5)`: the template
is the suffix "%%" left by the first one. -/
theorem literal_only_outcome_witness :
    ∃ fi', get_next_format_ ⟨[], ['%', '%'], ['5'], [NUL, NUL, NUL], 'd'⟩ ['%', '%']
        = .ok (false, fi')
      ∧ fi'.pre = collapse ['%', '%'] ∧ fi'.format = []
      ∧ fi'.length = [NUL, NUL, NUL] ∧ fi'.spec = 'd' ∧ fi'.suffix = ['%', '%'] :=
  literal_only_outcome ⟨[], ['%', '%'], ['5'], [NUL, NUL, NUL], 'd'⟩ ['%', '%'] (by decide)

/-- C9 as stated fails: after the literal-only return on "%%" from the workspace
left by "%lld" the fields `length`, `spec` and `suffix` are not empty. -/
theorem literal_only_keeps_fields :
    get_next_format_ ⟨[], ['%', '%'], ['5'], ['l', 'l', NUL], 'd'⟩ ['%', '%']
        = .ok (false, ⟨['%'], ['%', '%'], [], ['l', 'l', NUL], 'd'⟩)
      ∧ ¬ (c_str ['l', 'l', NUL] = [] ∧ 'd' = NUL ∧ ['%', '%'] = ([] : List Char)) := by
  constructor
  · rfl
  · decide

/-- C10 (auto-deduction identity). For every supported argument and partial format
text `F`, `handle_fmt_` called with an empty length and `?` renders the same
single-spec format string, `F ++ default_length ++ accepted_specs[0]`, as a call
with `default_length` and `accepted_specs[0]`; hence a template using `%?` gives
the same result as the template with `?` replaced by the default length and first
specifier of the argument's type. -/
theorem auto_deduction_identity (snprintf : Snprintf) (arg : Arg) (F empty len0 : List Char)
    (args : List Arg) (T T' : List Char) (os : List Char)
    (hempty : c_str empty = []) (hlen0 : c_str len0 = default_length arg)
    (hT : AutoDeduced args T T') :
    handle_fmt_ snprintf F empty '?' arg
        = handle_fmt_single_ snprintf (F ++ default_length arg ++ [default_spec arg])
            (cast_value arg)
      ∧ handle_fmt_ snprintf F len0 (default_spec arg) arg
        = handle_fmt_single_ snprintf (F ++ default_length arg ++ [default_spec arg])
            (cast_value arg)
      ∧ format_stream snprintf os T args = format_stream snprintf os T' args
      ∧ format_string snprintf T args = format_string snprintf T' args := by
  refine ⟨(handle_fmt__default snprintf arg F empty len0 hempty hlen0).1,
    (handle_fmt__default snprintf arg F empty len0 hempty hlen0).2, ?_, ?_⟩
  · exact format__auto_deduced snprintf hT os FormatInfo.fresh
  · unfold format_string format_stream
    rw [format__auto_deduced snprintf hT [] FormatInfo.fresh]

/-- C10 at "[%?]" and "[%d]" with the `int` 42: both give "[42]". -/
theorem auto_deduction_identity_witness :
    (handle_fmt_ host_snprintf ['%'] [NUL, NUL, NUL] '?' (Arg.signed_int 42)
        = handle_fmt_single_ host_snprintf ['%', 'd'] (CValue.int 42)
      ∧ handle_fmt_ host_snprintf ['%'] [NUL, NUL, NUL] 'd' (Arg.signed_int 42)
        = handle_fmt_single_ host_snprintf ['%', 'd'] (CValue.int 42)
      ∧ format_stream host_snprintf [] ['[', '%', '?', ']'] [Arg.signed_int 42]
        = format_stream host_snprintf [] ['[', '%', 'd', ']'] [Arg.signed_int 42]
      ∧ format_string host_snprintf ['[', '%', '?', ']'] [Arg.signed_int 42]
        = format_string host_snprintf ['[', '%', 'd', ']'] [Arg.signed_int 42])
      ∧ format_string host_snprintf ['[', '%', '?', ']'] [Arg.signed_int 42]
        = .ok ['[', '4', '2', ']'] :=
  ⟨auto_deduction_identity host_snprintf (Arg.signed_int 42) ['%'] [NUL, NUL, NUL]
      [NUL, NUL, NUL] [Arg.signed_int 42] ['[', '%', '?', ']'] ['[', '%', 'd', ']'] [] rfl rfl
      (AutoDeduced.deduce (Arg.signed_int 42) [] ['['] [] [] [] [']'] [']'] (by decide)
        (by decide) (by decide) (Or.inl rfl) (AutoDeduced.same [] [']'])),
    rfl⟩

/-- C11 (type and specifier validation). For every argument the generic
substituter handles, with the default length and the accepted type characters of
its `PFTypeMap` entry (the table of section 4.2), every length string `len` (the
C string in the length buffer) and every type character `c` (any character but
the terminator NUL, which `format_` never passes) other than the auto-deduce
pair: `handle_fmt_` raises `Bad length specifier` when `len` is not
the default length, `Bad type specifier` when the length is right and `c` is not
accepted, and otherwise hands the partial format followed by `len` and `c` to the
renderer; so it raises a type-mismatch error exactly when `len` differs from the
default length or `c` is not accepted (any other error is raised by the
renderer). -/
theorem type_specifier_validation (snprintf : Snprintf)
    (arg : Arg) (F buf : List Char) (c : Char)
    (hgen : generic arg = true) (hc : c ≠ NUL) (hpair : ¬ (c_str buf = [] ∧ c = '?')) :
    table_4_2 arg = some (default_length arg, accepted_specs arg)
      ∧ (c_str buf ≠ default_length arg →
          handle_fmt_ snprintf F buf c arg = .error (.bad_length (c_str buf) (arg_type arg)))
      ∧ (c_str buf = default_length arg → c ∉ accepted_specs arg →
          handle_fmt_ snprintf F buf c arg = .error (.bad_type c (arg_type arg)))
      ∧ (c_str buf = default_length arg → c ∈ accepted_specs arg →
          handle_fmt_ snprintf F buf c arg
            = handle_fmt_single_ snprintf (F ++ c_str buf ++ [c]) (cast_value arg))
      ∧ ((∃ e, handle_fmt_ snprintf F buf c arg = .error e ∧ type_mismatch e = true)
          ↔ (c_str buf ≠ default_length arg ∨ c ∉ accepted_specs arg)) := by
  have key := fun s => handle_fmt__generic s arg F buf c hgen hc hpair
  refine ⟨?_, ?_, ?_, ?_, ?_⟩
  · cases arg <;> first | rfl | exact Bool.noConfusion hgen
  · intro h1
    rw [key, if_pos h1]
  · intro h1 h2
    rw [key, if_neg (fun hne => hne h1), if_pos h2]
  · intro h1 h2
    rw [key, if_neg (fun hne => hne h1), if_neg (fun hn => hn h2)]
  · rw [key]
    by_cases h1 : c_str buf = default_length arg
    · by_cases h2 : c ∈ accepted_specs arg
      · rw [if_neg (fun hne => hne h1), if_neg (fun hn => hn h2)]
        constructor
        · rintro ⟨e, he, hm⟩
          rw [handle_fmt_single__errors snprintf _ _ e he] at hm
          cases hm
        · rintro (h | h)
          · exact absurd h1 h
          · exact absurd h2 h
      · rw [if_neg (fun hne => hne h1), if_pos h2]
        exact ⟨fun _ => Or.inr h2, fun _ => ⟨_, rfl, rfl⟩⟩
    · rw [if_pos h1]
      exact ⟨fun _ => Or.inl h1, fun _ => ⟨_, rfl, rfl⟩⟩

/-- C11 at a `long` argument: "%ld" is handed to the renderer, "%d" raises
`Bad length specifier` and "%lu" raises `Bad type specifier`. -/
theorem type_specifier_validation_witness :
    handle_fmt_ host_snprintf ['%'] ['l', NUL, NUL] 'd' (Arg.signed_long 5)
        = handle_fmt_single_ host_snprintf ['%', 'l', 'd'] (CValue.signed_long 5)
      ∧ handle_fmt_ host_snprintf ['%'] [NUL, NUL, NUL] 'd' (Arg.signed_long 5)
        = .error (.bad_length [] .signed_long)
      ∧ handle_fmt_ host_snprintf ['%'] ['l', NUL, NUL] 'u' (Arg.signed_long 5)
        = .error (.bad_type 'u' .signed_long) :=
  ⟨(type_specifier_validation host_snprintf (Arg.signed_long 5) ['%'] ['l', NUL, NUL]
      'd' rfl (by decide) (by decide)).2.2.2.1 rfl (by decide),
    (type_specifier_validation host_snprintf (Arg.signed_long 5) ['%'] [NUL, NUL, NUL]
      'd' rfl (by decide) (by decide)).2.1 (by decide),
    (type_specifier_validation host_snprintf (Arg.signed_long 5) ['%'] ['l', NUL, NUL]
      'u' rfl (by decide) (by decide)).2.2.1 rfl (by decide)⟩

/-- C12 (byte-string pointer policy). For a `const char *` or `char *` argument,
every length string `len` (the C string in the length buffer) and every type
character `c` (any character but the terminator NUL): with an empty length and
`s` or `?` the renderer gets the partial format followed by `s`, with an empty
length and `p` it gets the partial format followed by `p`, in both cases with the
pointer as the value; every other pairing raises `Bad length specifier` or
`Bad type specifier`. So the pair is accepted (no type-mismatch error is raised)
exactly when the length is empty and `c` is one of `s`, `p`, `?`. -/
theorem byte_string_pointer_policy (snprintf : Snprintf)
    (arg : Arg) (addr : Nat) (target : List Char)
    (F buf : List Char) (c : Char)
    (harg : arg = .const_char_ptr addr target ∨ arg = .char_ptr addr target) (hc : c ≠ NUL) :
    (c_str buf = [] → c = 's' ∨ c = '?' →
        handle_fmt_ snprintf F buf c arg
          = handle_fmt_single_ snprintf (F ++ ['s']) (.pointer addr target))
      ∧ (c_str buf = [] → c = 'p' →
        handle_fmt_ snprintf F buf c arg
          = handle_fmt_single_ snprintf (F ++ ['p']) (.pointer addr target))
      ∧ (¬ (c_str buf = [] ∧ (c = 's' ∨ c = 'p' ∨ c = '?')) →
        ∃ e, handle_fmt_ snprintf F buf c arg = .error e ∧ type_mismatch e = true)
      ∧ ((¬ ∃ e, handle_fmt_ snprintf F buf c arg = .error e ∧ type_mismatch e = true)
          ↔ (c_str buf = [] ∧ (c = 's' ∨ c = 'p' ∨ c = '?'))) := by
  rcases harg with rfl | rfl <;>
    exact handle_fmt_const_char_ptr_facts snprintf F buf c addr target hc

/-- C12 at the byte string "oops" stored at address 4096: "%s" and "%?" render
"oops", "%p" renders the address, and "%d" raises `Bad type specifier`. -/
theorem byte_string_pointer_policy_witness :
    handle_fmt_ host_snprintf ['%'] [NUL, NUL, NUL] 's'
          (Arg.const_char_ptr 4096 ['o', 'o', 'p', 's'])
        = handle_fmt_single_ host_snprintf ['%', 's'] (.pointer 4096 ['o', 'o', 'p', 's'])
      ∧ handle_fmt_ host_snprintf ['%'] [NUL, NUL, NUL] 'p'
          (Arg.const_char_ptr 4096 ['o', 'o', 'p', 's'])
        = handle_fmt_single_ host_snprintf ['%', 'p'] (.pointer 4096 ['o', 'o', 'p', 's'])
      ∧ (∃ e, handle_fmt_ host_snprintf ['%'] [NUL, NUL, NUL] 'd'
          (Arg.const_char_ptr 4096 ['o', 'o', 'p', 's']) = .error e ∧ type_mismatch e = true)
      ∧ format_string host_snprintf ['%', 's'] [Arg.const_char_ptr 4096 ['o', 'o', 'p', 's']]
        = .ok ['o', 'o', 'p', 's']
      ∧ format_string host_snprintf ['%', '?'] [Arg.char_ptr 4096 ['o', 'o', 'p', 's']]
        = .ok ['o', 'o', 'p', 's']
      ∧ format_string host_snprintf ['%', 'p'] [Arg.const_char_ptr 4096 ['o', 'o', 'p', 's']]
        = .ok ['0', 'x', '1', '0', '0', '0']
      ∧ format_string host_snprintf ['%', 'd'] [Arg.const_char_ptr 4096 ['o', 'o', 'p', 's']]
        = .error (.bad_type 'd' .const_void_ptr) :=
  ⟨(byte_string_pointer_policy host_snprintf _ 4096 ['o', 'o', 'p', 's'] ['%']
      [NUL, NUL, NUL] 's' (Or.inl rfl) (by decide)).1 rfl (Or.inl rfl),
    (byte_string_pointer_policy host_snprintf _ 4096 ['o', 'o', 'p', 's'] ['%']
      [NUL, NUL, NUL] 'p' (Or.inl rfl) (by decide)).2.1 rfl rfl,
    (byte_string_pointer_policy host_snprintf _ 4096 ['o', 'o', 'p', 's'] ['%']
      [NUL, NUL, NUL] 'd' (Or.inl rfl) (by decide)).2.2.1 (by decide),
    rfl, rfl, rfl, rfl⟩

/-- C13, as the code has it. An owned string (`std::string`) is handed on as the
byte-string pointer `c_str()` and follows the policy of a `const char *`
argument: for every length string and type character (any character but NUL),
with an empty length and `s` or `?` the renderer gets the partial format followed
by `s`, with an empty length and `p` it gets the partial format followed by `p`
and renders the string as a pointer, and every other pairing, and no pairing
but these, raises a type-mismatch error. -/
theorem owned_string_policy (snprintf : Snprintf)
    (addr : Nat) (data : List Char) (F buf : List Char) (c : Char) (hc : c ≠ NUL) :
    handle_fmt_ snprintf F buf c (.string addr data)
        = handle_fmt_ snprintf F buf c (.const_char_ptr addr (c_str data))
      ∧ (c_str buf = [] → c = 's' ∨ c = '?' →
        handle_fmt_ snprintf F buf c (.string addr data)
          = handle_fmt_single_ snprintf (F ++ ['s']) (.pointer addr (c_str data)))
      ∧ (c_str buf = [] → c = 'p' →
        handle_fmt_ snprintf F buf c (.string addr data)
          = handle_fmt_single_ snprintf (F ++ ['p']) (.pointer addr (c_str data)))
      ∧ (¬ (c_str buf = [] ∧ (c = 's' ∨ c = 'p' ∨ c = '?')) →
        ∃ e, handle_fmt_ snprintf F buf c (.string addr data) = .error e
          ∧ type_mismatch e = true)
      ∧ ((¬ ∃ e, handle_fmt_ snprintf F buf c (.string addr data) = .error e
            ∧ type_mismatch e = true)
          ↔ (c_str buf = [] ∧ (c = 's' ∨ c = 'p' ∨ c = '?'))) :=
  ⟨rfl, handle_fmt_const_char_ptr_facts snprintf F buf c addr (c_str data) hc⟩

/-- C13 at the owned string "hi" whose characters are stored at address 4096:
"%s" renders "hi", "%p" renders the address and "%d" raises. -/
theorem owned_string_policy_witness :
    handle_fmt_ host_snprintf ['%'] [NUL, NUL, NUL] 'p' (Arg.string 4096 ['h', 'i'])
        = handle_fmt_single_ host_snprintf ['%', 'p'] (.pointer 4096 ['h', 'i'])
      ∧ format_string host_snprintf ['%', 's'] [Arg.string 4096 ['h', 'i']] = .ok ['h', 'i']
      ∧ format_string host_snprintf ['%', 'd'] [Arg.string 4096 ['h', 'i']]
        = .error (.bad_type 'd' .const_void_ptr) :=
  ⟨(owned_string_policy host_snprintf 4096 ['h', 'i'] ['%'] [NUL, NUL, NUL] 'p'
      (by decide)).2.2.1 rfl rfl, rfl, rfl⟩

/-- C13 as stated fails: with the type character `p` an owned string is not
rejected; `format_string("%p", std::string("hi"))` returns the address of the
characters, rendered as a pointer. -/
theorem owned_string_rendered_as_pointer :
    format_string host_snprintf ['%', 'p'] [Arg.string 4096 ['h', 'i']]
        = .ok ['0', 'x', '1', '0', '0', '0']
      ∧ handle_fmt_ host_snprintf ['%'] [NUL, NUL, NUL] 'p' (Arg.string 4096 ['h', 'i'])
        = .ok ['0', 'x', '1', '0', '0', '0'] :=
  ⟨rfl, rfl⟩

/-- C14 (arity rejection). For every template `T` of `m` well-formed conversion
specifications (`Specs T specs`, `m = specs.length`) and every list of `n`
arguments such that `handle_fmt_` renders the i-th argument for the i-th
specification for every `i` up to `min(m, n)`: `format_string` raises
`Not enough arguments given to format string` if and only if `m > n`, raises
`Too many arguments to format string` if and only if `n > m`, and returns a
string if and only if `m = n`. -/
theorem arity_rejection (snprintf : Snprintf) (T : List Char)
    (specs : List (List Char × List Char × Char)) (args : List Arg)
    (hT : Specs T specs)
    (hok : ∀ p ∈ specs.zip args, ∃ field, handle_fmt_ snprintf p.1.1
        (p.1.2.1 ++ List.replicate (3 - p.1.2.1.length) NUL) p.1.2.2 p.2 = .ok field) :
    (format_string snprintf T args = .error .not_enough_args ↔ specs.length > args.length)
      ∧ (format_string snprintf T args = .error .too_many_args ↔ args.length > specs.length)
      ∧ ((∃ o, format_string snprintf T args = .ok o) ↔ specs.length = args.length) := by
  have key := format__arity snprintf hT args [] FormatInfo.fresh hok
  simp only [format_string, format_stream]
  rw [key]
  by_cases h1 : specs.length > args.length
  · rw [if_pos h1]
    refine ⟨⟨fun _ => h1, fun _ => rfl⟩, ?_, ?_⟩
    · constructor
      · intro h
        cases h
      · intro h
        omega
    · constructor
      · rintro ⟨o, h⟩
        cases h
      · intro h
        omega
  · by_cases h2 : args.length > specs.length
    · rw [if_neg h1, if_pos h2]
      refine ⟨?_, ⟨fun _ => h2, fun _ => rfl⟩, ?_⟩
      · constructor
        · intro h
          cases h
        · intro h
          omega
      · constructor
        · rintro ⟨o, h⟩
          cases h
        · intro h
          omega
    · rw [if_neg h1, if_neg h2]
      refine ⟨?_, ?_, ?_⟩
      · constructor
        · intro h
          cases h
        · intro h
          omega
      · constructor
        · intro h
          cases h
        · intro h
          omega
      · exact ⟨fun _ => by omega, fun _ => ⟨_, rfl⟩⟩

/-- C14 at the examples: "%d %d" with one argument is too few, "%d" with two
arguments is too many. -/
theorem arity_rejection_witness :
    format_string host_snprintf ['%', 'd', ' ', '%', 'd'] [Arg.signed_int 1]
        = .error .not_enough_args
      ∧ format_string host_snprintf ['%', 'd'] [Arg.signed_int 1, Arg.signed_int 2]
        = .error .too_many_args :=
  ⟨(arity_rejection host_snprintf ['%', 'd', ' ', '%', 'd'] [(['%'], [], 'd'), (['%'], [], 'd')]
      [Arg.signed_int 1]
      (Specs.conversion [] [] [] [] [] [' ', '%', 'd'] 'd' _ (by decide) (by decide) (by decide)
        (Or.inl rfl) (by decide) (by decide)
        (Specs.conversion [' '] [] [] [] [] [] 'd' _ (by decide) (by decide) (by decide)
          (Or.inl rfl) (by decide) (by decide) (Specs.literal [] (by decide))))
      (by
        intro p hp
        simp only [List.zip_cons_cons, List.zip_nil_right, List.mem_singleton] at hp
        subst hp
        exact ⟨_, rfl⟩)).1.2 (by decide),
    (arity_rejection host_snprintf ['%', 'd'] [(['%'], [], 'd')]
      [Arg.signed_int 1, Arg.signed_int 2]
      (Specs.conversion [] [] [] [] [] [] 'd' _ (by decide) (by decide) (by decide)
        (Or.inl rfl) (by decide) (by decide) (Specs.literal [] (by decide)))
      (by
        intro p hp
        simp only [List.zip_cons_cons, List.zip_nil_left, List.mem_singleton] at hp
        subst hp
        exact ⟨_, rfl⟩)).2.1.2 (by decide)⟩

/-- C15, as the code has it. When the first `k - 1` specifications of a template
have been processed with their arguments and the `k`-th specification is an
explicit specifier that is not compatible with the `k`-th argument (wrong length
modifier or wrong type character), `format_stream` raises a type-mismatch error
(`Bad length specifier` or `Bad type specifier`) and `format_string` raises the
same error; the stream then holds, after what it held before the call, exactly
the prefixes and rendered fields of the `k - 1` earlier specifications, so nothing
has been written when `k = 1`. -/
theorem type_mismatch_rejection (snprintf : Snprintf) (os T : List Char) (args : List Arg)
    (steps : List (List Char × List Char)) (T' : List Char) (arg : Arg) (rest : List Arg)
    (fi : FormatInfo)
    (hearlier : Processed snprintf T args steps T' (arg :: rest))
    (hspec : get_next_format_ FormatInfo.fresh T' = .ok (true, fi))
    (hexplicit : ¬ (c_str fi.length = [] ∧ fi.spec = '?'))
    (hinc : compatible arg (c_str fi.length) fi.spec = false) :
    ∃ e, type_mismatch e = true
      ∧ format_stream snprintf os T args = (os ++ written steps, .error e)
      ∧ format_string snprintf T args = .error e
      ∧ (steps = [] → format_stream snprintf os T args = (os, .error e)) := by
  have hc : fi.spec ≠ NUL := by
    intro h
    have := spec_is_type_char _ _ _ hspec
    rw [h] at this
    exact absurd this (by decide)
  obtain ⟨e, he, hm⟩ := handle_fmt__incompatible snprintf arg fi.format fi.length fi.spec hc
    hexplicit hinc
  have hfail : Fails snprintf T' (arg :: rest) e :=
    Or.inr (Or.inr (Or.inr ⟨arg, rest, fi, rfl, hspec, he⟩))
  have hrun : ∀ os, format_stream snprintf os T args = (os ++ written steps, .error e) := by
    intro os
    unfold format_stream
    rw [format__processed snprintf hearlier, format__fails snprintf hfail]
  refine ⟨e, hm, hrun os, ?_, ?_⟩
  · simp only [format_string, hrun]
  · intro hs
    rw [hrun, hs]
    simp [written]

/-- C15 at "a%d%d" with the `int` 5 and the byte string "oops": the second
specification raises `Bad type specifier` after "a5" has been written. -/
theorem type_mismatch_rejection_witness :
    ∃ e, type_mismatch e = true
      ∧ format_stream host_snprintf ['>'] ['a', '%', 'd', '%', 'd']
          [Arg.signed_int 5, Arg.const_char_ptr 4096 ['o', 'o', 'p', 's']]
        = (['>'] ++ written [(['a'], ['5'])], .error e)
      ∧ format_string host_snprintf ['a', '%', 'd', '%', 'd']
          [Arg.signed_int 5, Arg.const_char_ptr 4096 ['o', 'o', 'p', 's']] = .error e
      ∧ (([(['a'], ['5'])] : List (List Char × List Char)) = [] →
          format_stream host_snprintf ['>'] ['a', '%', 'd', '%', 'd']
            [Arg.signed_int 5, Arg.const_char_ptr 4096 ['o', 'o', 'p', 's']]
          = (['>'], .error e)) :=
  type_mismatch_rejection host_snprintf ['>'] ['a', '%', 'd', '%', 'd']
    [Arg.signed_int 5, Arg.const_char_ptr 4096 ['o', 'o', 'p', 's']]
    [(['a'], ['5'])] ['%', 'd'] (Arg.const_char_ptr 4096 ['o', 'o', 'p', 's']) []
    ⟨[], [], ['%'], [NUL, NUL, NUL], 'd'⟩
    (Processed.step ['a', '%', 'd', '%', 'd'] (Arg.signed_int 5) _
      ⟨['a'], ['%', 'd'], ['%'], [NUL, NUL, NUL], 'd'⟩ ['5'] [] _ _ rfl rfl
      (Processed.done _ _))
    rfl (by decide) rfl

/-- C15 as stated fails: on "a%d%d" with the `int` 5 and the byte string "oops"
the call raises `Bad type specifier` for the second specification, and the
stream, empty before the call, holds "a5". -/
theorem type_mismatch_after_output :
    format_stream host_snprintf [] ['a', '%', 'd', '%', 'd']
        [Arg.signed_int 5, Arg.const_char_ptr 4096 ['o', 'o', 'p', 's']]
      = (['a', '5'], .error (.bad_type 'd' .const_void_ptr)) :=
  rfl

/-- C16 (prefix and suffix composition). For every template `T` and argument list
`A` for which `format_string` returns a string `o`, and all literal strings `L`
and `R` containing no `%`, `format_string` on `L ++ T ++ R` with `A` returns
`L ++ o ++ R`. -/
theorem prefix_suffix_composition (snprintf : Snprintf) (T : List Char) (A : List Arg)
    (o L R : List Char) (h : format_string snprintf T A = .ok o)
    (hL : '%' ∉ L) (hR : '%' ∉ R) :
    format_string snprintf (L ++ T ++ R) A = .ok (L ++ o ++ R) := by
  have h0 : format_ snprintf [] FormatInfo.fresh T A = (o, .ok ()) := by
    simp only [format_string, format_stream] at h
    rcases hr : format_ snprintf [] FormatInfo.fresh T A with ⟨out, res⟩
    rw [hr] at h
    cases res with
    | error e => simp at h
    | ok u =>
      simp only [Except.ok.injEq] at h
      rw [h]
  have h1 : format_ snprintf ([] ++ L) FormatInfo.fresh T A = (L ++ o, .ok ()) := by
    rw [format__stream, h0]
    rfl
  have h2 := format__left snprintf L hL A T [] FormatInfo.fresh _ h1
  have h3 := format__right snprintf R hR A (L ++ T) [] FormatInfo.fresh _ h2
  simp only [format_string, format_stream, h3]

/-- C16 at `test_format("%d", 5)`: with 250 `@` characters in front and a
newline behind, the output is "5" with the same text around it. -/
theorem prefix_suffix_composition_witness :
    format_string host_snprintf (List.replicate 250 '@' ++ ['%', 'd'] ++ ['\n'])
        [Arg.signed_int 5]
      = .ok (List.replicate 250 '@' ++ ['5'] ++ ['\n']) :=
  prefix_suffix_composition host_snprintf ['%', 'd'] [Arg.signed_int 5] ['5']
    (List.replicate 250 '@') ['\n'] rfl
    (fun h => absurd (List.eq_of_mem_replicate h) (by decide)) (by decide)

/-- C17 as the code has it: when the first `snprintf` call returns a negative
value, `handle_fmt_single_` raises nothing and returns the C string found in the
256-byte buffer as the rendered field. -/
theorem negative_result_not_raised (snprintf : Snprintf) (fmt : List Char) (v : CValue)
    (h : (snprintf 256 (c_str fmt) [v]).1 < 0) :
    handle_fmt_single_ snprintf fmt v = .ok (c_str (snprintf 256 (c_str fmt) [v]).2) := by
  unfold handle_fmt_single_
  have h2 : ¬ (snprintf 256 (c_str fmt) [v]).1 ≥ 256 := by omega
  simp only [h2, if_false]

/-- C17 on a host whose `snprintf` fails with -1 and leaves "xy" in the buffer:
the field is "xy" and `format_string("%d", 5)` returns it. -/
theorem negative_result_not_raised_witness :
    handle_fmt_single_ (fun _ _ _ => (-1, ['x', 'y', NUL])) ['%', 'd'] (CValue.int 5)
        = .ok ['x', 'y']
      ∧ format_string (fun _ _ _ => (-1, ['x', 'y', NUL])) ['%', 'd'] [Arg.signed_int 5]
        = .ok ['x', 'y'] :=
  ⟨negative_result_not_raised (fun _ _ _ => (-1, ['x', 'y', NUL])) ['%', 'd'] (CValue.int 5)
      (by decide), rfl⟩

/-- C18 as the code has it at a rendering of `INT_MAX` bytes: with `snprintf` a
deterministic C-conforming renderer, the call returns `INT_MAX`, the size
`n + 1` of the second buffer overflows, and `handle_fmt_single_` throws
`std::bad_alloc` instead of returning the rendering. -/
theorem rendering_of_int_max_bytes (render : List Char → List CValue → List Char)
    (fmt : List Char) (v : CValue) (h : (render (c_str fmt) [v]).length = 2147483647) :
    (rendering_snprintf render 256 (c_str fmt) [v]).1 = INT_MAX
      ∧ handle_fmt_single_ (rendering_snprintf render) fmt v = .error .bad_alloc := by
  have h1 : (rendering_snprintf render 256 (c_str fmt) [v]).1 = INT_MAX := by
    unfold rendering_snprintf
    dsimp only
    rw [h, if_pos (by decide)]
    rfl
  exact ⟨h1, handle_fmt_single__int_max _ fmt v h1⟩

/-- C18 at a rendering of 2147483647 characters `@`, none of them NUL. -/
theorem rendering_of_int_max_bytes_witness :
    (rendering_snprintf (fun _ _ => List.replicate 2147483647 '@') 256 (c_str ['%', 's'])
        [CValue.pointer 0 []]).1 = INT_MAX
      ∧ handle_fmt_single_ (rendering_snprintf (fun _ _ => List.replicate 2147483647 '@'))
        ['%', 's'] (CValue.pointer 0 []) = .error .bad_alloc :=
  rendering_of_int_max_bytes (fun _ _ => List.replicate 2147483647 '@') ['%', 's']
    (CValue.pointer 0 []) (List.length_replicate _ _)

/-- C19 as the code has it at `n = INT_MAX`: when the first `snprintf` call
returns `INT_MAX`, the `int` addition `n + 1` gives `INT_MIN`, no buffer of
`n + 1` bytes is allocated and `handle_fmt_single_` throws `std::bad_alloc`,
whatever a second call would return. -/
theorem retry_size_overflows (snprintf : Snprintf) (fmt : List Char) (v : CValue)
    (h : (snprintf 256 (c_str fmt) [v]).1 = INT_MAX) :
    (snprintf 256 (c_str fmt) [v]).1 ≥ 256
      ∧ int_wrap ((snprintf 256 (c_str fmt) [v]).1 + 1) = -2147483648
      ∧ handle_fmt_single_ snprintf fmt v = .error .bad_alloc := by
  refine ⟨?_, ?_, handle_fmt_single__int_max snprintf fmt v h⟩
  · rw [h]
    decide
  · rw [h]
    exact int_wrap_overflow

/-- C19 on a host whose `snprintf` returns `INT_MAX` and would fill a larger
buffer with "ok". -/
theorem retry_size_overflows_witness :
    handle_fmt_single_
        (fun size _ _ => if size = 256 then (2147483647, []) else (2, ['o', 'k', NUL]))
        ['%', 's'] (CValue.pointer 0 []) = .error .bad_alloc :=
  (retry_size_overflows
    (fun size _ _ => if size = 256 then (2147483647, []) else (2, ['o', 'k', NUL]))
    ['%', 's'] (CValue.pointer 0 []) rfl).2.2

/-- C20 (partial output on failure). `format_stream` raises `e` and leaves the
stream as `out` exactly when the run is `k - 1` processed specifications followed
by a failing step (a grammar error, a substituter error for the `k`-th argument,
`Too many arguments` because no specification is left for it, or
`Not enough arguments` when no argument is left) and `out` is the stream before
the call followed by `prefix_1 ++ field_1 ++ ... ++ prefix_(k-1) ++ field_(k-1)`:
the literal text before the failing specification and the trailing literal text
of the too-many-arguments case are not written. -/
theorem partial_output_on_failure (snprintf : Snprintf) (os T : List Char) (args : List Arg)
    (out : List Char) (e : Error) :
    format_stream snprintf os T args = (out, .error e) ↔
      ∃ steps T' args', Processed snprintf T args steps T' args'
        ∧ args' = args.drop steps.length
        ∧ out = os ++ written steps
        ∧ Fails snprintf T' args' e := by
  constructor
  · intro h
    obtain ⟨steps, T', args', hp, hos, hf⟩ :=
      format__error_inv snprintf args T os FormatInfo.fresh out e h
    exact ⟨steps, T', args', hp, processed_args snprintf hp, hos, hf⟩
  · rintro ⟨steps, T', args', hp, -, rfl, hf⟩
    unfold format_stream
    rw [format__processed snprintf hp, format__fails snprintf hf]

/-- C20 at three runs that fail after one processed specification: "a%d-%d" with
one argument (`Not enough arguments`, the text "-" is not written), "a%d-" with
two arguments (`Too many arguments`, the trailing "-" is not written) and
"a%d-%" with two arguments (a grammar error). -/
theorem partial_output_on_failure_witness :
    format_stream host_snprintf ['>'] ['a', '%', 'd', '-', '%', 'd'] [Arg.signed_int 5]
        = (['>'] ++ written [(['a'], ['5'])], .error .not_enough_args)
      ∧ format_stream host_snprintf ['>'] ['a', '%', 'd', '-'] [Arg.signed_int 5, Arg.signed_int 6]
        = (['>', 'a', '5'], .error .too_many_args)
      ∧ format_stream host_snprintf ['>'] ['a', '%', 'd', '-', '%']
          [Arg.signed_int 5, Arg.signed_int 6]
        = (['>', 'a', '5'], .error .zero_type_spec) :=
  ⟨(partial_output_on_failure host_snprintf ['>'] ['a', '%', 'd', '-', '%', 'd']
      [Arg.signed_int 5] _ .not_enough_args).2
      ⟨[(['a'], ['5'])], ['-', '%', 'd'], [],
        Processed.step _ (Arg.signed_int 5) []
          ⟨['a'], ['-', '%', 'd'], ['%'], [NUL, NUL, NUL], 'd'⟩ ['5'] [] _ _ rfl rfl
          (Processed.done _ _),
        rfl, rfl, Or.inr (Or.inl ⟨rfl, rfl, _, rfl⟩)⟩,
    rfl, rfl⟩

/-- C21 (conversions no argument type supports). A conversion of the grammar whose
type character is `i`, or whose length modifier is `j`, `z` or `t`, is accepted
by the decomposer, which returns true with that length and type character, and
is rejected by the substituter with a type-mismatch error (`Bad length
specifier` or `Bad type specifier`) for every supported argument; so
`format_stream` and `format_string` raise that error when such a conversion
meets an argument, whatever was processed before it. -/
theorem unsupported_conversions (snprintf : Snprintf) (os T : List Char) (args : List Arg)
    (steps : List (List Char × List Char)) (arg : Arg) (rest : List Arg)
    (raw flags width prec len R : List Char) (c : Char)
    (hraw : no_unescaped raw = true)
    (hf : ∀ x ∈ flags, x ∈ validflags) (hw : ∀ x ∈ width, isdigit x = true)
    (hp : prec = [] ∨ ∃ ds, prec = '.' :: ds ∧ ∀ x ∈ ds, isdigit x = true)
    (hlen : len = [] ∨ len ∈ validlengths) (hc : c ∈ validspec)
    (h : c = 'i' ∨ len = ['j'] ∨ len = ['z'] ∨ len = ['t'])
    (hearlier : Processed snprintf T args steps
      (raw ++ ('%' :: (flags ++ width ++ prec)) ++ len ++ c :: R) (arg :: rest)) :
    (∀ fi, get_next_format_ fi (raw ++ ('%' :: (flags ++ width ++ prec)) ++ len ++ c :: R)
        = .ok (true, ⟨collapse raw, R, '%' :: (flags ++ width ++ prec),
            len ++ List.replicate (3 - len.length) NUL, c⟩))
      ∧ (∀ F buf, c_str buf = len →
          ∃ e, handle_fmt_ snprintf F buf c arg = .error e ∧ type_mismatch e = true)
      ∧ (∃ e, type_mismatch e = true
          ∧ format_stream snprintf os T args = (os ++ written steps, .error e)
          ∧ format_string snprintf T args = .error e) := by
  have e1 := fun fi =>
    get_next_format__accept fi raw flags width prec len R c hraw hf hw hp hlen hc
  have hsub : ∀ F buf, c_str buf = len →
      ∃ e, handle_fmt_ snprintf F buf c arg = .error e ∧ type_mismatch e = true := by
    intro F buf hbuf
    apply handle_fmt__unsupported
    rw [hbuf]
    exact h
  have hbuf : c_str (len ++ List.replicate (3 - len.length) NUL) = len :=
    c_str_padded len _ (validlengths_chars hlen).2.2
  obtain ⟨e, he, hm⟩ := hsub ('%' :: (flags ++ width ++ prec)) _ hbuf
  have hfail : Fails snprintf (raw ++ ('%' :: (flags ++ width ++ prec)) ++ len ++ c :: R)
      (arg :: rest) e :=
    Or.inr (Or.inr (Or.inr ⟨arg, rest, _, rfl, e1 FormatInfo.fresh, he⟩))
  have hrun : ∀ os, format_stream snprintf os T args = (os ++ written steps, .error e) := by
    intro os
    unfold format_stream
    rw [format__processed snprintf hearlier, format__fails snprintf hfail]
  refine ⟨e1, hsub, e, hm, hrun os, ?_⟩
  simp only [format_string, hrun]

/-- C21 at the four templates "%i", "%zu", "%jd" and "%td", with an `int`, an
`unsigned long`, a `long long` and a `long` argument. -/
theorem unsupported_conversions_witness :
    (∃ e, type_mismatch e = true
        ∧ format_stream host_snprintf [] ['%', 'i'] [Arg.signed_int 5]
          = ([] ++ written [], .error e)
        ∧ format_string host_snprintf ['%', 'i'] [Arg.signed_int 5] = .error e)
      ∧ format_string host_snprintf ['%', 'i'] [Arg.signed_int 5]
        = .error (.bad_type 'i' .signed_int)
      ∧ format_string host_snprintf ['%', 'z', 'u'] [Arg.unsigned_long 5]
        = .error (.bad_length ['z'] .unsigned_long)
      ∧ format_string host_snprintf ['%', 'j', 'd'] [Arg.signed_long_long 5]
        = .error (.bad_length ['j'] .signed_long_long)
      ∧ format_string host_snprintf ['%', 't', 'd'] [Arg.signed_long 5]
        = .error (.bad_length ['t'] .signed_long) :=
  ⟨(unsupported_conversions host_snprintf [] ['%', 'i'] [Arg.signed_int 5] []
      (Arg.signed_int 5) [] [] [] [] [] [] [] 'i' (by decide) (by decide) (by decide)
      (Or.inl rfl) (Or.inl rfl) (by decide) (Or.inl rfl) (Processed.done _ _)).2.2,
    rfl, rfl, rfl, rfl⟩

/-- C22 (workspace independence). For every template, every argument list and any
two initial workspaces, `format_` writes the same text to the stream and raises
the same error or none. The decomposer raises the same error for both, a
spec-found decomposition leaves the same workspace for both (all five fields are
overwritten), and a literal-only decomposition leaves the same `prefix`, the
only field read after it. -/
theorem workspace_independence (snprintf : Snprintf) (os : List Char) (fi fi' : FormatInfo)
    (T : List Char) (args : List Arg) :
    format_ snprintf os fi T args = format_ snprintf os fi' T args
      ∧ (∀ e, get_next_format_ fi T = .error e ↔ get_next_format_ fi' T = .error e)
      ∧ (∀ r, get_next_format_ fi T = .ok (true, r) ↔ get_next_format_ fi' T = .ok (true, r))
      ∧ (∀ r, get_next_format_ fi T = .ok (false, r) →
          ∃ r', get_next_format_ fi' T = .ok (false, r') ∧ r'.pre = r.pre)
      ∧ format_stream snprintf os T args = format_ snprintf os fi T args := by
  obtain ⟨a1, a2, -⟩ := get_next_format__fresh fi T
  obtain ⟨b1, b2, -⟩ := get_next_format__fresh fi' T
  refine ⟨format__workspace snprintf os fi' fi T args, fun e => (a1 e).trans (b1 e).symm,
    fun r => (a2 r).trans (b2 r).symm, ?_, ?_⟩
  · intro r hr
    have h := get_next_format__workspace fi fi' T
    rw [hr] at h
    exact ⟨_, h, rfl⟩
  · unfold format_stream
    exact format__workspace snprintf os fi FormatInfo.fresh T args

/-- C22 at "[%d]" with the `int` 42, from the empty workspace and from one left
behind by another call: both runs write "[42]". -/
theorem workspace_independence_witness :
    format_ host_snprintf [] ⟨[], [], [], [NUL, NUL, NUL], NUL⟩ ['[', '%', 'd', ']']
        [Arg.signed_int 42]
      = format_ host_snprintf [] ⟨['x'], ['%', 's'], ['%', '5'], ['l', 'l', NUL], 'u'⟩
          ['[', '%', 'd', ']'] [Arg.signed_int 42]
      ∧ format_ host_snprintf [] ⟨['x'], ['%', 's'], ['%', '5'], ['l', 'l', NUL], 'u'⟩
          ['[', '%', 'd', ']'] [Arg.signed_int 42] = (['[', '4', '2', ']'], .ok ()) :=
  ⟨(workspace_independence host_snprintf [] ⟨[], [], [], [NUL, NUL, NUL], NUL⟩
      ⟨['x'], ['%', 's'], ['%', '5'], ['l', 'l', NUL], 'u'⟩ ['[', '%', 'd', ']']
      [Arg.signed_int 42]).1, rfl⟩

end bpprint
